import Mathlib

set_option linter.unusedVariables false

/-!
Verification development for the ZX16 two-pass assembler
(`src/assembler/zx16asm.py`).

The Python source is shallowly embedded: Python unbounded integers become
`Int`, byte buffers become `List Nat` (entries are always in `[0,255]`
because the source masks with `& 0xFF` before appending), dictionaries
become association lists, exceptions become `Except`, and the lexer
loops that can run forever in the source are given an explicit divergence
outcome.  Python bitwise operators on unbounded two's-complement integers
are modelled by `pyAnd`, `pyOr`, `pyNot`, `pyShl`, `pyShr` below; on Int,
`/` and `%` are Euclidean division, which agrees with Python floor
division and modulo whenever the divisor is positive (the only case the
source uses).
-/

/-- Python `x >> n`: arithmetic shift, i.e. floor division by `2 ^ n`. -/
def pyShr (x : Int) (n : Nat) : Int := x / 2 ^ n

/-- Python `x << n` for the nonnegative shift amounts the source uses. -/
def pyShl (x : Int) (n : Nat) : Int := x * 2 ^ n

/-- Python `~x` on unbounded two's-complement integers. -/
def pyNot (x : Int) : Int := -x - 1

/-- Python `x & y` on unbounded two's-complement integers.  For two
nonnegative arguments this is `Nat.land`; the mixed cases use
`a AND (NOT b) = a - (a AND b)` (valid because the set bits of `a AND b`
are a subset of those of `a`), and the doubly negative case is
`x AND y = NOT ((NOT x) OR (NOT y))`. -/
def pyAnd (x y : Int) : Int :=
  if 0 ≤ x then
    if 0 ≤ y then Int.ofNat (x.toNat &&& y.toNat)
    else Int.ofNat (x.toNat - (x.toNat &&& (-y - 1).toNat))
  else
    if 0 ≤ y then Int.ofNat (y.toNat - (y.toNat &&& (-x - 1).toNat))
    else -(Int.ofNat ((-x - 1).toNat ||| (-y - 1).toNat)) - 1

/-- Python `x | y` on unbounded two's-complement integers
(`x | y = NOT ((NOT x) AND (NOT y))`). -/
def pyOr (x y : Int) : Int :=
  if 0 ≤ x then
    if 0 ≤ y then Int.ofNat (x.toNat ||| y.toNat)
    else -(Int.ofNat ((-y - 1).toNat - ((-y - 1).toNat &&& x.toNat))) - 1
  else
    if 0 ≤ y then
      -(Int.ofNat ((-x - 1).toNat - ((-x - 1).toNat &&& y.toNat))) - 1
    else -(Int.ofNat ((-x - 1).toNat &&& (-y - 1).toNat)) - 1

theorem two_pow_cast (k : Nat) : ((2 ^ k : Nat) : Int) = 2 ^ k := by push_cast; ring

theorem neg_emod_two_pow (m k : Nat) :
    (-1 - (m : Int)) % 2 ^ k
      = ((2 ^ k : Nat) : Int) - 1 - ((m % 2 ^ k : Nat) : Int) := by
  have hc := two_pow_cast k
  have hN : 1 ≤ 2 ^ k := Nat.one_le_two_pow
  have hmlt : m % 2 ^ k < 2 ^ k := Nat.mod_lt _ (by omega)
  have hdm : ((2 ^ k : Nat) : Int) * ((m / 2 ^ k : Nat) : Int)
      + ((m % 2 ^ k : Nat) : Int) = (m : Int) := by
    exact_mod_cast congrArg (fun n : Nat => (n : Int)) (Nat.div_add_mod m (2 ^ k))
  have hrepr : -1 - (m : Int)
      = (((2 ^ k : Nat) : Int) - 1 - ((m % 2 ^ k : Nat) : Int))
        + ((2 ^ k : Nat) : Int) * (-((m / 2 ^ k : Nat) : Int) - 1) := by
    linear_combination hdm
  rw [hrepr, ← hc, Int.add_mul_emod_self_left, hc]
  exact Int.emod_eq_of_lt (by omega) (by omega)

theorem neg_ediv_two_pow (m k : Nat) :
    (-1 - (m : Int)) / 2 ^ k = -((m / 2 ^ k : Nat) : Int) - 1 := by
  have hc := two_pow_cast k
  have hN : 1 ≤ 2 ^ k := Nat.one_le_two_pow
  have hmlt : m % 2 ^ k < 2 ^ k := Nat.mod_lt _ (by omega)
  have hdm : ((2 ^ k : Nat) : Int) * ((m / 2 ^ k : Nat) : Int)
      + ((m % 2 ^ k : Nat) : Int) = (m : Int) := by
    exact_mod_cast congrArg (fun n : Nat => (n : Int)) (Nat.div_add_mod m (2 ^ k))
  have hrepr : -1 - (m : Int)
      = (((2 ^ k : Nat) : Int) - 1 - ((m % 2 ^ k : Nat) : Int))
        + ((2 ^ k : Nat) : Int) * (-((m / 2 ^ k : Nat) : Int) - 1) := by
    linear_combination hdm
  rw [hrepr, ← hc, Int.add_mul_ediv_left _ _ (by omega : ((2 ^ k : Nat) : Int) ≠ 0),
    Int.ediv_eq_zero_of_lt (by omega) (by omega)]
  ring

theorem nonneg_emod_two_pow (x : Int) (k : Nat) (hx : 0 ≤ x) :
    x % 2 ^ k = ((x.toNat % 2 ^ k : Nat) : Int) := by
  have hc := two_pow_cast k
  rw [Int.ofNat_emod, Int.toNat_of_nonneg hx, hc]

theorem nonneg_ediv_two_pow (x : Int) (k : Nat) (hx : 0 ≤ x) :
    x / 2 ^ k = ((x.toNat / 2 ^ k : Nat) : Int) := by
  have hc := two_pow_cast k
  rw [Int.ofNat_ediv, Int.toNat_of_nonneg hx, hc]

/-- Masking with an all-ones mask is reduction modulo a power of two,
for every integer (Python semantics). -/
theorem pyAnd_mask (x : Int) (k : Nat) : pyAnd x (2 ^ k - 1) = x % 2 ^ k := by
  have hc := two_pow_cast k
  have hN : 1 ≤ 2 ^ k := Nat.one_le_two_pow
  have hy : (0 : Int) ≤ 2 ^ k - 1 := by omega
  unfold pyAnd
  by_cases hx : 0 ≤ x
  · rw [if_pos hx, if_pos hy]
    simp only [Int.ofNat_eq_natCast]
    have h1 : (2 ^ k - 1 : Int).toNat = 2 ^ k - 1 := by omega
    rw [h1, Nat.and_pow_two_sub_one_eq_mod, nonneg_emod_two_pow x k hx]
  · rw [if_neg hx, if_pos hy]
    simp only [Int.ofNat_eq_natCast]
    set m : Nat := (-x - 1).toNat with hm
    have h1 : (2 ^ k - 1 : Int).toNat = 2 ^ k - 1 := by omega
    have hmlt : m % 2 ^ k < 2 ^ k := Nat.mod_lt _ (by omega)
    have hx2 : x % 2 ^ k = ((2 ^ k : Nat) : Int) - 1 - ((m % 2 ^ k : Nat) : Int) := by
      have hxm : x = -1 - (m : Int) := by omega
      rw [hxm, neg_emod_two_pow]
    rw [h1, Nat.and_comm, Nat.and_pow_two_sub_one_eq_mod, hx2]
    omega

/-- ORing with `-(2 ^ k)` (that is, with `NOT (2 ^ k - 1)`) keeps the low
`k` bits and makes every higher bit one, for every integer. -/
theorem pyOr_low (x : Int) (k : Nat) : pyOr x (-(2 ^ k)) = x % 2 ^ k - 2 ^ k := by
  have hc := two_pow_cast k
  have hN : 1 ≤ 2 ^ k := Nat.one_le_two_pow
  have hyneg : ¬ (0 : Int) ≤ -(2 ^ k) := by omega
  unfold pyOr
  by_cases hx : 0 ≤ x
  · rw [if_pos hx, if_neg hyneg]
    simp only [Int.ofNat_eq_natCast]
    have h1 : (-(-((2 : Int) ^ k)) - 1).toNat = 2 ^ k - 1 := by omega
    have hmlt : x.toNat % 2 ^ k < 2 ^ k := Nat.mod_lt _ (by omega)
    rw [h1, Nat.and_comm, Nat.and_pow_two_sub_one_eq_mod, nonneg_emod_two_pow x k hx]
    omega
  · rw [if_neg hx, if_neg hyneg]
    simp only [Int.ofNat_eq_natCast]
    set m : Nat := (-x - 1).toNat with hm
    have h1 : (-(-((2 : Int) ^ k)) - 1).toNat = 2 ^ k - 1 := by omega
    have hmlt : m % 2 ^ k < 2 ^ k := Nat.mod_lt _ (by omega)
    have hx2 : x % 2 ^ k = ((2 ^ k : Nat) : Int) - 1 - ((m % 2 ^ k : Nat) : Int) := by
      have hxm : x = -1 - (m : Int) := by omega
      rw [hxm, neg_emod_two_pow]
    rw [h1, Nat.and_pow_two_sub_one_eq_mod, hx2]
    omega

/-- ANDing with a single-bit mask `2 ^ k` extracts bit `k`, for every
integer. -/
theorem pyAnd_bit (x : Int) (k : Nat) : pyAnd x (2 ^ k) = x / 2 ^ k % 2 * 2 ^ k := by
  have hc := two_pow_cast k
  have hN : 1 ≤ 2 ^ k := Nat.one_le_two_pow
  have hy : (0 : Int) ≤ 2 ^ k := by omega
  unfold pyAnd
  by_cases hx : 0 ≤ x
  · rw [if_pos hx, if_pos hy]
    simp only [Int.ofNat_eq_natCast]
    have h1 : ((2 : Int) ^ k).toNat = 2 ^ k := by omega
    have hdiv := nonneg_ediv_two_pow x k hx
    have hmod : x / 2 ^ k % 2 = ((x.toNat / 2 ^ k % 2 : Nat) : Int) := by omega
    rw [h1, Nat.and_two_pow, Nat.testBit_to_div_mod, hmod]
    by_cases hb : x.toNat / 2 ^ k % 2 = 1
    · rw [hb]
      simp [hb, hc]
    · have hb0 : x.toNat / 2 ^ k % 2 = 0 := by omega
      rw [hb0]
      simp [hb, hc]
  · rw [if_neg hx, if_pos hy]
    simp only [Int.ofNat_eq_natCast]
    set m : Nat := (-x - 1).toNat with hm
    have h1 : ((2 : Int) ^ k).toNat = 2 ^ k := by omega
    have hxdiv : x / 2 ^ k = -((m / 2 ^ k : Nat) : Int) - 1 := by
      have hxm : x = -1 - (m : Int) := by omega
      rw [hxm, neg_ediv_two_pow]
    have hmod1 : ∀ q : Nat, q % 2 = 0 → (-((q : Int)) - 1) % 2 = 1 := by
      intro q hq
      omega
    have hmod0 : ∀ q : Nat, q % 2 = 1 → (-((q : Int)) - 1) % 2 = 0 := by
      intro q hq
      omega
    rw [h1, Nat.and_comm, Nat.and_two_pow, Nat.testBit_to_div_mod, hxdiv]
    by_cases hb : m / 2 ^ k % 2 = 1
    · rw [hmod0 _ hb]
      simp [hb, hc]
    · have hb0 : m / 2 ^ k % 2 = 0 := by omega
      rw [hmod1 _ hb0]
      simp [hb, hc]

/-- ORing a nonnegative multiple of `2 ^ k` with a nonnegative value below
`2 ^ k` is addition (the bit ranges are disjoint). -/
theorem pyOr_disj (a b : Int) (k : Nat) (ha : 0 ≤ a) (hmod : a % 2 ^ k = 0)
    (hb : 0 ≤ b) (hb2 : b < 2 ^ k) : pyOr a b = a + b := by
  have hc := two_pow_cast k
  have hN : 1 ≤ 2 ^ k := Nat.one_le_two_pow
  unfold pyOr
  rw [if_pos ha, if_pos hb]
  simp only [Int.ofNat_eq_natCast]
  have hbN : b.toNat < 2 ^ k := by omega
  have haN : a.toNat % 2 ^ k = 0 := by
    have h2 := nonneg_emod_two_pow a k ha
    omega
  have hrepr : a.toNat = 2 ^ k * (a.toNat / 2 ^ k) := by
    have := Nat.div_add_mod a.toNat (2 ^ k)
    omega
  have hor : a.toNat ||| b.toNat = a.toNat + b.toNat := by
    conv_lhs => rw [hrepr]
    rw [← Nat.mul_add_lt_is_or hbN]
    rw [← hrepr]
  rw [hor]
  omega

/-! ## Tokens and diagnostics (`TokenType`, `Token`, `AssemblyError`, `Symbol`) -/

inductive TokenType where
  | INSTRUCTION | REGISTER | IMMEDIATE | LABEL | DIRECTIVE | STRING
  | CHARACTER | COMMENT | NEWLINE | COMMA | COLON | LPAREN | RPAREN | EOF
deriving DecidableEq, Repr

structure Token where
  type : TokenType
  value : String
  line : Nat
  column : Nat
deriving DecidableEq, Repr

structure AssemblyError where
  message : String
  line : Nat
  column : Nat
  severity : String
deriving DecidableEq, Repr

structure AsmSymbol where
  name : String
  value : Int
  defined : Bool
  global_symbol : Bool
  line : Nat
deriving DecidableEq, Repr

/-- Python `int(s)` for the canonical decimal strings (`str(n)`) stored in
`IMMEDIATE` and `CHARACTER` token values. -/
def digitsToNat (ds : List Char) : Nat := ds.foldl (fun a c => 10 * a + (c.toNat - 48)) 0

def pyInt (s : String) : Int :=
  match s.toList with
  | '-' :: ds => -(digitsToNat ds : Int)
  | ds => (digitsToNat ds : Int)

/-! ## Lexer (`ZX16Lexer`)

The lexer is embedded over a suffix of the character list together with
the current line and column.  Python's `current_char` returns the empty
string at end of input, and the empty string is a substring of every
string, so `while self.current_char() in ' \t\r'` (in `skip_whitespace`)
and the hex/binary/octal digit loops in `read_number` loop forever when
they reach the end of the input; these divergences are modelled by the
`hang` outcome of `LexM`. -/

structure LexSt where
  rest : List Char
  line : Nat
  column : Nat
deriving DecidableEq, Repr

inductive LexM (α : Type) where
  | hang
  | err (msg : String)
  | ok (a : α)
deriving DecidableEq, Repr

/-- Advancing over one character: `advance` updates line/column. -/
def stepLC (c : Char) (line col : Nat) : Nat × Nat :=
  if c = '\n' then (line + 1, 1) else (line, col + 1)

def isWS (c : Char) : Bool := c == ' ' || c == '\t' || c == '\r'

def identChar (c : Char) : Bool := c.isAlphanum || c == '_'

def hexChar (c : Char) : Bool :=
  c.isDigit || c.toLower == 'a' || c.toLower == 'b' || c.toLower == 'c' ||
    c.toLower == 'd' || c.toLower == 'e' || c.toLower == 'f'

def binChar (c : Char) : Bool := c == '0' || c == '1'

def octChar (c : Char) : Bool := c.isDigit && decide (c.toNat ≤ 55)

/-- `skip_whitespace`.  Returns `none` when the loop reaches the end of
the input, where the Python loop would run forever. -/
def skipWS : List Char → Nat → Nat → Option (List Char × Nat × Nat)
  | [], _, _ => none
  | c :: cs, line, col =>
    if isWS c then skipWS cs (stepLC c line col).1 (stepLC c line col).2
    else some (c :: cs, line, col)

theorem skipWS_len {cs : List Char} {line col : Nat} {r : List Char} {l2 c2 : Nat}
    (h : skipWS cs line col = some (r, l2, c2)) : r.length ≤ cs.length := by
  induction cs generalizing line col with
  | nil => simp [skipWS] at h
  | cons c cs ih =>
    rw [skipWS] at h
    by_cases hw : isWS c
    · rw [if_pos hw] at h
      have := ih h
      simp
      omega
    · rw [if_neg hw] at h
      cases h
      simp

/-- The escape map of `read_string` (unknown escapes yield the escape
character verbatim). -/
def escMapS (e : Char) : Char :=
  if e = 'n' then '\n' else if e = 't' then '\t' else if e = 'r' then '\r'
  else if e = '\\' then '\\' else if e = '"' then '"' else e

/-- Body of `read_string` after the opening quote has been consumed.
Returns the (escape-processed) contents and the state after the closing
quote. -/
def readStringBody : List Char → Nat → Nat → (String × List Char × Nat × Nat)
  | [], line, col => ("", [], line, col)
  | c :: cs, line, col =>
    if c = '"' then ("", cs, line, col + 1)
    else if c = '\\' then
      match cs with
      | [] => ("", [], line, col + 2)
      | e :: cs2 =>
        let r := readStringBody cs2 (stepLC e (stepLC '\\' line col).1 (stepLC '\\' line col).2).1
          (stepLC e (stepLC '\\' line col).1 (stepLC '\\' line col).2).2
        (String.singleton (escMapS e) ++ r.1, r.2)
    else
      let r := readStringBody cs (stepLC c line col).1 (stepLC c line col).2
      (String.singleton c ++ r.1, r.2)

theorem readStringBody_len (cs : List Char) (line col : Nat) :
    (readStringBody cs line col).2.1.length ≤ cs.length := by
  induction cs, line, col using readStringBody.induct <;>
    (rw [readStringBody.eq_def]; try simp_all; try omega)

theorem dropWhile_len_le (p : Char → Bool) (cs : List Char) :
    (cs.dropWhile p).length ≤ cs.length := by
  have h := congrArg List.length (List.takeWhile_append_dropWhile (p := p) (l := cs))
  rw [List.length_append] at h
  omega

theorem dropWhile_len_lt (p : Char → Bool) (cs : List Char)
    (h : cs.takeWhile p ≠ []) : (cs.dropWhile p).length < cs.length := by
  have h2 := congrArg List.length (List.takeWhile_append_dropWhile (p := p) (l := cs))
  rw [List.length_append] at h2
  have h3 : (cs.takeWhile p).length ≠ 0 := by simpa using h
  omega

/-- Digit-list values for the numeric bases of `read_number`. -/
def hexVal (c : Char) : Nat := if c.isDigit then c.toNat - 48 else c.toLower.toNat - 87

def hexDigitsToNat (ds : List Char) : Nat := ds.foldl (fun a c => 16 * a + hexVal c) 0

def binDigitsToNat (ds : List Char) : Nat := ds.foldl (fun a c => 2 * a + (c.toNat - 48)) 0

def octDigitsToNat (ds : List Char) : Nat := ds.foldl (fun a c => 8 * a + (c.toNat - 48)) 0

/-- The decimal tail of `read_number` (also reached by the
leading-`0` restore path).  `int` of an empty digit string raises
`ValueError`; the loop guard `isdigit` is false on the empty string so
this path never hangs. -/
def readDecimal (cs : List Char) (line col : Nat) : LexM (Int × List Char × Nat × Nat) :=
  if (cs.takeWhile Char.isDigit) = [] then .err "invalid decimal literal"
  else .ok ((digitsToNat (cs.takeWhile Char.isDigit) : Int), cs.dropWhile Char.isDigit, line,
    col + (cs.takeWhile Char.isDigit).length)

/-- `read_number`.  The hex/binary/octal digit loops test
`current_char().lower() in "…digits…"`, which is true for the empty
string, so reaching the end of the input inside one of these loops hangs
(`LexM.hang`); an empty digit string otherwise raises `ValueError` in
`int`.  The restore path (`self.pos = start_pos`) restores the position
but not the column, hence the `col + 1`. -/
def readNumber : List Char → Nat → Nat → LexM (Int × List Char × Nat × Nat)
  | '0' :: c :: cs2, line, col =>
    if c.toLower = 'x' then
      if (cs2.dropWhile hexChar) = [] then .hang
      else if (cs2.takeWhile hexChar) = [] then .err "invalid hex literal"
      else .ok ((hexDigitsToNat (cs2.takeWhile hexChar) : Int), cs2.dropWhile hexChar, line,
        col + 2 + (cs2.takeWhile hexChar).length)
    else if c.toLower = 'b' then
      if (cs2.dropWhile binChar) = [] then .hang
      else if (cs2.takeWhile binChar) = [] then .err "invalid binary literal"
      else .ok ((binDigitsToNat (cs2.takeWhile binChar) : Int), cs2.dropWhile binChar, line,
        col + 2 + (cs2.takeWhile binChar).length)
    else if c.toLower = 'o' then
      if (cs2.dropWhile octChar) = [] then .hang
      else if (cs2.takeWhile octChar) = [] then .err "invalid octal literal"
      else .ok ((octDigitsToNat (cs2.takeWhile octChar) : Int), cs2.dropWhile octChar, line,
        col + 2 + (cs2.takeWhile octChar).length)
    else readDecimal ('0' :: c :: cs2) line (col + 1)
  | cs, line, col => readDecimal cs line col

theorem readDecimal_len {cs : List Char} {line col : Nat} {v : Int} {r : List Char} {l2 c2 : Nat}
    (h : readDecimal cs line col = .ok (v, r, l2, c2)) : r.length < cs.length := by
  unfold readDecimal at h
  by_cases he : cs.takeWhile Char.isDigit = []
  · rw [if_pos he] at h
    cases h
  · rw [if_neg he] at h
    cases h
    exact dropWhile_len_lt _ _ he

theorem readNumber_len {cs : List Char} {line col : Nat} {v : Int} {r : List Char} {l2 c2 : Nat}
    (h : readNumber cs line col = .ok (v, r, l2, c2)) : r.length < cs.length := by
  rw [readNumber.eq_def] at h
  split at h
  · next c cs2 =>
    split_ifs at h <;>
      first
        | exact readDecimal_len h
        | (simp at h
           try (obtain ⟨-, h2, -, -⟩ := h
                have hle1 := dropWhile_len_le hexChar cs2
                have hle2 := dropWhile_len_le binChar cs2
                have hle3 := dropWhile_len_le octChar cs2
                simp [← h2]
                omega))
  · exact readDecimal_len h

/-- Body of a `/* … */` block comment after the opening two characters;
returns the consumed characters, the rest, and the updated position.  The
loop guard is `pos < len(text) - 1`, so an unterminated comment leaves
the final character unconsumed. -/
def blockBody : List Char → Nat → Nat → (List Char × List Char × Nat × Nat)
  | [], line, col => ([], [], line, col)
  | [a], line, col => ([], [a], line, col)
  | a :: b :: cs, line, col =>
    if a = '*' ∧ b = '/' then ([a, b], cs, line, col + 2)
    else
      let r := blockBody (b :: cs) (stepLC a line col).1 (stepLC a line col).2
      (a :: r.1, r.2)

theorem blockBody_len (cs : List Char) (line col : Nat) :
    (blockBody cs line col).2.1.length ≤ cs.length := by
  induction cs, line, col using blockBody.induct with
  | case1 l c => simp [blockBody]
  | case2 a l c => simp [blockBody]
  | case3 a b cs l c h => simp_all [blockBody]; omega
  | case4 a b cs l c h ih =>
    rw [blockBody]
    rw [if_neg (by tauto)]
    simp at ih ⊢
    omega

/-- The optional closing-quote consumption of the character-literal
branch (`if self.current_char() == "'": self.advance()`); returns the
rest and the number of columns consumed. -/
def charClose : List Char → (List Char × Nat)
  | q :: cs2 => if q.toNat = 39 then (cs2, 1) else (q :: cs2, 0)
  | [] => ([], 0)

theorem charClose_len (cs : List Char) : (charClose cs).1.length ≤ cs.length := by
  rcases cs with _ | ⟨q, cs2⟩
  · simp [charClose]
  · rw [charClose]
    split_ifs <;> simp

/-- The escape map of the character-literal branch; the backslash and
single-quote entries equal `ord` of the character itself and are folded
into the default. -/
def escCharVal (e : Char) : Nat :=
  if e = 'n' then 10 else if e = 't' then 9 else if e = 'r' then 13 else e.toNat

/-- The character-literal branch of `tokenize`, after the opening quote.
`ord('')` (end of input where a character is expected) raises a
`TypeError`, modelled as `LexM.err`. -/
def readCharLit : List Char → Nat → Nat → LexM (Nat × List Char × Nat × Nat)
  | [], _, _ => .err "ord() expected a character"
  | c :: cs, line, col =>
    if c = '\\' then
      match cs with
      | [] => .err "ord() expected a character"
      | e :: cs2 =>
        .ok (escCharVal e, (charClose cs2).1, (stepLC e line (col + 1)).1,
          (stepLC e line (col + 1)).2 + (charClose cs2).2)
    else
      .ok (c.toNat, (charClose cs).1, (stepLC c line col).1,
        (stepLC c line col).2 + (charClose cs).2)

theorem readCharLit_len {cs : List Char} {line col : Nat} {v : Nat} {r : List Char} {l2 c2 : Nat}
    (h : readCharLit cs line col = .ok (v, r, l2, c2)) : r.length ≤ cs.length := by
  rw [readCharLit.eq_def] at h
  split at h
  · simp at h
  · next c cs =>
    split_ifs at h with hb
    · split at h
      · simp at h
      · next e cs2 =>
        simp only [LexM.ok.injEq, Prod.mk.injEq] at h
        obtain ⟨-, h2, -, -⟩ := h
        rw [← h2]
        have := charClose_len cs2
        simp
        omega
    · simp only [LexM.ok.injEq, Prod.mk.injEq] at h
      obtain ⟨-, h2, -, -⟩ := h
      rw [← h2]
      have := charClose_len cs
      simp
      omega

/-- Python `str.lower()` (ASCII), written over the character list so
that the kernel can evaluate it. -/
def strLower (s : String) : String := String.mk (s.data.map Char.toLower)

/-- `is_register`. -/
def isRegister (s : String) : Bool :=
  let l := strLower s
  l == "x0" || l == "x1" || l == "x2" || l == "x3" || l == "x4" || l == "x5" ||
    l == "x6" || l == "x7" || l == "t0" || l == "ra" || l == "sp" || l == "s0" ||
    l == "s1" || l == "t1" || l == "a0" || l == "a1"

/-- The outcome of one iteration of the `tokenize` main loop:
either tokens are appended and scanning continues from `rest`, or the
loop finishes (appending the EOF token), hangs, or raises. -/
inductive TokStep where
  | emit (ts : List Token) (rest : List Char) (line col : Nat)
  | eofS (t : Token)
  | hangS
  | errS (msg : String)
deriving DecidableEq, Repr

/-- One iteration of the `tokenize` main loop (dispatch on the current
character, in source order).  The divergences of `skip_whitespace`
(including the identifier-vs-label lookahead, which restores only the
position, not the line and column) and of the hex/binary/octal digit
loops of `read_number` yield `TokStep.hangS`; the
`if not self.current_char(): break` of the source is unreachable because
`skip_whitespace` only returns at a non-whitespace character. -/
def tokStep (cs : List Char) (line col : Nat) : TokStep :=
  match cs with
  | [] => .eofS ⟨.EOF, "", line, col⟩
  | _ :: _ =>
    match skipWS cs line col with
    | none => .hangS
    | some ([], l1, c1) => .eofS ⟨.EOF, "", l1, c1⟩
    | some (c :: cs2, l1, c1) =>
      if c = '\n' then
        .emit [⟨.NEWLINE, "\n", l1, c1⟩] cs2 (l1 + 1) 1
      else if c = '#' then
        .emit [⟨.COMMENT, String.mk (c :: cs2.takeWhile (fun ch => ch != '\n')), l1, c1⟩]
          (cs2.dropWhile (fun ch => ch != '\n')) l1
          (c1 + 1 + (cs2.takeWhile (fun ch => ch != '\n')).length)
      else if c = '/' ∧ cs2.head? = some '*' then
        .emit [⟨.COMMENT, String.mk ('/' :: '*' :: (blockBody cs2.tail l1 (c1 + 2)).1), l1, c1⟩]
          (blockBody cs2.tail l1 (c1 + 2)).2.1 (blockBody cs2.tail l1 (c1 + 2)).2.2.1
          (blockBody cs2.tail l1 (c1 + 2)).2.2.2
      else if c = ',' then .emit [⟨.COMMA, ",", l1, c1⟩] cs2 l1 (c1 + 1)
      else if c = ':' then .emit [⟨.COLON, ":", l1, c1⟩] cs2 l1 (c1 + 1)
      else if c = '(' then .emit [⟨.LPAREN, "(", l1, c1⟩] cs2 l1 (c1 + 1)
      else if c = ')' then .emit [⟨.RPAREN, ")", l1, c1⟩] cs2 l1 (c1 + 1)
      else if c = '"' then
        .emit [⟨.STRING, (readStringBody cs2 l1 (c1 + 1)).1, l1, c1⟩]
          (readStringBody cs2 l1 (c1 + 1)).2.1 (readStringBody cs2 l1 (c1 + 1)).2.2.1
          (readStringBody cs2 l1 (c1 + 1)).2.2.2
      else if c.toNat = 39 then
        match readCharLit cs2 l1 (c1 + 1) with
        | .hang => .hangS
        | .err m => .errS m
        | .ok (v, r, l2, c2) => .emit [⟨.CHARACTER, toString v, l1, c1⟩] r l2 c2
      else if c = '-' ∧ (cs2.head?.map Char.isDigit).getD false then
        match readNumber cs2 l1 (c1 + 1) with
        | .hang => .hangS
        | .err m => .errS m
        | .ok (n, r, l2, c2) => .emit [⟨.IMMEDIATE, toString (-n), l1, c1⟩] r l2 c2
      else if c.isDigit then
        match readNumber (c :: cs2) l1 c1 with
        | .hang => .hangS
        | .err m => .errS m
        | .ok (n, r, l2, c2) => .emit [⟨.IMMEDIATE, toString n, l1, c1⟩] r l2 c2
      else if c = '.' then
        .emit [⟨.DIRECTIVE, String.mk ('.' :: cs2.takeWhile identChar), l1, c1⟩]
          (cs2.dropWhile identChar) l1 (c1 + 1 + (cs2.takeWhile identChar).length)
      else if c.isAlpha ∨ c = '_' then
        match skipWS ((c :: cs2).dropWhile identChar) l1
            (c1 + ((c :: cs2).takeWhile identChar).length) with
        | none => .hangS
        | some (r2, l2, c2) =>
          if r2.head? = some ':' then
            .emit [⟨.LABEL, String.mk ((c :: cs2).takeWhile identChar), l1, c1⟩] r2.tail l2 (c2 + 1)
          else if isRegister (String.mk ((c :: cs2).takeWhile identChar)) then
            .emit [⟨.REGISTER, String.mk ((c :: cs2).takeWhile identChar), l1, c1⟩]
              ((c :: cs2).dropWhile identChar) l2 c2
          else
            .emit [⟨.INSTRUCTION, String.mk ((c :: cs2).takeWhile identChar), l1, c1⟩]
              ((c :: cs2).dropWhile identChar) l2 c2
      else
        .emit [] cs2 (stepLC c l1 c1).1 (stepLC c l1 c1).2

set_option maxHeartbeats 1000000 in
theorem tokStep_len {cs : List Char} {line col : Nat} {ts : List Token} {rest : List Char}
    {l2 c2 : Nat} (h : tokStep cs line col = .emit ts rest l2 c2) :
    rest.length < cs.length := by
  rw [tokStep.eq_def] at h
  split at h
  · simp at h
  next a as =>
  split at h
  · simp at h
  · simp at h
  next c cs2 l1 c1 heq =>
  have hw := skipWS_len heq
  simp only [List.length_cons] at hw
  have d1 := dropWhile_len_le (fun ch => ch != '\n') cs2
  have d2 := dropWhile_len_le identChar cs2
  have d3 := readStringBody_len cs2 l1 (c1 + 1)
  have d4 := blockBody_len cs2.tail l1 (c1 + 2)
  have d5 : cs2.tail.length ≤ cs2.length := by cases cs2 <;> simp
  by_cases h1 : c = '\n'
  · rw [if_pos h1] at h
    simp only [TokStep.emit.injEq] at h
    obtain ⟨-, hr, -, -⟩ := h
    subst hr
    simp only [List.length_cons]
    omega
  rw [if_neg h1] at h
  by_cases h2 : c = '#'
  · rw [if_pos h2] at h
    simp only [TokStep.emit.injEq] at h
    obtain ⟨-, hr, -, -⟩ := h
    subst hr
    simp only [List.length_cons]
    omega
  rw [if_neg h2] at h
  by_cases h3 : c = '/' ∧ cs2.head? = some '*'
  · rw [if_pos h3] at h
    simp only [TokStep.emit.injEq] at h
    obtain ⟨-, hr, -, -⟩ := h
    subst hr
    simp only [List.length_cons]
    omega
  rw [if_neg h3] at h
  by_cases h4 : c = ','
  · rw [if_pos h4] at h
    simp only [TokStep.emit.injEq] at h
    obtain ⟨-, hr, -, -⟩ := h
    subst hr
    simp only [List.length_cons]
    omega
  rw [if_neg h4] at h
  by_cases h5 : c = ':'
  · rw [if_pos h5] at h
    simp only [TokStep.emit.injEq] at h
    obtain ⟨-, hr, -, -⟩ := h
    subst hr
    simp only [List.length_cons]
    omega
  rw [if_neg h5] at h
  by_cases h6 : c = '('
  · rw [if_pos h6] at h
    simp only [TokStep.emit.injEq] at h
    obtain ⟨-, hr, -, -⟩ := h
    subst hr
    simp only [List.length_cons]
    omega
  rw [if_neg h6] at h
  by_cases h7 : c = ')'
  · rw [if_pos h7] at h
    simp only [TokStep.emit.injEq] at h
    obtain ⟨-, hr, -, -⟩ := h
    subst hr
    simp only [List.length_cons]
    omega
  rw [if_neg h7] at h
  by_cases h8 : c = '"'
  · rw [if_pos h8] at h
    simp only [TokStep.emit.injEq] at h
    obtain ⟨-, hr, -, -⟩ := h
    subst hr
    simp only [List.length_cons]
    omega
  rw [if_neg h8] at h
  by_cases h9 : c.toNat = 39
  · rw [if_pos h9] at h
    cases hcl : readCharLit cs2 l1 (c1 + 1) with
    | hang => simp only [hcl] at h; simp at h
    | err m => simp only [hcl] at h; simp at h
    | ok a =>
      obtain ⟨v, r, rl, rc⟩ := a
      simp only [hcl] at h
      have hlen := readCharLit_len hcl
      simp only [TokStep.emit.injEq] at h
      obtain ⟨-, hr, -, -⟩ := h
      subst hr
      simp only [List.length_cons]
      omega
  rw [if_neg h9] at h
  by_cases h10 : c = '-' ∧ (cs2.head?.map Char.isDigit).getD false = true
  · rw [if_pos h10] at h
    cases hrn : readNumber cs2 l1 (c1 + 1) with
    | hang => simp only [hrn] at h; simp at h
    | err m => simp only [hrn] at h; simp at h
    | ok a =>
      obtain ⟨n, r, rl, rc⟩ := a
      simp only [hrn] at h
      have hlen := readNumber_len hrn
      simp only [TokStep.emit.injEq] at h
      obtain ⟨-, hr, -, -⟩ := h
      subst hr
      simp only [List.length_cons]
      omega
  rw [if_neg h10] at h
  by_cases h11 : c.isDigit = true
  · rw [if_pos h11] at h
    cases hrn : readNumber (c :: cs2) l1 c1 with
    | hang => simp only [hrn] at h; simp at h
    | err m => simp only [hrn] at h; simp at h
    | ok a =>
      obtain ⟨n, r, rl, rc⟩ := a
      simp only [hrn] at h
      have hlen := readNumber_len hrn
      simp only [TokStep.emit.injEq] at h
      obtain ⟨-, hr, -, -⟩ := h
      subst hr
      simp only [List.length_cons] at hlen ⊢
      omega
  rw [if_neg h11] at h
  by_cases h12 : c = '.'
  · rw [if_pos h12] at h
    simp only [TokStep.emit.injEq] at h
    obtain ⟨-, hr, -, -⟩ := h
    subst hr
    simp only [List.length_cons]
    omega
  rw [if_neg h12] at h
  by_cases h13 : c.isAlpha = true ∨ c = '_'
  · rw [if_pos h13] at h
    have hic : identChar c = true := by
      simp only [identChar, Char.isAlphanum]
      rcases h13 with hx | hx
      · simp [hx]
      · simp [hx]
    have hdw : (c :: cs2).dropWhile identChar = cs2.dropWhile identChar := by
      simp [List.dropWhile_cons, hic]
    cases hws2 : skipWS ((c :: cs2).dropWhile identChar) l1
        (c1 + ((c :: cs2).takeWhile identChar).length) with
    | none => simp only [hws2] at h; simp at h
    | some a =>
      obtain ⟨r2, rl, rc⟩ := a
      simp only [hws2] at h
      have hw2 := skipWS_len hws2
      rw [hdw] at hw2
      have ht := List.length_tail r2
      by_cases hcol : r2.head? = some ':'
      · rw [if_pos hcol] at h
        simp only [TokStep.emit.injEq] at h
        obtain ⟨-, hr, -, -⟩ := h
        subst hr
        simp only [List.length_cons]
        omega
      rw [if_neg hcol] at h
      by_cases hreg : isRegister (String.mk ((c :: cs2).takeWhile identChar)) = true
      · rw [if_pos hreg] at h
        simp only [TokStep.emit.injEq] at h
        obtain ⟨-, hr, -, -⟩ := h
        subst hr
        rw [hdw]
        simp only [List.length_cons]
        omega
      · rw [if_neg hreg] at h
        simp only [TokStep.emit.injEq] at h
        obtain ⟨-, hr, -, -⟩ := h
        subst hr
        rw [hdw]
        simp only [List.length_cons]
        omega
  · rw [if_neg h13] at h
    simp only [TokStep.emit.injEq] at h
    obtain ⟨-, hr, -, -⟩ := h
    subst hr
    simp only [List.length_cons]
    omega

/-- The `tokenize` main loop: iterate `tokStep`, accumulating
`self.tokens`. -/
def tokGo (cs : List Char) (line col : Nat) (acc : List Token) : LexM (List Token) :=
  match hstep : tokStep cs line col with
  | .emit ts rest l2 c2 => tokGo rest l2 c2 (acc ++ ts)
  | .eofS t => .ok (acc ++ [t])
  | .hangS => .hang
  | .errS m => .err m
termination_by cs.length
decreasing_by
  exact tokStep_len hstep

theorem tokGo_emit {cs : List Char} {line col : Nat} {acc ts : List Token} {rest : List Char}
    {l2 c2 : Nat} (h : tokStep cs line col = .emit ts rest l2 c2) :
    tokGo cs line col acc = tokGo rest l2 c2 (acc ++ ts) := by
  conv_lhs => rw [tokGo]
  split
  all_goals (rename_i heq; rw [h] at heq)
  · next ts2 rest2 l22 c22 =>
    injection heq with h1 h2 h3 h4
    subst h1
    subst h2
    subst h3
    subst h4
    rfl
  all_goals simp at heq

theorem tokGo_eofS {cs : List Char} {line col : Nat} {acc : List Token} {t : Token}
    (h : tokStep cs line col = .eofS t) : tokGo cs line col acc = .ok (acc ++ [t]) := by
  conv_lhs => rw [tokGo]
  split
  all_goals (rename_i heq; rw [h] at heq)
  · simp at heq
  · injection heq with h1
    subst h1
    rfl
  all_goals simp at heq

theorem tokGo_hangS {cs : List Char} {line col : Nat} {acc : List Token}
    (h : tokStep cs line col = .hangS) : tokGo cs line col acc = .hang := by
  conv_lhs => rw [tokGo]
  split
  all_goals (rename_i heq; rw [h] at heq)
  all_goals first | rfl | simp at heq

theorem tokGo_errS {cs : List Char} {line col : Nat} {acc : List Token} {m : String}
    (h : tokStep cs line col = .errS m) : tokGo cs line col acc = .err m := by
  conv_lhs => rw [tokGo]
  split
  all_goals (rename_i heq; rw [h] at heq)
  all_goals first | (injection heq with h1; subst h1; rfl) | simp at heq

/-- Fuel-indexed evaluator for `tokGo`; `tokGoF_eq` below shows it agrees
with `tokGo` whenever the fuel exceeds the input length, which makes the
lexer computable by the kernel. -/
def tokGoF : Nat → List Char → Nat → Nat → List Token → LexM (List Token)
  | 0, _, _, _, _ => .hang
  | fuel + 1, cs, line, col, acc =>
    match tokStep cs line col with
    | .emit ts rest l2 c2 => tokGoF fuel rest l2 c2 (acc ++ ts)
    | .eofS t => .ok (acc ++ [t])
    | .hangS => .hang
    | .errS m => .err m

theorem tokGoF_eq (fuel : Nat) : ∀ (cs : List Char) (line col : Nat) (acc : List Token),
    cs.length < fuel → tokGoF fuel cs line col acc = tokGo cs line col acc := by
  induction fuel with
  | zero => intro cs line col acc h; omega
  | succ fuel ih =>
    intro cs line col acc h
    cases hstep : tokStep cs line col with
    | emit ts rest l2 c2 =>
      rw [tokGoF]
      rw [tokGo_emit hstep]
      simp only [hstep]
      have := tokStep_len hstep
      exact ih rest l2 c2 (acc ++ ts) (by omega)
    | eofS t => rw [tokGoF, tokGo_eofS hstep]; simp only [hstep]
    | hangS => rw [tokGoF, tokGo_hangS hstep]; simp only [hstep]
    | errS m => rw [tokGoF, tokGo_errS hstep]; simp only [hstep]

/-- `ZX16Lexer.tokenize`: the lexer starts at line 1, column 1 with an
empty token list. -/
def tokenize (source : String) : LexM (List Token) := tokGo source.toList 1 1 []

theorem tokenize_eval (source : String) :
    tokenize source = tokGoF (source.toList.length + 1) source.toList 1 1 [] := by
  rw [tokenize, tokGoF_eq _ _ _ _ _ (by omega)]

/-! ## Parser tables, pseudo expansion and the encoder (`ZX16Parser`,
`ZX16Assembler.encode_instruction`) -/

deriving instance DecidableEq for Except

/-- `Union[int, str]` operand values. -/
inductive PyVal where
  | i (n : Int)
  | s (st : String)
deriving DecidableEq, Repr

def r_type_instructions : String → Option (Int × Int)
  | "add" => some (0x0, 0x0)
  | "sub" => some (0x1, 0x0)
  | "slt" => some (0x2, 0x1)
  | "sltu" => some (0x3, 0x2)
  | "sll" => some (0x4, 0x3)
  | "srl" => some (0x5, 0x3)
  | "sra" => some (0x6, 0x3)
  | "or" => some (0x7, 0x4)
  | "and" => some (0x8, 0x5)
  | "xor" => some (0x9, 0x6)
  | "mv" => some (0xa, 0x7)
  | "jr" => some (0xb, 0x0)
  | "jalr" => some (0xc, 0x0)
  | _ => none

def i_type_instructions : String → Option Int
  | "addi" => some 0x0
  | "slti" => some 0x1
  | "sltui" => some 0x2
  | "ori" => some 0x4
  | "andi" => some 0x5
  | "xori" => some 0x6
  | "li" => some 0x7
  | _ => none

def shift_instructions : String → Option Int
  | "slli" => some 0x1
  | "srli" => some 0x2
  | "srai" => some 0x4
  | _ => none

def b_type_instructions : String → Option Int
  | "beq" => some 0x0
  | "bne" => some 0x1
  | "bz" => some 0x2
  | "bnz" => some 0x3
  | "blt" => some 0x4
  | "bge" => some 0x5
  | "bltu" => some 0x6
  | "bgeu" => some 0x7
  | _ => none

def s_type_instructions : String → Option Int
  | "sb" => some 0x0
  | "sw" => some 0x1
  | _ => none

def l_type_instructions : String → Option Int
  | "lb" => some 0x0
  | "lw" => some 0x1
  | "lbu" => some 0x4
  | _ => none

def register_map : String → Option Int
  | "x0" => some 0 | "x1" => some 1 | "x2" => some 2 | "x3" => some 3
  | "x4" => some 4 | "x5" => some 5 | "x6" => some 6 | "x7" => some 7
  | "t0" => some 0 | "ra" => some 1 | "sp" => some 2 | "s0" => some 3
  | "s1" => some 4 | "t1" => some 5 | "a0" => some 6 | "a1" => some 7
  | _ => none

/-- `self.register_map.get(reg_name, 0)`. -/
def registerNum (s : String) : Int := (register_map s).getD 0

def pseudo_instructions (m : String) : Bool :=
  m == "li16" || m == "la" || m == "push" || m == "pop" || m == "call" || m == "ret" ||
    m == "inc" || m == "dec" || m == "neg" || m == "not" || m == "clr" || m == "nop"

/-- Scalar core of `ZX16Parser.sign_extend` (the method passes string
operands through unchanged; its only call site checks for strings
first). -/
def sign_extendV (value : Int) (bits : Nat) : Int :=
  if pyAnd value (pyShl 1 (bits - 1)) ≠ 0 then pyOr value (pyNot (pyShl 1 bits - 1))
  else pyAnd value (pyShl 1 bits - 1)

/-- `ZX16Parser.sign_extend`. -/
def sign_extend (value : PyVal) (bits : Nat) : PyVal :=
  match value with
  | .s st => .s st
  | .i v => .i (sign_extendV v bits)

/-- `sign_extend` at 7 bits (the only width the source uses) wraps every
integer into `[-64, 63]`. -/
theorem sign_extendV_seven (v : Int) : sign_extendV v 7 = (v + 64) % 128 - 64 := by
  unfold sign_extendV pyShl pyNot
  norm_num
  have hb := pyAnd_bit v 6
  norm_num at hb
  have h127 : (127 : Int) = 2 ^ 7 - 1 := by norm_num
  have h128 : (-128 : Int) = -(2 ^ 7) := by norm_num
  have hmask := pyAnd_mask v 7
  norm_num at hmask
  have hlow := pyOr_low v 7
  norm_num at hlow
  rw [hb]
  by_cases hx : v / 64 % 2 = 1
  · rw [hx]
    norm_num
    rw [hlow]
    omega
  · have hx0 : v / 64 % 2 = 0 := by omega
    rw [hx0]
    norm_num
    rw [hmask]
    omega

/-- `ZX16Parser.expand_pseudo_instruction`.  The symbol-resolver callback
is modelled as a pure function: in pass 2 every operand has already been
resolved to an integer, so the branches that invoke the resolver are
never reached from `pass2` (see `parseOps` below, which only appends
integers). -/
def expand_pseudo_instruction (mnemonic : String) (operands : List PyVal) (current_pc : Int)
    (symbol_resolver : Option (String → Int)) : Except String (List (String × List PyVal)) :=
  if mnemonic = "li16" then
    match operands with
    | [rd, imm16] =>
      match imm16 with
      | .s sym =>
        match symbol_resolver with
        | some f =>
          .ok [("lui", [rd, .i (pyAnd (pyShr (f sym) 7) 0x1FF)]),
               ("ori", [rd, .i (pyAnd (f sym) 0x7F)])]
        | none => .ok [(mnemonic, operands)]
      | .i v =>
        .ok [("lui", [rd, .i (pyAnd (pyShr v 7) 0x1FF)]),
             ("ori", [rd, .i (pyAnd v 0x7F)])]
    | _ => .error ("LI16 requires 2 operands")
  else if mnemonic = "la" then
    match operands with
    | [rd, label] =>
      match label with
      | .s sym =>
        match symbol_resolver with
        | none => .ok [(mnemonic, operands)]
        | some f =>
          if f sym - current_pc ≥ 0 then
            .ok [("auipc", [rd, .i (pyAnd (pyShr (f sym - current_pc) 7) 0x1FF)]),
                 ("addi", [rd, .i (pyAnd (f sym - current_pc) 0x7F)])]
          else
            .ok [("auipc",
                  [rd, .i (pyAnd (pyShr (pyAnd (f sym - current_pc) 0xFFFF) 7) 0x1FF)]),
                 ("addi",
                  [rd, .i (if pyAnd (pyAnd (f sym - current_pc) 0xFFFF) 0x7F > 63 then
                      pyAnd (pyAnd (f sym - current_pc) 0xFFFF) 0x7F - 128
                    else pyAnd (pyAnd (f sym - current_pc) 0xFFFF) 0x7F)])]
      | .i addr =>
        .ok [("auipc", [rd, .i (pyAnd (pyShr (addr - current_pc) 7) 0x1FF)]),
             ("addi", [rd, .i (pyAnd (addr - current_pc) 0x7F)])]
    | _ => .error ("LA requires 2 operands")
  else if mnemonic = "push" then
    match operands with
    | [rs] => .ok [("addi", [.i 2, .i (-2)]), ("sw", [rs, .i 0, .i 2])]
    | _ => .error ("PUSH requires 1 operand")
  else if mnemonic = "pop" then
    match operands with
    | [rd] => .ok [("lw", [rd, .i 0, .i 2]), ("addi", [.i 2, .i 2])]
    | _ => .error ("POP requires 1 operand")
  else if mnemonic = "call" then
    match operands with
    | [label] => .ok [("jal", [.i 1, label])]
    | _ => .error ("CALL requires 1 operand")
  else if mnemonic = "ret" then
    match operands with
    | [] => .ok [("jr", [.i 1, .i 0])]
    | _ => .error ("RET requires 0 operands")
  else if mnemonic = "inc" then
    match operands with
    | [rd] => .ok [("addi", [rd, .i 1])]
    | _ => .error ("INC requires 1 operand")
  else if mnemonic = "dec" then
    match operands with
    | [rd] => .ok [("addi", [rd, .i (-1)])]
    | _ => .error ("DEC requires 1 operand")
  else if mnemonic = "neg" then
    match operands with
    | [rd] => .ok [("xori", [rd, .i (-1)]), ("addi", [rd, .i 1])]
    | _ => .error ("NEG requires 1 operand")
  else if mnemonic = "not" then
    match operands with
    | [rd] => .ok [("xori", [rd, .i (-1)])]
    | _ => .error ("NOT requires 1 operand")
  else if mnemonic = "clr" then
    match operands with
    | [rd] => .ok [("xor", [rd, rd])]
    | _ => .error ("CLR requires 1 operand")
  else if mnemonic = "nop" then
    match operands with
    | [] => .ok [("add", [.i 0, .i 0])]
    | _ => .error ("NOP requires 0 operands")
  else .ok []

/-- The `InstructionFormat` tag values. -/
def R_TYPE : Int := 0
def I_TYPE : Int := 1
def B_TYPE : Int := 2
def S_TYPE : Int := 3
def L_TYPE : Int := 4
def J_TYPE : Int := 5
def U_TYPE : Int := 6
def SYS_TYPE : Int := 7

/-- `ZX16Assembler.encode_instruction`.  A Python `TypeError` raised by
shifting a string register operand, and the `ValueError` of an
over-long tuple unpacking, are modelled as `Except.error` like the
`SyntaxError`s (pass 2 catches every exception alike). -/
def encode_instruction (mnemonic0 : String) (operands : List PyVal) (current_address : Int) :
    Except String Int :=
  let mnemonic := strLower mnemonic0
  match r_type_instructions mnemonic with
  | some (funct4, func3) =>
    if mnemonic = "jr" then
      match operands with
      | [] => .error ("JR instruction requires at least 1 operand")
      | rd :: _ =>
        match rd with
        | .i rdv =>
          .ok (pyOr (pyOr (pyOr (pyOr (pyShl funct4 12) (pyShl 0 9)) (pyShl rdv 6))
            (pyShl func3 3)) R_TYPE)
        | .s _ => .error ("unsupported operand type for <<")
    else
      match operands with
      | rd :: rs2 :: _ =>
        match rd, rs2 with
        | .i rdv, .i rs2v =>
          .ok (pyOr (pyOr (pyOr (pyOr (pyShl funct4 12) (pyShl rs2v 9)) (pyShl rdv 6))
            (pyShl func3 3)) R_TYPE)
        | _, _ => .error ("unsupported operand type for <<")
      | _ => .error ("R-Type instruction " ++ mnemonic ++ " requires 2 operands")
  | none =>
  match i_type_instructions mnemonic with
  | some func3 =>
    match operands with
    | rd :: imm :: _ =>
      match imm with
      | .s sym => .error ("Unresolved symbol in immediate: " ++ sym)
      | .i immv0 =>
        if sign_extendV immv0 7 < -64 ∨ sign_extendV immv0 7 > 63 then
          .error ("Immediate out of range: " ++ toString (sign_extendV immv0 7))
        else
          match rd with
          | .i rdv =>
            .ok (pyOr (pyOr (pyOr (pyShl (pyAnd (sign_extendV immv0 7) 0x7F) 9) (pyShl rdv 6))
              (pyShl func3 3)) I_TYPE)
          | .s _ => .error ("unsupported operand type for <<")
    | _ => .error ("I-Type instruction " ++ mnemonic ++ " requires 2 operands")
  | none =>
  match shift_instructions mnemonic with
  | some shift_type =>
    match operands with
    | rd :: amt :: _ =>
      match amt with
      | .s _ => .error ("Shift amount must be 0-15")
      | .i a =>
        if a < 0 ∨ a > 15 then .error ("Shift amount must be 0-15, got " ++ toString a)
        else
          match rd with
          | .i rdv =>
            .ok (pyOr (pyOr (pyOr (pyShl (pyOr (pyShl shift_type 4) (pyAnd a 0xF)) 9)
              (pyShl rdv 6)) (pyShl 0x3 3)) I_TYPE)
          | .s _ => .error ("unsupported operand type for <<")
    | _ => .error ("Shift instruction " ++ mnemonic ++ " requires 2 operands")
  | none =>
  match b_type_instructions mnemonic with
  | some func3 =>
    if mnemonic = "bz" ∨ mnemonic = "bnz" then
      match operands with
      | [rs1, target] =>
        match target with
        | .s sym => .error ("Unresolved symbol in branch target: " ++ sym)
        | .i tv =>
          if tv - (current_address + 2) < -32 ∨ tv - (current_address + 2) > 28 ∨
              (tv - (current_address + 2)) % 2 ≠ 0 then
            .error ("Branch offset out of range or not word-aligned: "
              ++ toString (tv - (current_address + 2)))
          else
            match rs1 with
            | .i r1 =>
              .ok (pyOr (pyOr (pyOr (pyOr
                (pyShl (pyAnd (pyShr (tv - (current_address + 2)) 1) 0xF) 12)
                (pyShl 0 9)) (pyShl r1 6)) (pyShl func3 3)) B_TYPE)
            | .s _ => .error ("unsupported operand type for <<")
      | _ :: _ :: _ :: _ => .error ("too many values to unpack (expected 2)")
      | _ => .error ("Branch instruction " ++ mnemonic ++ " requires 2 operands")
    else
      match operands with
      | [rs1, rs2, target] =>
        match target with
        | .s sym => .error ("Unresolved symbol in branch target: " ++ sym)
        | .i tv =>
          if tv - (current_address + 2) < -32 ∨ tv - (current_address + 2) > 28 ∨
              (tv - (current_address + 2)) % 2 ≠ 0 then
            .error ("Branch offset out of range or not word-aligned: "
              ++ toString (tv - (current_address + 2)))
          else
            match rs1, rs2 with
            | .i r1, .i r2v =>
              .ok (pyOr (pyOr (pyOr (pyOr
                (pyShl (pyAnd (pyShr (tv - (current_address + 2)) 1) 0xF) 12)
                (pyShl r2v 9)) (pyShl r1 6)) (pyShl func3 3)) B_TYPE)
            | _, _ => .error ("unsupported operand type for <<")
      | _ :: _ :: _ :: _ :: _ => .error ("too many values to unpack (expected 3)")
      | _ => .error ("Branch instruction " ++ mnemonic ++ " requires 3 operands")
  | none =>
  match s_type_instructions mnemonic with
  | some func3 =>
    match operands with
    | [rs2, offset, rs1] =>
      match offset with
      | .s sym => .error ("Unresolved symbol in store offset: " ++ sym)
      | .i ov =>
        if ov < -8 ∨ ov > 7 then .error ("Store offset out of range: " ++ toString ov)
        else
          match rs2, rs1 with
          | .i r2v, .i r1v =>
            .ok (pyOr (pyOr (pyOr (pyOr (pyShl (pyAnd ov 0xF) 12) (pyShl r2v 9))
              (pyShl r1v 6)) (pyShl func3 3)) S_TYPE)
          | _, _ => .error ("unsupported operand type for <<")
    | _ :: _ :: _ :: _ :: _ => .error ("too many values to unpack (expected 3)")
    | _ => .error ("Store instruction " ++ mnemonic ++ " requires 3 operands")
  | none =>
  match l_type_instructions mnemonic with
  | some func3 =>
    match operands with
    | [rd, offset, rs2] =>
      match offset with
      | .s sym => .error ("Unresolved symbol in load offset: " ++ sym)
      | .i ov =>
        if ov < -8 ∨ ov > 7 then .error ("Load offset out of range: " ++ toString ov)
        else
          match rd, rs2 with
          | .i rdv, .i r2v =>
            .ok (pyOr (pyOr (pyOr (pyOr (pyShl (pyAnd ov 0xF) 12) (pyShl r2v 9))
              (pyShl rdv 6)) (pyShl func3 3)) L_TYPE)
          | _, _ => .error ("unsupported operand type for <<")
    | _ :: _ :: _ :: _ :: _ => .error ("too many values to unpack (expected 3)")
    | _ => .error ("Load instruction " ++ mnemonic ++ " requires 3 operands")
  | none =>
  if mnemonic = "j" then
    match operands with
    | [] => .error ("J instruction requires 1 operand")
    | target :: _ =>
      match target with
      | .s sym => .error ("Unresolved symbol in jump target: " ++ sym)
      | .i tv =>
        if tv - (current_address + 2) < -1024 ∨ tv - (current_address + 2) > 1020 ∨
            (tv - (current_address + 2)) % 2 ≠ 0 then
          .error ("Jump offset out of range or not word-aligned: "
            ++ toString (tv - (current_address + 2)))
        else
          .ok (pyOr (pyOr (pyOr (pyOr (pyShl 0 15)
            (pyShl (pyAnd (pyShr (tv - (current_address + 2)) 4) 0x3F) 9)) (pyShl 0 6))
            (pyShl (pyAnd (pyShr (tv - (current_address + 2)) 1) 0x7) 3)) J_TYPE)
  else if mnemonic = "jal" then
    match operands with
    | [rd, target] =>
      match target with
      | .s sym => .error ("Unresolved symbol in jump target: " ++ sym)
      | .i tv =>
        if tv - (current_address + 2) < -1024 ∨ tv - (current_address + 2) > 1020 ∨
            (tv - (current_address + 2)) % 2 ≠ 0 then
          .error ("Jump offset out of range or not word-aligned: "
            ++ toString (tv - (current_address + 2)))
        else
          match rd with
          | .i rdv =>
            .ok (pyOr (pyOr (pyOr (pyOr (pyShl 1 15)
              (pyShl (pyAnd (pyShr (tv - (current_address + 2)) 4) 0x3F) 9)) (pyShl rdv 6))
              (pyShl (pyAnd (pyShr (tv - (current_address + 2)) 1) 0x7) 3)) J_TYPE)
          | .s _ => .error ("unsupported operand type for <<")
    | _ :: _ :: _ :: _ => .error ("too many values to unpack (expected 2)")
    | _ => .error ("JAL instruction requires 2 operands")
  else if mnemonic = "lui" ∨ mnemonic = "auipc" then
    match operands with
    | [rd, immediate] =>
      match immediate with
      | .s sym => .error ("Unresolved symbol in U-Type immediate: " ++ sym)
      | .i iv =>
        if iv < 0 ∨ iv > 0x1FF then
          .error ("U-Type immediate out of range: " ++ toString iv)
        else
          match rd with
          | .i rdv =>
            .ok (pyOr (pyOr (pyOr (pyOr (pyShl (if mnemonic = "auipc" then 1 else 0) 15)
              (pyShl (pyAnd (pyShr iv 3) 0x3F) 9)) (pyShl rdv 6))
              (pyShl (pyAnd iv 0x7) 3)) U_TYPE)
          | .s _ => .error ("unsupported operand type for <<")
    | _ :: _ :: _ :: _ => .error ("too many values to unpack (expected 2)")
    | _ => .error ("U-Type instruction " ++ mnemonic ++ " requires 2 operands")
  else if mnemonic = "ecall" then
    match operands with
    | [] => .error ("ECALL instruction requires 1 operand")
    | svc :: _ =>
      match svc with
      | .s sym => .error ("Unresolved symbol in system call: " ++ sym)
      | .i sv =>
        if sv < 0 ∨ sv > 0x3FF then
          .error ("System call number out of range (0-1023): " ++ toString sv)
        else .ok (pyOr (pyShl sv 6) SYS_TYPE)
  else .error ("Unknown instruction: " ++ mnemonic)

/-! ## Assembler state (`ZX16Assembler`) -/

structure Asm where
  symbols : List (String × AsmSymbol)
  errors : List AssemblyError
  warnings : List AssemblyError
  current_address : Int
  current_section : String
  text : List Nat
  data : List Nat
  bss : List Nat
deriving DecidableEq, Repr

/-- `self.section_addresses`. -/
def section_addresses (s : String) : Int :=
  if s = ".text" then 0x20 else if s = ".data" then 0x8000 else 0x9000

/-- Dictionary lookup in the insertion-ordered symbol table. -/
def lookupSym : List (String × AsmSymbol) → String → Option AsmSymbol
  | [], _ => none
  | (k, v) :: rest, n => if k = n then some v else lookupSym rest n

/-- Dictionary store: replace in place, else append (Python dict update
semantics). -/
def setSym : List (String × AsmSymbol) → String → AsmSymbol → List (String × AsmSymbol)
  | [], n, sym => [(n, sym)]
  | (k, v) :: rest, n, sym =>
    if k = n then (k, sym) :: rest else (k, v) :: setSym rest n sym

/-- In-place field mutation of one entry
(`self.symbols[name].global_symbol = True`). -/
def mapSym : List (String × AsmSymbol) → String → (AsmSymbol → AsmSymbol) →
    List (String × AsmSymbol)
  | [], _, _ => []
  | (k, v) :: rest, n, f =>
    if k = n then (k, f v) :: rest else (k, v) :: mapSym rest n f

/-- A single-quote character, for building Python error-message strings. -/
def sQuote : String := String.singleton (Char.ofNat 39)

/-- `init_builtin_symbols`, in source order. -/
def init_builtin_symbols : List (String × AsmSymbol) :=
  [("__ZX16__", ⟨"__ZX16__", 1, true, true, 0⟩),
   ("__VERSION__", ⟨"__VERSION__", 0x0100, true, true, 0⟩),
   ("RESET_VECTOR", ⟨"RESET_VECTOR", 0x0000, true, true, 0⟩),
   ("CODE_START", ⟨"CODE_START", 0x0020, true, true, 0⟩),
   ("MMIO_BASE", ⟨"MMIO_BASE", 0xF000, true, true, 0⟩),
   ("MEM_SIZE", ⟨"MEM_SIZE", 0x10000, true, true, 0⟩),
   ("T0", ⟨"T0", 0, true, true, 0⟩), ("RA", ⟨"RA", 1, true, true, 0⟩),
   ("SP", ⟨"SP", 2, true, true, 0⟩), ("S0", ⟨"S0", 3, true, true, 0⟩),
   ("S1", ⟨"S1", 4, true, true, 0⟩), ("T1", ⟨"T1", 5, true, true, 0⟩),
   ("A0", ⟨"A0", 6, true, true, 0⟩), ("A1", ⟨"A1", 7, true, true, 0⟩)]

/-- The state of a fresh `ZX16Assembler()`. -/
def initAsm : Asm :=
  { symbols := init_builtin_symbols, errors := [], warnings := [],
    current_address := 0x20, current_section := ".text",
    text := [], data := [], bss := [] }

/-- `add_error` with explicit column and severity. -/
def add_error_full (st : Asm) (message : String) (line column : Nat) (severity : String) : Asm :=
  if severity = "Error" then {st with errors := st.errors ++ [⟨message, line, column, severity⟩]}
  else if severity = "Warning" then
    {st with warnings := st.warnings ++ [⟨message, line, column, severity⟩]}
  else st

/-- `add_error` as the assembler always calls it (default column 0 and
severity `"Error"`). -/
def add_error (st : Asm) (message : String) (line : Nat) : Asm :=
  add_error_full st message line 0 "Error"

/-- `resolve_symbol`; returns the possibly extended error list together
with the value (0 for unknown or undefined names). -/
def resolve_symbol (st : Asm) (name : String) (line : Nat) : Asm × Int :=
  match lookupSym st.symbols name with
  | some sym =>
    if sym.defined = false then
      (add_error st ("Undefined symbol " ++ sQuote ++ name ++ sQuote) line, 0)
    else (st, sym.value)
  | none => (add_error st ("Unknown symbol " ++ sQuote ++ name ++ sQuote) line, 0)

/-- `define_symbol`. -/
def define_symbol (st : Asm) (name : String) (value : Int) (line : Nat) (global_sym : Bool) : Asm :=
  match lookupSym st.symbols name with
  | some sym =>
    if sym.defined then
      add_error st ("Symbol " ++ sQuote ++ name ++ sQuote ++ " already defined") line
    else {st with symbols := setSym st.symbols name ⟨name, value, true, global_sym, line⟩}
  | none => {st with symbols := setSym st.symbols name ⟨name, value, true, global_sym, line⟩}

/-- Append bytes to the buffer of the current section
(`current_section_data` aliases `self.sections[self.current_section]`). -/
def appendCur (st : Asm) (bs : List Nat) : Asm :=
  if st.current_section = ".text" then {st with text := st.text ++ bs}
  else if st.current_section = ".data" then {st with data := st.data ++ bs}
  else {st with bss := st.bss ++ bs}

/-- Emit one 16-bit word, little-endian, and advance the address by 2. -/
def emitWord (st : Asm) (enc : Int) : Asm :=
  let st2 := appendCur st [(pyAnd enc 0xFF).toNat, (pyAnd (pyShr enc 8) 0xFF).toNat]
  {st2 with current_address := st2.current_address + 2}

/-- Python `bytes(s, "utf-8")` as a list of byte values. -/
def strUtf8 (s : String) : List Nat := s.toUTF8.toList.map (fun b => b.toNat)

/-- The skip-to-end-of-line loop after a directive
(`while type not in [NEWLINE, EOF]: advance`). -/
def skipLine : List Token → List Token
  | [] => []
  | t :: ts => if t.type = .NEWLINE ∨ t.type = .EOF then t :: ts else skipLine ts

theorem skipLine_len (ts : List Token) : (skipLine ts).length ≤ ts.length := by
  induction ts with
  | nil => simp [skipLine]
  | cons t ts ih =>
    rw [skipLine]
    split_ifs
    · simp
    · simp only [List.length_cons]; omega

/-- The operand-skipping loop after an instruction mnemonic in pass 1
(`while type not in [NEWLINE, EOF, COMMENT]: advance`). -/
def skipOps : List Token → List Token
  | [] => []
  | t :: ts =>
    if t.type = .NEWLINE ∨ t.type = .EOF ∨ t.type = .COMMENT then t :: ts else skipOps ts

theorem skipOps_len (ts : List Token) : (skipOps ts).length ≤ ts.length := by
  induction ts with
  | nil => simp [skipOps]
  | cons t ts ih =>
    rw [skipOps]
    split_ifs
    · simp
    · simp only [List.length_cons]; omega

/-- The pass-1 lookahead that finds the `li` immediate: scans to the end
of the statement and keeps the value of the last `IMMEDIATE`/`CHARACTER`
token (the loop overwrites `immediate_value` on every hit); the
position is then restored. -/
def liScan : List Token → Option Int
  | [] => none
  | t :: ts =>
    if t.type = .NEWLINE ∨ t.type = .EOF ∨ t.type = .COMMENT then none
    else if t.type = .IMMEDIATE ∨ t.type = .CHARACTER then
      match liScan ts with
      | some v => some v
      | none => some (pyInt t.value)
    else liScan ts

/-- Pass-1 `.byte` loop: count the comma-separated
`IMMEDIATE`/`CHARACTER` values and return the rest of the tokens. -/
def count1Bytes : List Token → Nat × List Token
  | [] => (0, [])
  | t :: ts =>
    if t.type = .IMMEDIATE ∨ t.type = .CHARACTER then
      match ts with
      | c :: ts2 =>
        if c.type = .COMMA then
          let r := count1Bytes ts2
          (r.1 + 1, r.2)
        else (1, ts)
      | [] => (1, [])
    else (0, t :: ts)

theorem count1Bytes_len (ts : List Token) : (count1Bytes ts).2.length ≤ ts.length := by
  induction ts using count1Bytes.induct <;>
    (rw [count1Bytes.eq_def]; try simp_all; try omega)

/-- Pass-1 `.word` loop: count the comma-separated `IMMEDIATE` values. -/
def count1Words : List Token → Nat × List Token
  | [] => (0, [])
  | t :: ts =>
    if t.type = .IMMEDIATE then
      match ts with
      | c :: ts2 =>
        if c.type = .COMMA then
          let r := count1Words ts2
          (r.1 + 1, r.2)
        else (1, ts)
      | [] => (1, [])
    else (0, t :: ts)

theorem count1Words_len (ts : List Token) : (count1Words ts).2.length ≤ ts.length := by
  induction ts using count1Words.induct <;>
    (rw [count1Words.eq_def]; try simp_all; try omega)

/-- Pass-2 `.byte` loop: the emitted byte values (`int(value) & 0xFF`)
and the rest of the tokens. -/
def emit2Bytes : List Token → List Nat × List Token
  | [] => ([], [])
  | t :: ts =>
    if t.type = .IMMEDIATE ∨ t.type = .CHARACTER then
      match ts with
      | c :: ts2 =>
        if c.type = .COMMA then
          let r := emit2Bytes ts2
          ((pyAnd (pyInt t.value) 0xFF).toNat :: r.1, r.2)
        else ([(pyAnd (pyInt t.value) 0xFF).toNat], ts)
      | [] => ([(pyAnd (pyInt t.value) 0xFF).toNat], [])
    else ([], t :: ts)

theorem emit2Bytes_len (ts : List Token) : (emit2Bytes ts).2.length ≤ ts.length := by
  induction ts using emit2Bytes.induct <;>
    (rw [emit2Bytes.eq_def]; try simp_all; try omega)

/-- Pass-2 `.word` loop: little-endian byte pairs of
`int(value) & 0xFFFF`. -/
def emit2Words : List Token → List Nat × List Token
  | [] => ([], [])
  | t :: ts =>
    if t.type = .IMMEDIATE then
      match ts with
      | c :: ts2 =>
        if c.type = .COMMA then
          let r := emit2Words ts2
          ((pyAnd (pyAnd (pyInt t.value) 0xFFFF) 0xFF).toNat ::
            (pyAnd (pyShr (pyAnd (pyInt t.value) 0xFFFF) 8) 0xFF).toNat :: r.1, r.2)
        else
          ([(pyAnd (pyAnd (pyInt t.value) 0xFFFF) 0xFF).toNat,
            (pyAnd (pyShr (pyAnd (pyInt t.value) 0xFFFF) 8) 0xFF).toNat], ts)
      | [] =>
        ([(pyAnd (pyAnd (pyInt t.value) 0xFFFF) 0xFF).toNat,
          (pyAnd (pyShr (pyAnd (pyInt t.value) 0xFFFF) 8) 0xFF).toNat], [])
    else ([], t :: ts)

theorem emit2Words_len (ts : List Token) : (emit2Words ts).2.length ≤ ts.length := by
  induction ts using emit2Words.induct <;>
    (rw [emit2Words.eq_def]; try simp_all; try omega)

/-- One iteration of the pass-2 operand loop may leave the parenthesis
branch with neither inner `if` taken, consuming only the `(` token, so
the loop is fuel-indexed: every iteration consumes at least one token
and `parseOps` below supplies fuel `length + 1`, which can never run
out.  Register tokens map through `register_map.get(…, 0)`, immediates
and characters through `int`, symbol (`INSTRUCTION`) tokens through
`resolve_symbol` (which may append errors), and a parenthesised
register appends its register number. -/
def parseOpsF (st : Asm) (line : Nat) : Nat → List Token → Asm × List Int × List Token
  | 0, ts => (st, [], ts)
  | _ + 1, [] => (st, [], [])
  | fuel + 1, t :: ts =>
    if t.type = .NEWLINE ∨ t.type = .EOF ∨ t.type = .COMMENT then (st, [], t :: ts)
    else if t.type = .COMMA then parseOpsF st line fuel ts
    else if t.type = .REGISTER then
      let r := parseOpsF st line fuel ts
      (r.1, registerNum (strLower t.value) :: r.2.1, r.2.2)
    else if t.type = .IMMEDIATE then
      let r := parseOpsF st line fuel ts
      (r.1, pyInt t.value :: r.2.1, r.2.2)
    else if t.type = .CHARACTER then
      let r := parseOpsF st line fuel ts
      (r.1, pyInt t.value :: r.2.1, r.2.2)
    else if t.type = .INSTRUCTION then
      let r := parseOpsF (resolve_symbol st t.value line).1 line fuel ts
      (r.1, (resolve_symbol st t.value line).2 :: r.2.1, r.2.2)
    else if t.type = .LPAREN then
      match ts with
      | r :: ts2 =>
        if r.type = .REGISTER then
          match ts2 with
          | p :: ts3 =>
            if p.type = .RPAREN then
              let q := parseOpsF st line fuel ts3
              (q.1, registerNum (strLower r.value) :: q.2.1, q.2.2)
            else
              let q := parseOpsF st line fuel ts2
              (q.1, registerNum (strLower r.value) :: q.2.1, q.2.2)
          | [] => (st, [registerNum (strLower r.value)], [])
        else if r.type = .RPAREN then parseOpsF st line fuel ts2
        else parseOpsF st line fuel (r :: ts2)
      | [] => (st, [], [])
    else parseOpsF st line fuel ts

/-- Pass-2 operand parsing; the fuel bound is justified in
`parseOpsF`. -/
def parseOps (st : Asm) (line : Nat) (ts : List Token) : Asm × List Int × List Token :=
  parseOpsF st line (ts.length + 1) ts

theorem parseOpsF_len (st : Asm) (line fuel : Nat) (ts : List Token) :
    (parseOpsF st line fuel ts).2.2.length ≤ ts.length := by
  induction st, line, fuel, ts using parseOpsF.induct
  all_goals rw [parseOpsF.eq_def]
  all_goals try simp_all
  all_goals omega

theorem parseOps_len (st : Asm) (line : Nat) (ts : List Token) :
    (parseOps st line ts).2.2.length ≤ ts.length :=
  parseOpsF_len st line (ts.length + 1) ts

/-! ## Pass 1 -/

/-- Outcome of one outer-loop iteration of a pass. -/
inductive PassOut where
  | cont (st : Asm) (rest : List Token)
  | done (st : Asm)
deriving Repr

/-- The optional comma between the `.equ`/`.set` symbol name and its
value (`if type == COMMA: advance`). -/
def commaSkip : List Token → List Token
  | [] => []
  | c :: rest2 => if c.type = .COMMA then rest2 else c :: rest2

theorem commaSkip_len (ts : List Token) : (commaSkip ts).length ≤ ts.length := by
  cases ts with
  | nil => simp [commaSkip]
  | cons c rest2 =>
    rw [commaSkip]
    split_ifs <;> simp

/-- The value position of a `.equ`/`.set` directive: an immediate or a
symbol reference defines the new symbol, anything else is an error. -/
def equValue (st : Asm) (name : String) (line : Nat) : List Token → Asm × List Token
  | [] => (add_error st "Expected value after symbol name" line, [])
  | v :: ts4 =>
    if v.type = .IMMEDIATE then (define_symbol st name (pyInt v.value) line false, ts4)
    else if v.type = .INSTRUCTION then
      match lookupSym st.symbols v.value with
      | some sym => (define_symbol st name sym.value line false, ts4)
      | none =>
        (add_error st ("Undefined symbol " ++ sQuote ++ v.value ++ sQuote ++ " in .equ") line, ts4)
    else (add_error st "Expected value after symbol name" line, v :: ts4)

theorem equValue_len (st : Asm) (name : String) (line : Nat) (ts : List Token) :
    (equValue st name line ts).2.length ≤ ts.length := by
  cases ts with
  | nil => simp [equValue]
  | cons v ts4 =>
    rw [equValue]
    split_ifs <;> try simp
    split <;> simp

/-- The `.equ`/`.set` directive handler of pass 1. -/
def equDir (st : Asm) (d : String) (line : Nat) : List Token → Asm × List Token
  | [] => (add_error st ("Expected symbol name after " ++ d) line, [])
  | u :: ts2 =>
    if u.type = .INSTRUCTION then equValue st u.value line (commaSkip ts2)
    else (add_error st ("Expected symbol name after " ++ d) line, u :: ts2)

theorem equDir_len (st : Asm) (d : String) (line : Nat) (ts : List Token) :
    (equDir st d line ts).2.length ≤ ts.length := by
  cases ts with
  | nil => simp [equDir]
  | cons u ts2 =>
    rw [equDir]
    have h1 := equValue_len st u.value line (commaSkip ts2)
    have h2 := commaSkip_len ts2
    split_ifs <;> simp only [List.length_cons] <;> omega

/-- The `.org` directive handler of pass 1. -/
def orgDir (st : Asm) (line : Nat) : List Token → Asm × List Token
  | [] => (add_error st "Expected address after .org" line, [])
  | u :: ts2 =>
    if u.type = .IMMEDIATE then ({st with current_address := pyInt u.value}, ts2)
    else (add_error st "Expected address after .org" line, u :: ts2)

theorem orgDir_len (st : Asm) (line : Nat) (ts : List Token) :
    (orgDir st line ts).2.length ≤ ts.length := by
  cases ts with
  | nil => simp [orgDir]
  | cons u ts2 =>
    rw [orgDir]
    split_ifs <;> simp

/-- The `.global` directive handler of pass 1. -/
def globalDir (st : Asm) (line : Nat) : List Token → Asm × List Token
  | [] => (add_error st "Expected symbol name after .global" line, [])
  | u :: ts2 =>
    if u.type = .INSTRUCTION then
      (if (lookupSym st.symbols u.value).isSome then
         {st with symbols := mapSym st.symbols u.value (fun s => {s with global_symbol := true})}
       else st, ts2)
    else (add_error st "Expected symbol name after .global" line, u :: ts2)

theorem globalDir_len (st : Asm) (line : Nat) (ts : List Token) :
    (globalDir st line ts).2.length ≤ ts.length := by
  cases ts with
  | nil => simp [globalDir]
  | cons u ts2 =>
    rw [globalDir]
    split_ifs <;> simp

/-- The pass-1 `.string`/`.ascii` handler: advance the address by the
string length in characters, plus one for the `.string` terminator. -/
def strDir (st : Asm) (d : String) (line : Nat) : List Token → Asm × List Token
  | [] => (add_error st ("Expected string after " ++ d) line, [])
  | u :: ts2 =>
    if u.type = .STRING then
      ({st with current_address :=
          st.current_address + u.value.length + (if d = ".string" then 1 else 0)}, ts2)
    else (add_error st ("Expected string after " ++ d) line, u :: ts2)

theorem strDir_len (st : Asm) (d : String) (line : Nat) (ts : List Token) :
    (strDir st d line ts).2.length ≤ ts.length := by
  cases ts with
  | nil => simp [strDir]
  | cons u ts2 =>
    rw [strDir]
    split_ifs <;> simp

/-- The pass-1 `.space` handler: advance the address by the given size. -/
def spaceDir (st : Asm) (line : Nat) : List Token → Asm × List Token
  | [] => (add_error st "Expected size after .space" line, [])
  | u :: ts2 =>
    if u.type = .IMMEDIATE then
      ({st with current_address := st.current_address + pyInt u.value}, ts2)
    else (add_error st "Expected size after .space" line, u :: ts2)

theorem spaceDir_len (st : Asm) (line : Nat) (ts : List Token) :
    (spaceDir st line ts).2.length ≤ ts.length := by
  cases ts with
  | nil => simp [spaceDir]
  | cons u ts2 =>
    rw [spaceDir]
    split_ifs <;> simp

/-- Pass-1 directive handling, before the shared skip-to-end-of-line;
returns the updated state and the remaining tokens. -/
def pass1Dir (st : Asm) (d : String) (line : Nat) (ts : List Token) : Asm × List Token :=
  if d = ".org" then orgDir st line ts
  else if d = ".text" then
    ({st with current_section := ".text", current_address := section_addresses ".text"}, ts)
  else if d = ".data" then
    ({st with current_section := ".data", current_address := section_addresses ".data"}, ts)
  else if d = ".bss" then
    ({st with current_section := ".bss", current_address := section_addresses ".bss"}, ts)
  else if d = ".equ" ∨ d = ".set" then equDir st d line ts
  else if d = ".global" then globalDir st line ts
  else if d = ".byte" then
    let r := count1Bytes ts
    ({st with current_address := st.current_address + r.1}, r.2)
  else if d = ".word" then
    let r := count1Words ts
    ({st with current_address := st.current_address + 2 * r.1}, r.2)
  else if d = ".string" ∨ d = ".ascii" then strDir st d line ts
  else if d = ".space" then spaceDir st line ts
  else (st, ts)

/-- Pass-1 instruction size in bytes: `li` with a scanned immediate is 2
or 4 bytes depending on the 7-bit signed range, `li16`/`neg` expand to
two words, other pseudo-instructions to one, and everything else is one
word. -/
def pass1Size (mnemonic : String) (ts : List Token) : Int :=
  if mnemonic = "li" ∧ (if mnemonic = "li" then liScan ts else none).isSome then
    match liScan ts with
    | some v => if -64 ≤ v ∧ v ≤ 63 then 2 else 4
    | none => 2
  else if pseudo_instructions mnemonic then
    if mnemonic = "li16" ∨ mnemonic = "neg" then 4 else 2
  else 2

/-- One iteration of the pass-1 outer loop. -/
def pass1Step (st : Asm) : List Token → PassOut
  | [] => .done st
  | t :: ts =>
    if t.type = .EOF then .done st
    else if t.type = .COMMENT ∨ t.type = .NEWLINE then .cont st ts
    else if t.type = .LABEL then
      .cont (define_symbol st t.value st.current_address t.line false) ts
    else if t.type = .DIRECTIVE then
      let r := pass1Dir st (strLower t.value) t.line ts
      .cont r.1 (skipLine r.2)
    else if t.type = .INSTRUCTION then
      .cont {st with current_address := st.current_address + pass1Size (strLower t.value) ts}
        (skipOps ts)
    else .cont st ts

set_option maxHeartbeats 1000000 in
theorem pass1Dir_len (st : Asm) (d : String) (line : Nat) (ts : List Token) :
    (pass1Dir st d line ts).2.length ≤ ts.length := by
  have hb := count1Bytes_len ts
  have hw := count1Words_len ts
  have he := equDir_len st d line ts
  have ho := orgDir_len st line ts
  have hg := globalDir_len st line ts
  have hs := strDir_len st d line ts
  have hp := spaceDir_len st line ts
  rw [pass1Dir.eq_def]
  repeat' split
  all_goals try simp
  all_goals omega

theorem pass1Step_len (st st2 : Asm) (ts rest : List Token)
    (h : pass1Step st ts = .cont st2 rest) : rest.length < ts.length := by
  cases ts with
  | nil => simp [pass1Step] at h
  | cons t ts =>
    have h1 := pass1Dir_len st (strLower t.value) t.line ts
    have h2 := skipLine_len (pass1Dir st (strLower t.value) t.line ts).2
    have h3 := skipOps_len ts
    rw [pass1Step] at h
    split_ifs at h <;>
      simp only [PassOut.cont.injEq, reduceCtorEq] at h <;>
      (obtain ⟨-, hr⟩ := h; subst hr; simp only [List.length_cons]; omega)

/-- The pass-1 outer loop. -/
def pass1Go (st : Asm) (ts : List Token) : Asm :=
  match hstep : pass1Step st ts with
  | .done st2 => st2
  | .cont st2 rest => pass1Go st2 rest
termination_by ts.length
decreasing_by exact pass1Step_len st st2 ts rest hstep

/-- Fuel-indexed structural twin of `pass1Go`, for concrete evaluation. -/
def pass1GoF (fuel : Nat) (st : Asm) (ts : List Token) : Asm :=
  match fuel with
  | 0 => st
  | fuel + 1 =>
    match pass1Step st ts with
    | .done st2 => st2
    | .cont st2 rest => pass1GoF fuel st2 rest

theorem pass1GoF_eq (fuel : Nat) (st : Asm) (ts : List Token) (hf : ts.length < fuel) :
    pass1GoF fuel st ts = pass1Go st ts := by
  induction fuel generalizing st ts with
  | zero => omega
  | succ fuel ih =>
    rw [pass1GoF, pass1Go]
    cases hstep : pass1Step st ts with
    | done st2 => rfl
    | cont st2 rest =>
      have := pass1Step_len st st2 ts rest hstep
      exact ih st2 rest (by omega)

/-- `pass1`: reset the address to the base of the current section and
run the outer loop over the token list. -/
def pass1 (st : Asm) (tokens : List Token) : Asm :=
  pass1Go {st with current_address := section_addresses st.current_section} tokens

theorem pass1_eval (st : Asm) (tokens : List Token) :
    pass1 st tokens =
      pass1GoF (tokens.length + 1)
        {st with current_address := section_addresses st.current_section} tokens := by
  rw [pass1, pass1GoF_eq]
  omega

/-! ## Pass 2 -/

/-- Pass-2 `.org`: set the address if an immediate follows (no error
otherwise). -/
def org2Dir (st : Asm) : List Token → Asm × List Token
  | [] => (st, [])
  | u :: ts2 =>
    if u.type = .IMMEDIATE then ({st with current_address := pyInt u.value}, ts2)
    else (st, u :: ts2)

theorem org2Dir_len (st : Asm) (ts : List Token) :
    (org2Dir st ts).2.length ≤ ts.length := by
  cases ts with
  | nil => simp [org2Dir]
  | cons u ts2 =>
    rw [org2Dir]
    split_ifs <;> simp

/-- Pass-2 `.string`/`.ascii`: emit the UTF-8 bytes of the string, plus
a null terminator for `.string`. -/
def str2Dir (st : Asm) (d : String) : List Token → Asm × List Token
  | [] => (st, [])
  | u :: ts2 =>
    if u.type = .STRING then
      let bytes := strUtf8 u.value
      let st2 := appendCur st bytes
      let st3 := {st2 with current_address := st2.current_address + bytes.length}
      if d = ".string" then
        let st4 := appendCur st3 [0]
        ({st4 with current_address := st4.current_address + 1}, ts2)
      else (st3, ts2)
    else (st, u :: ts2)

theorem str2Dir_len (st : Asm) (d : String) (ts : List Token) :
    (str2Dir st d ts).2.length ≤ ts.length := by
  cases ts with
  | nil => simp [str2Dir]
  | cons u ts2 =>
    rw [str2Dir]
    split_ifs <;> simp

/-- Pass-2 `.space`: emit `size` zero bytes (`[0] * size` is empty for a
negative size, while the address still moves by `size`). -/
def space2Dir (st : Asm) : List Token → Asm × List Token
  | [] => (st, [])
  | u :: ts2 =>
    if u.type = .IMMEDIATE then
      let st2 := appendCur st (List.replicate (pyInt u.value).toNat 0)
      ({st2 with current_address := st2.current_address + pyInt u.value}, ts2)
    else (st, u :: ts2)

theorem space2Dir_len (st : Asm) (ts : List Token) :
    (space2Dir st ts).2.length ≤ ts.length := by
  cases ts with
  | nil => simp [space2Dir]
  | cons u ts2 =>
    rw [space2Dir]
    split_ifs <;> simp

/-- Pass-2 directive handling, before the shared skip-to-end-of-line.
`.equ`, `.set`, `.global` and unknown directives do nothing here. -/
def pass2Dir (st : Asm) (d : String) (ts : List Token) : Asm × List Token :=
  if d = ".org" then org2Dir st ts
  else if d = ".text" then
    ({st with current_section := ".text", current_address := section_addresses ".text"}, ts)
  else if d = ".data" then
    ({st with current_section := ".data", current_address := section_addresses ".data"}, ts)
  else if d = ".bss" then
    ({st with current_section := ".bss", current_address := section_addresses ".bss"}, ts)
  else if d = ".byte" then
    let r := emit2Bytes ts
    let st2 := appendCur st r.1
    ({st2 with current_address := st2.current_address + r.1.length}, r.2)
  else if d = ".word" then
    let r := emit2Words ts
    let st2 := appendCur st r.1
    ({st2 with current_address := st2.current_address + r.1.length}, r.2)
  else if d = ".string" ∨ d = ".ascii" then str2Dir st d ts
  else if d = ".space" then space2Dir st ts
  else (st, ts)

set_option maxHeartbeats 1000000 in
theorem pass2Dir_len (st : Asm) (d : String) (ts : List Token) :
    (pass2Dir st d ts).2.length ≤ ts.length := by
  have hb := emit2Bytes_len ts
  have hw := emit2Words_len ts
  have ho := org2Dir_len st ts
  have hs := str2Dir_len st d ts
  have hp := space2Dir_len st ts
  rw [pass2Dir.eq_def]
  repeat' split
  all_goals try simp
  all_goals omega

/-- The encode-and-emit loop over an expanded instruction list.  An
encoding error aborts the loop, keeping the bytes already emitted; the
error message propagates together with that partial state. -/
def encodeSeq (st : Asm) : List (String × List PyVal) → Except (Asm × String) Asm
  | [] => .ok st
  | (m, ops) :: rest =>
    match encode_instruction m ops st.current_address with
    | .ok e => encodeSeq (emitWord st e) rest
    | .error msg => .error (st, msg)

/-- The `except` handler around one instruction statement: an encoding
error (with the partially-emitted state) records
`Error encoding instruction <mnemonic>: <message>` and advances the
address by 2. -/
def encodeWrap (m : String) (l : Nat) : Except (Asm × String) Asm → Asm
  | .ok st2 => st2
  | .error (st2, msg) =>
    let st3 := add_error st2
      ("Error encoding instruction " ++ sQuote ++ m ++ sQuote ++ ": " ++ msg) l
    {st3 with current_address := st3.current_address + 2}

/-- The pass-2 instruction statement: the special `li` path, the
pseudo-instruction path and the regular path, inside `encodeWrap`.
The symbol-resolver closure passed to `expand_pseudo_instruction` is
never invoked, because the operand lists built by `parseOps` contain
integers only, so it is modeled by a constant function. -/
def execInstr (st : Asm) (mnemonic : String) (ops : List Int) (line : Nat) : Asm :=
  if mnemonic = "li" then
    match ops with
    | rd :: imm :: _ =>
      if -64 ≤ imm ∧ imm ≤ 63 then
        encodeWrap mnemonic line (encodeSeq st [(mnemonic, ops.map PyVal.i)])
      else
        match expand_pseudo_instruction "li16" [PyVal.i rd, PyVal.i imm] st.current_address
            (some fun _ => 0) with
        | .ok exps => encodeWrap mnemonic line (encodeSeq st exps)
        | .error msg => encodeWrap mnemonic line (.error (st, msg))
    | _ => encodeWrap mnemonic line (.error (st, "LI instruction requires 2 operands"))
  else if pseudo_instructions mnemonic then
    match expand_pseudo_instruction mnemonic (ops.map PyVal.i) st.current_address
        (some fun _ => 0) with
    | .ok exps => encodeWrap mnemonic line (encodeSeq st exps)
    | .error msg => encodeWrap mnemonic line (.error (st, msg))
  else encodeWrap mnemonic line (encodeSeq st [(mnemonic, ops.map PyVal.i)])

/-- One iteration of the pass-2 outer loop. -/
def pass2Step (st : Asm) : List Token → PassOut
  | [] => .done st
  | t :: ts =>
    if t.type = .EOF then .done st
    else if t.type = .COMMENT ∨ t.type = .NEWLINE then .cont st ts
    else if t.type = .LABEL then .cont st ts
    else if t.type = .DIRECTIVE then
      let r := pass2Dir st (strLower t.value) ts
      .cont r.1 (skipLine r.2)
    else if t.type = .INSTRUCTION then
      let r := parseOps st t.line ts
      .cont (execInstr r.1 (strLower t.value) r.2.1 t.line) r.2.2
    else .cont st ts

theorem pass2Step_len (st st2 : Asm) (ts rest : List Token)
    (h : pass2Step st ts = .cont st2 rest) : rest.length < ts.length := by
  cases ts with
  | nil => simp [pass2Step] at h
  | cons t ts =>
    have h1 := pass2Dir_len st (strLower t.value) ts
    have h2 := skipLine_len (pass2Dir st (strLower t.value) ts).2
    have h3 := parseOps_len st t.line ts
    rw [pass2Step] at h
    split_ifs at h <;>
      simp only [PassOut.cont.injEq, reduceCtorEq] at h <;>
      (obtain ⟨-, hr⟩ := h; subst hr; simp only [List.length_cons]; omega)

/-- The pass-2 outer loop. -/
def pass2Go (st : Asm) (ts : List Token) : Asm :=
  match hstep : pass2Step st ts with
  | .done st2 => st2
  | .cont st2 rest => pass2Go st2 rest
termination_by ts.length
decreasing_by exact pass2Step_len st st2 ts rest hstep

/-- Fuel-indexed structural twin of `pass2Go`, for concrete evaluation. -/
def pass2GoF (fuel : Nat) (st : Asm) (ts : List Token) : Asm :=
  match fuel with
  | 0 => st
  | fuel + 1 =>
    match pass2Step st ts with
    | .done st2 => st2
    | .cont st2 rest => pass2GoF fuel st2 rest

theorem pass2GoF_eq (fuel : Nat) (st : Asm) (ts : List Token) (hf : ts.length < fuel) :
    pass2GoF fuel st ts = pass2Go st ts := by
  induction fuel generalizing st ts with
  | zero => omega
  | succ fuel ih =>
    rw [pass2GoF, pass2Go]
    cases hstep : pass2Step st ts with
    | done st2 => rfl
    | cont st2 rest =>
      have := pass2Step_len st st2 ts rest hstep
      exact ih st2 rest (by omega)

/-- `pass2`: reset the address to the base of the current section
(which pass 1 may have changed) and run the outer loop. -/
def pass2 (st : Asm) (tokens : List Token) : Asm :=
  pass2Go {st with current_address := section_addresses st.current_section} tokens

theorem pass2_eval (st : Asm) (tokens : List Token) :
    pass2 st tokens =
      pass2GoF (tokens.length + 1)
        {st with current_address := section_addresses st.current_section} tokens := by
  rw [pass2, pass2GoF_eq]
  omega

/-! ## Top-level `assemble` and binary output -/

/-- Result of `assemble`: either the lexer diverges, or the assembler
returns a success flag together with its final state. -/
inductive AsmResult where
  | hang
  | ret (ok : Bool) (st : Asm)
deriving DecidableEq, Repr

/-- `assemble`: tokenize, run pass 1, stop if it produced errors,
otherwise run pass 2 and report whether the error list is empty.  A
lexer exception is caught by the surrounding handler, which records an
internal error at line 0. -/
def assemble (source : String) : AsmResult :=
  match tokenize source with
  | .hang => .hang
  | .err e => .ret false (add_error initAsm ("Internal assembler error: " ++ e) 0)
  | .ok tokens =>
    let st1 := pass1 initAsm tokens
    if st1.errors.isEmpty then
      let st2 := pass2 st1 tokens
      .ret st2.errors.isEmpty st2
    else .ret false st1

/-- Python `memory[start:start+len(data)] = data` on a `bytearray`:
when the slice reaches past the end, the buffer is extended rather than
truncated. -/
def sliceAssign (buf : List Nat) (start : Nat) (data : List Nat) : List Nat :=
  buf.take start ++ data ++ buf.drop (start + data.length)

/-- `get_binary_output`: a 64 KiB image with the text section at 0x20
and the data section at 0x8000. -/
def get_binary_output (st : Asm) : List Nat :=
  sliceAssign (sliceAssign (List.replicate 65536 0) 0x20 st.text) 0x8000 st.data

/-! ## Spec-modelled decoder (bit-field rules of the encoding section)

The following definitions are modelled from the specification's field
layouts, not from the repository (which contains no decoder): a 16-bit
word is split at the documented bit boundaries, sign-extending the
two's-complement immediate fields, and the opcode tables are read
back. -/

/-- R-type dispatch on `(funct4, func3)`. -/
def decodeR (f4 f3 rd rs2 : Int) : Option (String × List Int) :=
  if f4 = 0 ∧ f3 = 0 then some ("add", [rd, rs2])
  else if f4 = 1 ∧ f3 = 0 then some ("sub", [rd, rs2])
  else if f4 = 2 ∧ f3 = 1 then some ("slt", [rd, rs2])
  else if f4 = 3 ∧ f3 = 2 then some ("sltu", [rd, rs2])
  else if f4 = 4 ∧ f3 = 3 then some ("sll", [rd, rs2])
  else if f4 = 5 ∧ f3 = 3 then some ("srl", [rd, rs2])
  else if f4 = 6 ∧ f3 = 3 then some ("sra", [rd, rs2])
  else if f4 = 7 ∧ f3 = 4 then some ("or", [rd, rs2])
  else if f4 = 8 ∧ f3 = 5 then some ("and", [rd, rs2])
  else if f4 = 9 ∧ f3 = 6 then some ("xor", [rd, rs2])
  else if f4 = 10 ∧ f3 = 7 then some ("mv", [rd, rs2])
  else if f4 = 11 ∧ f3 = 0 then some ("jr", [rd])
  else if f4 = 12 ∧ f3 = 0 then some ("jalr", [rd, rs2])
  else none

/-- I-type dispatch: `func3 = 3` selects the shift sub-format, all other
`func3` values a 7-bit signed immediate. -/
def decodeI (imm7 rd f3 : Int) : Option (String × List Int) :=
  if f3 = 3 then
    if imm7 / 16 = 1 then some ("slli", [rd, imm7 % 16])
    else if imm7 / 16 = 2 then some ("srli", [rd, imm7 % 16])
    else if imm7 / 16 = 4 then some ("srai", [rd, imm7 % 16])
    else none
  else
    let imm := (imm7 + 64) % 128 - 64
    if f3 = 0 then some ("addi", [rd, imm])
    else if f3 = 1 then some ("slti", [rd, imm])
    else if f3 = 2 then some ("sltui", [rd, imm])
    else if f3 = 4 then some ("ori", [rd, imm])
    else if f3 = 5 then some ("andi", [rd, imm])
    else if f3 = 6 then some ("xori", [rd, imm])
    else some ("li", [rd, imm])

/-- B-type: the 4-bit field holds `offset >> 1` in two's complement. -/
def decodeB (imm4 f3 rs1 rs2 pc : Int) : Option (String × List Int) :=
  let target := pc + 2 + ((imm4 + 8) % 16 - 8) * 2
  if f3 = 0 then some ("beq", [rs1, rs2, target])
  else if f3 = 1 then some ("bne", [rs1, rs2, target])
  else if f3 = 2 then some ("bz", [rs1, target])
  else if f3 = 3 then some ("bnz", [rs1, target])
  else if f3 = 4 then some ("blt", [rs1, rs2, target])
  else if f3 = 5 then some ("bge", [rs1, rs2, target])
  else if f3 = 6 then some ("bltu", [rs1, rs2, target])
  else some ("bgeu", [rs1, rs2, target])

/-- S-type: 4-bit two's-complement offset; operand order
`rs2, offset, rs1`. -/
def decodeS (imm4 f3 rs1 rs2 : Int) : Option (String × List Int) :=
  let offset := (imm4 + 8) % 16 - 8
  if f3 = 0 then some ("sb", [rs2, offset, rs1])
  else if f3 = 1 then some ("sw", [rs2, offset, rs1])
  else none

/-- L-type: 4-bit two's-complement offset; operand order
`rd, offset, rs2`. -/
def decodeL (imm4 f3 rd rs2 : Int) : Option (String × List Int) :=
  let offset := (imm4 + 8) % 16 - 8
  if f3 = 0 then some ("lb", [rd, offset, rs2])
  else if f3 = 1 then some ("lw", [rd, offset, rs2])
  else if f3 = 4 then some ("lbu", [rd, offset, rs2])
  else none

/-- J-type: 6-bit signed high part and 3-bit low part of
`offset >> 1`. -/
def decodeJ (link immhi rd immlo pc : Int) : Option (String × List Int) :=
  let target := pc + 2 + (((immhi + 32) % 64 - 32) * 16 + immlo * 2)
  if link = 1 then some ("jal", [rd, target]) else some ("j", [target])

/-- U-type: 9-bit unsigned immediate split 6/3. -/
def decodeU (flag immhi rd immlo : Int) : Option (String × List Int) :=
  let imm := immhi * 8 + immlo
  if flag = 1 then some ("auipc", [rd, imm]) else some ("lui", [rd, imm])

/-- SYS-type: 10-bit service number. -/
def decodeSYS (svc : Int) : Option (String × List Int) :=
  some ("ecall", [svc])

/-- The decoder: split the word at the documented bit boundaries
(`w % 8` is the format tag in bits [2:0], and the divisions select the
documented fields) and dispatch. -/
def decode (w pc : Int) : Option (String × List Int) :=
  if w % 8 = 0 then decodeR (w / 4096 % 16) (w / 8 % 8) (w / 64 % 8) (w / 512 % 8)
  else if w % 8 = 1 then decodeI (w / 512 % 128) (w / 64 % 8) (w / 8 % 8)
  else if w % 8 = 2 then decodeB (w / 4096 % 16) (w / 8 % 8) (w / 64 % 8) (w / 512 % 8) pc
  else if w % 8 = 3 then decodeS (w / 4096 % 16) (w / 8 % 8) (w / 64 % 8) (w / 512 % 8)
  else if w % 8 = 4 then decodeL (w / 4096 % 16) (w / 8 % 8) (w / 64 % 8) (w / 512 % 8)
  else if w % 8 = 5 then decodeJ (w / 32768 % 2) (w / 512 % 64) (w / 64 % 8) (w / 8 % 8) pc
  else if w % 8 = 6 then decodeU (w / 32768 % 2) (w / 512 % 64) (w / 64 % 8) (w / 8 % 8)
  else decodeSYS (w / 64 % 1024)

/-- A register operand is a 3-bit field. -/
def regB (r : Int) : Bool := decide (0 ≤ r) && decide (r ≤ 7)

/-- Two-operand R-type mnemonics (`jr` is handled separately). -/
def isR2 (m : String) : Bool :=
  m = "add" || m = "sub" || m = "slt" || m = "sltu" || m = "sll" || m = "srl" ||
  m = "sra" || m = "or" || m = "and" || m = "xor" || m = "mv" || m = "jalr"

/-- Plain I-type mnemonics. -/
def isI7 (m : String) : Bool :=
  m = "addi" || m = "slti" || m = "sltui" || m = "ori" || m = "andi" ||
  m = "xori" || m = "li"

/-- Shift mnemonics. -/
def isShift (m : String) : Bool := m = "slli" || m = "srli" || m = "srai"

/-- Three-operand branch mnemonics. -/
def isB3 (m : String) : Bool :=
  m = "beq" || m = "bne" || m = "blt" || m = "bge" || m = "bltu" || m = "bgeu"

/-- Validity of an operand tuple at a given PC: the documented field
ranges, with the branch offset restricted to `[-16, 14]` and the jump
offset to `[-512, 510]` — the subranges on which the truncated offset
fields are faithful. -/
def validEnc (m : String) (ops : List Int) (pc : Int) : Bool :=
  if m = "jr" then
    match ops with
    | [rd] => regB rd
    | _ => false
  else if isR2 m then
    match ops with
    | [rd, rs2] => regB rd && regB rs2
    | _ => false
  else if isI7 m then
    match ops with
    | [rd, imm] => regB rd && decide (-64 ≤ imm) && decide (imm ≤ 63)
    | _ => false
  else if isShift m then
    match ops with
    | [rd, amt] => regB rd && decide (0 ≤ amt) && decide (amt ≤ 15)
    | _ => false
  else if isB3 m then
    match ops with
    | [rs1, rs2, t] =>
      regB rs1 && regB rs2 && decide ((t - (pc + 2)) % 2 = 0) &&
        decide (-16 ≤ t - (pc + 2)) && decide (t - (pc + 2) ≤ 14)
    | _ => false
  else if m = "bz" || m = "bnz" then
    match ops with
    | [rs1, t] =>
      regB rs1 && decide ((t - (pc + 2)) % 2 = 0) &&
        decide (-16 ≤ t - (pc + 2)) && decide (t - (pc + 2) ≤ 14)
    | _ => false
  else if m = "sb" || m = "sw" then
    match ops with
    | [rs2, offset, rs1] => regB rs2 && regB rs1 && decide (-8 ≤ offset) && decide (offset ≤ 7)
    | _ => false
  else if m = "lb" || m = "lw" || m = "lbu" then
    match ops with
    | [rd, offset, rs2] => regB rd && regB rs2 && decide (-8 ≤ offset) && decide (offset ≤ 7)
    | _ => false
  else if m = "j" then
    match ops with
    | [t] =>
      decide ((t - (pc + 2)) % 2 = 0) && decide (-512 ≤ t - (pc + 2)) &&
        decide (t - (pc + 2) ≤ 510)
    | _ => false
  else if m = "jal" then
    match ops with
    | [rd, t] =>
      regB rd && decide ((t - (pc + 2)) % 2 = 0) && decide (-512 ≤ t - (pc + 2)) &&
        decide (t - (pc + 2) ≤ 510)
    | _ => false
  else if m = "lui" || m = "auipc" then
    match ops with
    | [rd, imm] => regB rd && decide (0 ≤ imm) && decide (imm ≤ 0x1FF)
    | _ => false
  else if m = "ecall" then
    match ops with
    | [svc] => decide (0 ≤ svc) && decide (svc ≤ 0x3FF)
    | _ => false
  else false

/-- `sign_extend` is the identity on the 7-bit signed range. -/
theorem sign_extendV_id (v : Int) (h1 : -64 ≤ v) (h2 : v ≤ 63) : sign_extendV v 7 = v := by
  rw [sign_extendV_seven]
  omega

/-! ### Field-arithmetic lemmas for the encoder words -/


theorem wordR_sum (f4 rs2 rd f3 tag : Int)
    (h4a : 0 ≤ f4) (h4b : f4 ≤ 15) (h2a : 0 ≤ rs2) (h2b : rs2 ≤ 7)
    (hda : 0 ≤ rd) (hdb : rd ≤ 7) (h3a : 0 ≤ f3) (h3b : f3 ≤ 7)
    (hta : 0 ≤ tag) (htb : tag ≤ 7) :
    pyOr (pyOr (pyOr (pyOr (pyShl f4 12) (pyShl rs2 9)) (pyShl rd 6)) (pyShl f3 3)) tag
      = f4 * 4096 + rs2 * 512 + rd * 64 + f3 * 8 + tag := by
  simp only [pyShl]
  norm_num
  rw [pyOr_disj (f4 * 4096) (rs2 * 512) 12 (by omega) (by omega) (by omega) (by omega)]
  rw [pyOr_disj (f4 * 4096 + rs2 * 512) (rd * 64) 9 (by omega) (by omega) (by omega) (by omega)]
  rw [pyOr_disj (f4 * 4096 + rs2 * 512 + rd * 64) (f3 * 8) 6 (by omega) (by omega) (by omega)
    (by omega)]
  rw [pyOr_disj (f4 * 4096 + rs2 * 512 + rd * 64 + f3 * 8) tag 3 (by omega) (by omega) (by omega)
    (by omega)]

theorem wordI_sum (imm7 rd f3 tag : Int)
    (h7a : 0 ≤ imm7) (h7b : imm7 ≤ 127) (hda : 0 ≤ rd) (hdb : rd ≤ 7)
    (h3a : 0 ≤ f3) (h3b : f3 ≤ 7) (hta : 0 ≤ tag) (htb : tag ≤ 7) :
    pyOr (pyOr (pyOr (pyShl imm7 9) (pyShl rd 6)) (pyShl f3 3)) tag
      = imm7 * 512 + rd * 64 + f3 * 8 + tag := by
  simp only [pyShl]
  norm_num
  rw [pyOr_disj (imm7 * 512) (rd * 64) 9 (by omega) (by omega) (by omega) (by omega)]
  rw [pyOr_disj (imm7 * 512 + rd * 64) (f3 * 8) 6 (by omega) (by omega) (by omega) (by omega)]
  rw [pyOr_disj (imm7 * 512 + rd * 64 + f3 * 8) tag 3 (by omega) (by omega) (by omega) (by omega)]

theorem wordJ_sum (link immhi rd immlo tag : Int)
    (hla : 0 ≤ link) (hlb : link ≤ 1) (hha : 0 ≤ immhi) (hhb : immhi ≤ 63)
    (hda : 0 ≤ rd) (hdb : rd ≤ 7) (hoa : 0 ≤ immlo) (hob : immlo ≤ 7)
    (hta : 0 ≤ tag) (htb : tag ≤ 7) :
    pyOr (pyOr (pyOr (pyOr (pyShl link 15) (pyShl immhi 9)) (pyShl rd 6)) (pyShl immlo 3)) tag
      = link * 32768 + immhi * 512 + rd * 64 + immlo * 8 + tag := by
  simp only [pyShl]
  norm_num
  rw [pyOr_disj (link * 32768) (immhi * 512) 15 (by omega) (by omega) (by omega) (by omega)]
  rw [pyOr_disj (link * 32768 + immhi * 512) (rd * 64) 9 (by omega) (by omega) (by omega)
    (by omega)]
  rw [pyOr_disj (link * 32768 + immhi * 512 + rd * 64) (immlo * 8) 6 (by omega) (by omega)
    (by omega) (by omega)]
  rw [pyOr_disj (link * 32768 + immhi * 512 + rd * 64 + immlo * 8) tag 3 (by omega) (by omega)
    (by omega) (by omega)]

theorem wordR_decode (f4 rs2 rd f3 pc : Int)
    (h4a : 0 ≤ f4) (h4b : f4 ≤ 15) (h2a : 0 ≤ rs2) (h2b : rs2 ≤ 7)
    (hda : 0 ≤ rd) (hdb : rd ≤ 7) (h3a : 0 ≤ f3) (h3b : f3 ≤ 7) :
    decode (pyOr (pyOr (pyOr (pyOr (pyShl f4 12) (pyShl rs2 9)) (pyShl rd 6)) (pyShl f3 3))
      R_TYPE) pc = decodeR f4 f3 rd rs2 := by
  rw [wordR_sum f4 rs2 rd f3 R_TYPE h4a h4b h2a h2b hda hdb h3a h3b (by norm_num [R_TYPE])
    (by norm_num [R_TYPE])]
  simp only [R_TYPE]
  have h0 : (f4 * 4096 + rs2 * 512 + rd * 64 + f3 * 8 + 0) % 8 = 0 := by omega
  have hf4 : (f4 * 4096 + rs2 * 512 + rd * 64 + f3 * 8 + 0) / 4096 % 16 = f4 := by omega
  have hf3 : (f4 * 4096 + rs2 * 512 + rd * 64 + f3 * 8 + 0) / 8 % 8 = f3 := by omega
  have hrd : (f4 * 4096 + rs2 * 512 + rd * 64 + f3 * 8 + 0) / 64 % 8 = rd := by omega
  have hrs2 : (f4 * 4096 + rs2 * 512 + rd * 64 + f3 * 8 + 0) / 512 % 8 = rs2 := by omega
  rw [decode, if_pos h0, hf4, hf3, hrd, hrs2]

theorem wordB_decode (imm4 rs2 rs1 f3 pc : Int)
    (h4a : 0 ≤ imm4) (h4b : imm4 ≤ 15) (h2a : 0 ≤ rs2) (h2b : rs2 ≤ 7)
    (h1a : 0 ≤ rs1) (h1b : rs1 ≤ 7) (h3a : 0 ≤ f3) (h3b : f3 ≤ 7) :
    decode (pyOr (pyOr (pyOr (pyOr (pyShl imm4 12) (pyShl rs2 9)) (pyShl rs1 6)) (pyShl f3 3))
      B_TYPE) pc = decodeB imm4 f3 rs1 rs2 pc := by
  rw [wordR_sum imm4 rs2 rs1 f3 B_TYPE h4a h4b h2a h2b h1a h1b h3a h3b (by norm_num [B_TYPE])
    (by norm_num [B_TYPE])]
  simp only [B_TYPE]
  have hn0 : ¬ (imm4 * 4096 + rs2 * 512 + rs1 * 64 + f3 * 8 + 2) % 8 = 0 := by omega
  have hn1 : ¬ (imm4 * 4096 + rs2 * 512 + rs1 * 64 + f3 * 8 + 2) % 8 = 1 := by omega
  have h2 : (imm4 * 4096 + rs2 * 512 + rs1 * 64 + f3 * 8 + 2) % 8 = 2 := by omega
  have hf4 : (imm4 * 4096 + rs2 * 512 + rs1 * 64 + f3 * 8 + 2) / 4096 % 16 = imm4 := by omega
  have hf3 : (imm4 * 4096 + rs2 * 512 + rs1 * 64 + f3 * 8 + 2) / 8 % 8 = f3 := by omega
  have hrd : (imm4 * 4096 + rs2 * 512 + rs1 * 64 + f3 * 8 + 2) / 64 % 8 = rs1 := by omega
  have hrs2 : (imm4 * 4096 + rs2 * 512 + rs1 * 64 + f3 * 8 + 2) / 512 % 8 = rs2 := by omega
  rw [decode, if_neg hn0, if_neg hn1, if_pos h2, hf4, hf3, hrd, hrs2]

theorem wordS_decode (imm4 rs2 rs1 f3 pc : Int)
    (h4a : 0 ≤ imm4) (h4b : imm4 ≤ 15) (h2a : 0 ≤ rs2) (h2b : rs2 ≤ 7)
    (h1a : 0 ≤ rs1) (h1b : rs1 ≤ 7) (h3a : 0 ≤ f3) (h3b : f3 ≤ 7) :
    decode (pyOr (pyOr (pyOr (pyOr (pyShl imm4 12) (pyShl rs2 9)) (pyShl rs1 6)) (pyShl f3 3))
      S_TYPE) pc = decodeS imm4 f3 rs1 rs2 := by
  rw [wordR_sum imm4 rs2 rs1 f3 S_TYPE h4a h4b h2a h2b h1a h1b h3a h3b (by norm_num [S_TYPE])
    (by norm_num [S_TYPE])]
  simp only [S_TYPE]
  have hn0 : ¬ (imm4 * 4096 + rs2 * 512 + rs1 * 64 + f3 * 8 + 3) % 8 = 0 := by omega
  have hn1 : ¬ (imm4 * 4096 + rs2 * 512 + rs1 * 64 + f3 * 8 + 3) % 8 = 1 := by omega
  have hn2 : ¬ (imm4 * 4096 + rs2 * 512 + rs1 * 64 + f3 * 8 + 3) % 8 = 2 := by omega
  have h3 : (imm4 * 4096 + rs2 * 512 + rs1 * 64 + f3 * 8 + 3) % 8 = 3 := by omega
  have hf4 : (imm4 * 4096 + rs2 * 512 + rs1 * 64 + f3 * 8 + 3) / 4096 % 16 = imm4 := by omega
  have hf3 : (imm4 * 4096 + rs2 * 512 + rs1 * 64 + f3 * 8 + 3) / 8 % 8 = f3 := by omega
  have hrd : (imm4 * 4096 + rs2 * 512 + rs1 * 64 + f3 * 8 + 3) / 64 % 8 = rs1 := by omega
  have hrs2 : (imm4 * 4096 + rs2 * 512 + rs1 * 64 + f3 * 8 + 3) / 512 % 8 = rs2 := by omega
  rw [decode, if_neg hn0, if_neg hn1, if_neg hn2, if_pos h3, hf4, hf3, hrd, hrs2]

theorem wordL_decode (imm4 rs2 rd f3 pc : Int)
    (h4a : 0 ≤ imm4) (h4b : imm4 ≤ 15) (h2a : 0 ≤ rs2) (h2b : rs2 ≤ 7)
    (hda : 0 ≤ rd) (hdb : rd ≤ 7) (h3a : 0 ≤ f3) (h3b : f3 ≤ 7) :
    decode (pyOr (pyOr (pyOr (pyOr (pyShl imm4 12) (pyShl rs2 9)) (pyShl rd 6)) (pyShl f3 3))
      L_TYPE) pc = decodeL imm4 f3 rd rs2 := by
  rw [wordR_sum imm4 rs2 rd f3 L_TYPE h4a h4b h2a h2b hda hdb h3a h3b (by norm_num [L_TYPE])
    (by norm_num [L_TYPE])]
  simp only [L_TYPE]
  have hn0 : ¬ (imm4 * 4096 + rs2 * 512 + rd * 64 + f3 * 8 + 4) % 8 = 0 := by omega
  have hn1 : ¬ (imm4 * 4096 + rs2 * 512 + rd * 64 + f3 * 8 + 4) % 8 = 1 := by omega
  have hn2 : ¬ (imm4 * 4096 + rs2 * 512 + rd * 64 + f3 * 8 + 4) % 8 = 2 := by omega
  have hn3 : ¬ (imm4 * 4096 + rs2 * 512 + rd * 64 + f3 * 8 + 4) % 8 = 3 := by omega
  have h4 : (imm4 * 4096 + rs2 * 512 + rd * 64 + f3 * 8 + 4) % 8 = 4 := by omega
  have hf4 : (imm4 * 4096 + rs2 * 512 + rd * 64 + f3 * 8 + 4) / 4096 % 16 = imm4 := by omega
  have hf3 : (imm4 * 4096 + rs2 * 512 + rd * 64 + f3 * 8 + 4) / 8 % 8 = f3 := by omega
  have hrd : (imm4 * 4096 + rs2 * 512 + rd * 64 + f3 * 8 + 4) / 64 % 8 = rd := by omega
  have hrs2 : (imm4 * 4096 + rs2 * 512 + rd * 64 + f3 * 8 + 4) / 512 % 8 = rs2 := by omega
  rw [decode, if_neg hn0, if_neg hn1, if_neg hn2, if_neg hn3, if_pos h4, hf4, hf3, hrd, hrs2]

theorem wordI_decode (imm7 rd f3 pc : Int)
    (h7a : 0 ≤ imm7) (h7b : imm7 ≤ 127) (hda : 0 ≤ rd) (hdb : rd ≤ 7)
    (h3a : 0 ≤ f3) (h3b : f3 ≤ 7) :
    decode (pyOr (pyOr (pyOr (pyShl imm7 9) (pyShl rd 6)) (pyShl f3 3)) I_TYPE) pc
      = decodeI imm7 rd f3 := by
  rw [wordI_sum imm7 rd f3 I_TYPE h7a h7b hda hdb h3a h3b (by norm_num [I_TYPE])
    (by norm_num [I_TYPE])]
  simp only [I_TYPE]
  have hn0 : ¬ (imm7 * 512 + rd * 64 + f3 * 8 + 1) % 8 = 0 := by omega
  have h1 : (imm7 * 512 + rd * 64 + f3 * 8 + 1) % 8 = 1 := by omega
  have h7 : (imm7 * 512 + rd * 64 + f3 * 8 + 1) / 512 % 128 = imm7 := by omega
  have hf3 : (imm7 * 512 + rd * 64 + f3 * 8 + 1) / 8 % 8 = f3 := by omega
  have hrd : (imm7 * 512 + rd * 64 + f3 * 8 + 1) / 64 % 8 = rd := by omega
  rw [decode, if_neg hn0, if_pos h1, h7, hf3, hrd]

theorem wordJ_decode (link immhi rd immlo pc : Int)
    (hla : 0 ≤ link) (hlb : link ≤ 1) (hha : 0 ≤ immhi) (hhb : immhi ≤ 63)
    (hda : 0 ≤ rd) (hdb : rd ≤ 7) (hoa : 0 ≤ immlo) (hob : immlo ≤ 7) :
    decode (pyOr (pyOr (pyOr (pyOr (pyShl link 15) (pyShl immhi 9)) (pyShl rd 6))
      (pyShl immlo 3)) J_TYPE) pc = decodeJ link immhi rd immlo pc := by
  rw [wordJ_sum link immhi rd immlo J_TYPE hla hlb hha hhb hda hdb hoa hob
    (by norm_num [J_TYPE]) (by norm_num [J_TYPE])]
  simp only [J_TYPE]
  have hn0 : ¬ (link * 32768 + immhi * 512 + rd * 64 + immlo * 8 + 5) % 8 = 0 := by omega
  have hn1 : ¬ (link * 32768 + immhi * 512 + rd * 64 + immlo * 8 + 5) % 8 = 1 := by omega
  have hn2 : ¬ (link * 32768 + immhi * 512 + rd * 64 + immlo * 8 + 5) % 8 = 2 := by omega
  have hn3 : ¬ (link * 32768 + immhi * 512 + rd * 64 + immlo * 8 + 5) % 8 = 3 := by omega
  have hn4 : ¬ (link * 32768 + immhi * 512 + rd * 64 + immlo * 8 + 5) % 8 = 4 := by omega
  have h5 : (link * 32768 + immhi * 512 + rd * 64 + immlo * 8 + 5) % 8 = 5 := by omega
  have hlk : (link * 32768 + immhi * 512 + rd * 64 + immlo * 8 + 5) / 32768 % 2 = link := by omega
  have hhi : (link * 32768 + immhi * 512 + rd * 64 + immlo * 8 + 5) / 512 % 64 = immhi := by
    omega
  have hrd : (link * 32768 + immhi * 512 + rd * 64 + immlo * 8 + 5) / 64 % 8 = rd := by omega
  have hlo : (link * 32768 + immhi * 512 + rd * 64 + immlo * 8 + 5) / 8 % 8 = immlo := by omega
  rw [decode, if_neg hn0, if_neg hn1, if_neg hn2, if_neg hn3, if_neg hn4, if_pos h5, hlk, hhi,
    hrd, hlo]

theorem wordU_decode (flag immhi rd immlo pc : Int)
    (hla : 0 ≤ flag) (hlb : flag ≤ 1) (hha : 0 ≤ immhi) (hhb : immhi ≤ 63)
    (hda : 0 ≤ rd) (hdb : rd ≤ 7) (hoa : 0 ≤ immlo) (hob : immlo ≤ 7) :
    decode (pyOr (pyOr (pyOr (pyOr (pyShl flag 15) (pyShl immhi 9)) (pyShl rd 6))
      (pyShl immlo 3)) U_TYPE) pc = decodeU flag immhi rd immlo := by
  rw [wordJ_sum flag immhi rd immlo U_TYPE hla hlb hha hhb hda hdb hoa hob
    (by norm_num [U_TYPE]) (by norm_num [U_TYPE])]
  simp only [U_TYPE]
  have hn0 : ¬ (flag * 32768 + immhi * 512 + rd * 64 + immlo * 8 + 6) % 8 = 0 := by omega
  have hn1 : ¬ (flag * 32768 + immhi * 512 + rd * 64 + immlo * 8 + 6) % 8 = 1 := by omega
  have hn2 : ¬ (flag * 32768 + immhi * 512 + rd * 64 + immlo * 8 + 6) % 8 = 2 := by omega
  have hn3 : ¬ (flag * 32768 + immhi * 512 + rd * 64 + immlo * 8 + 6) % 8 = 3 := by omega
  have hn4 : ¬ (flag * 32768 + immhi * 512 + rd * 64 + immlo * 8 + 6) % 8 = 4 := by omega
  have hn5 : ¬ (flag * 32768 + immhi * 512 + rd * 64 + immlo * 8 + 6) % 8 = 5 := by omega
  have h6 : (flag * 32768 + immhi * 512 + rd * 64 + immlo * 8 + 6) % 8 = 6 := by omega
  have hlk : (flag * 32768 + immhi * 512 + rd * 64 + immlo * 8 + 6) / 32768 % 2 = flag := by
    omega
  have hhi : (flag * 32768 + immhi * 512 + rd * 64 + immlo * 8 + 6) / 512 % 64 = immhi := by
    omega
  have hrd : (flag * 32768 + immhi * 512 + rd * 64 + immlo * 8 + 6) / 64 % 8 = rd := by omega
  have hlo : (flag * 32768 + immhi * 512 + rd * 64 + immlo * 8 + 6) / 8 % 8 = immlo := by omega
  rw [decode, if_neg hn0, if_neg hn1, if_neg hn2, if_neg hn3, if_neg hn4, if_neg hn5, if_pos h6,
    hlk, hhi, hrd, hlo]

theorem wordSYS_decode (sv pc : Int) (ha : 0 ≤ sv) (hb : sv ≤ 1023) :
    decode (pyOr (pyShl sv 6) SYS_TYPE) pc = decodeSYS sv := by
  have hsum : pyOr (pyShl sv 6) SYS_TYPE = sv * 64 + 7 := by
    simp only [pyShl, SYS_TYPE]
    norm_num
    rw [pyOr_disj (sv * 64) 7 6 (by omega) (by omega) (by omega) (by omega)]
  rw [hsum]
  have hn0 : ¬ (sv * 64 + 7) % 8 = 0 := by omega
  have hn1 : ¬ (sv * 64 + 7) % 8 = 1 := by omega
  have hn2 : ¬ (sv * 64 + 7) % 8 = 2 := by omega
  have hn3 : ¬ (sv * 64 + 7) % 8 = 3 := by omega
  have hn4 : ¬ (sv * 64 + 7) % 8 = 4 := by omega
  have hn5 : ¬ (sv * 64 + 7) % 8 = 5 := by omega
  have hn6 : ¬ (sv * 64 + 7) % 8 = 6 := by omega
  have hsv : (sv * 64 + 7) / 64 % 1024 = sv := by omega
  rw [decode, if_neg hn0, if_neg hn1, if_neg hn2, if_neg hn3, if_neg hn4, if_neg hn5, if_neg hn6,
    hsv]

/-! ### Encode-decode lemmas per instruction group -/


theorem encR2 (m : String) (f4 f3 : Int) (rd rs2 pc : Int)
    (hm : r_type_instructions (strLower m) = some (f4, f3))
    (hjr : ¬ strLower m = "jr")
    (h4a : 0 ≤ f4) (h4b : f4 ≤ 15) (h3a : 0 ≤ f3) (h3b : f3 ≤ 7)
    (hda : 0 ≤ rd) (hdb : rd ≤ 7) (h2a : 0 ≤ rs2) (h2b : rs2 ≤ 7) :
    ∃ w, encode_instruction m [.i rd, .i rs2] pc = .ok w ∧
      decode w pc = decodeR f4 f3 rd rs2 := by
  refine ⟨pyOr (pyOr (pyOr (pyOr (pyShl f4 12) (pyShl rs2 9)) (pyShl rd 6)) (pyShl f3 3))
    R_TYPE, ?_, wordR_decode f4 rs2 rd f3 pc h4a h4b h2a h2b hda hdb h3a h3b⟩
  simp only [encode_instruction, hm, if_neg hjr]

theorem encJR (rd pc : Int) (hda : 0 ≤ rd) (hdb : rd ≤ 7) :
    ∃ w, encode_instruction "jr" [.i rd] pc = .ok w ∧ decode w pc = some ("jr", [rd]) := by
  refine ⟨pyOr (pyOr (pyOr (pyOr (pyShl 11 12) (pyShl 0 9)) (pyShl rd 6)) (pyShl 0 3))
    R_TYPE, ?_, ?_⟩
  · rfl
  · rw [wordR_decode 11 0 rd 0 pc (by norm_num) (by norm_num) (by norm_num) (by norm_num)
      hda hdb (by norm_num) (by norm_num)]
    rfl

theorem encI7 (m : String) (f3 : Int) (rd imm pc : Int)
    (hr : r_type_instructions (strLower m) = none)
    (hm : i_type_instructions (strLower m) = some f3)
    (h3a : 0 ≤ f3) (h3b : f3 ≤ 7)
    (hda : 0 ≤ rd) (hdb : rd ≤ 7) (hia : -64 ≤ imm) (hib : imm ≤ 63) :
    ∃ w, encode_instruction m [.i rd, .i imm] pc = .ok w ∧
      decode w pc = decodeI (imm % 128) rd f3 := by
  have hse : sign_extendV imm 7 = imm := sign_extendV_id imm hia hib
  have hmask : pyAnd (sign_extendV imm 7) 0x7F = imm % 128 := by
    rw [hse]
    have := pyAnd_mask imm 7
    norm_num at this
    exact this
  refine ⟨pyOr (pyOr (pyOr (pyShl (pyAnd (sign_extendV imm 7) 0x7F) 9) (pyShl rd 6))
    (pyShl f3 3)) I_TYPE, ?_, ?_⟩
  · simp only [encode_instruction, hr, hm, hse]
    rw [if_neg (by omega)]
  · rw [hmask]
    exact wordI_decode (imm % 128) rd f3 pc (by omega) (by omega) hda hdb h3a h3b

theorem encShift (m : String) (st : Int) (rd a pc : Int)
    (hr : r_type_instructions (strLower m) = none)
    (hi : i_type_instructions (strLower m) = none)
    (hm : shift_instructions (strLower m) = some st)
    (hsa : 0 ≤ st) (hsb : st ≤ 4)
    (hda : 0 ≤ rd) (hdb : rd ≤ 7) (haa : 0 ≤ a) (hab : a ≤ 15) :
    ∃ w, encode_instruction m [.i rd, .i a] pc = .ok w ∧
      decode w pc = decodeI (st * 16 + a) rd 3 := by
  have hmask : pyAnd a 0xF = a := by
    have := pyAnd_mask a 4
    norm_num at this
    omega
  have hinner : pyOr (pyShl st 4) (pyAnd a 0xF) = st * 16 + a := by
    rw [hmask]
    simp only [pyShl]
    norm_num
    rw [pyOr_disj (st * 16) a 4 (by omega) (by omega) (by omega) (by omega)]
  refine ⟨pyOr (pyOr (pyOr (pyShl (pyOr (pyShl st 4) (pyAnd a 0xF)) 9) (pyShl rd 6))
    (pyShl (0x3 : Int) 3)) I_TYPE, ?_, ?_⟩
  · simp only [encode_instruction, hr, hi, hm]
    rw [if_neg (by omega)]
  · rw [hinner]
    exact wordI_decode (st * 16 + a) rd 3 pc (by omega) (by omega) hda hdb (by norm_num)
      (by norm_num)

theorem encB3 (m : String) (f3 : Int) (r1 r2 t pc : Int)
    (hr : r_type_instructions (strLower m) = none)
    (hi : i_type_instructions (strLower m) = none)
    (hsh : shift_instructions (strLower m) = none)
    (hm : b_type_instructions (strLower m) = some f3)
    (hnz : ¬ (strLower m = "bz" ∨ strLower m = "bnz"))
    (h3a : 0 ≤ f3) (h3b : f3 ≤ 7)
    (h1a : 0 ≤ r1) (h1b : r1 ≤ 7) (h2a : 0 ≤ r2) (h2b : r2 ≤ 7)
    (hoe : (t - (pc + 2)) % 2 = 0) (hoa : -16 ≤ t - (pc + 2)) (hob : t - (pc + 2) ≤ 14) :
    ∃ w, encode_instruction m [.i r1, .i r2, .i t] pc = .ok w ∧
      decode w pc = decodeB ((t - (pc + 2)) / 2 % 16) f3 r1 r2 pc := by
  have hfield : pyAnd (pyShr (t - (pc + 2)) 1) 0xF = (t - (pc + 2)) / 2 % 16 := by
    have := pyAnd_mask (pyShr (t - (pc + 2)) 1) 4
    norm_num at this
    rw [this]
    simp only [pyShr]
    norm_num
  refine ⟨pyOr (pyOr (pyOr (pyOr (pyShl (pyAnd (pyShr (t - (pc + 2)) 1) 0xF) 12)
    (pyShl r2 9)) (pyShl r1 6)) (pyShl f3 3)) B_TYPE, ?_, ?_⟩
  · simp only [encode_instruction, hr, hi, hsh, hm, if_neg hnz]
    rw [if_neg (by omega)]
  · rw [hfield]
    exact wordB_decode ((t - (pc + 2)) / 2 % 16) r2 r1 f3 pc (by omega) (by omega) h2a h2b
      h1a h1b h3a h3b

theorem encB2 (m : String) (f3 : Int) (r1 t pc : Int)
    (hr : r_type_instructions (strLower m) = none)
    (hi : i_type_instructions (strLower m) = none)
    (hsh : shift_instructions (strLower m) = none)
    (hm : b_type_instructions (strLower m) = some f3)
    (hz : strLower m = "bz" ∨ strLower m = "bnz")
    (h3a : 0 ≤ f3) (h3b : f3 ≤ 7)
    (h1a : 0 ≤ r1) (h1b : r1 ≤ 7)
    (hoe : (t - (pc + 2)) % 2 = 0) (hoa : -16 ≤ t - (pc + 2)) (hob : t - (pc + 2) ≤ 14) :
    ∃ w, encode_instruction m [.i r1, .i t] pc = .ok w ∧
      decode w pc = decodeB ((t - (pc + 2)) / 2 % 16) f3 r1 0 pc := by
  have hfield : pyAnd (pyShr (t - (pc + 2)) 1) 0xF = (t - (pc + 2)) / 2 % 16 := by
    have := pyAnd_mask (pyShr (t - (pc + 2)) 1) 4
    norm_num at this
    rw [this]
    simp only [pyShr]
    norm_num
  refine ⟨pyOr (pyOr (pyOr (pyOr (pyShl (pyAnd (pyShr (t - (pc + 2)) 1) 0xF) 12)
    (pyShl 0 9)) (pyShl r1 6)) (pyShl f3 3)) B_TYPE, ?_, ?_⟩
  · simp only [encode_instruction, hr, hi, hsh, hm, if_pos hz]
    rw [if_neg (by omega)]
  · rw [hfield]
    exact wordB_decode ((t - (pc + 2)) / 2 % 16) 0 r1 f3 pc (by omega) (by omega) (by norm_num)
      (by norm_num) h1a h1b h3a h3b

theorem encS (m : String) (f3 : Int) (r2 ov r1 pc : Int)
    (hr : r_type_instructions (strLower m) = none)
    (hi : i_type_instructions (strLower m) = none)
    (hsh : shift_instructions (strLower m) = none)
    (hb : b_type_instructions (strLower m) = none)
    (hm : s_type_instructions (strLower m) = some f3)
    (h3a : 0 ≤ f3) (h3b : f3 ≤ 7)
    (h2a : 0 ≤ r2) (h2b : r2 ≤ 7) (h1a : 0 ≤ r1) (h1b : r1 ≤ 7)
    (hoa : -8 ≤ ov) (hob : ov ≤ 7) :
    ∃ w, encode_instruction m [.i r2, .i ov, .i r1] pc = .ok w ∧
      decode w pc = decodeS (ov % 16) f3 r1 r2 := by
  have hfield : pyAnd ov 0xF = ov % 16 := by
    have := pyAnd_mask ov 4
    norm_num at this
    exact this
  refine ⟨pyOr (pyOr (pyOr (pyOr (pyShl (pyAnd ov 0xF) 12) (pyShl r2 9)) (pyShl r1 6))
    (pyShl f3 3)) S_TYPE, ?_, ?_⟩
  · simp only [encode_instruction, hr, hi, hsh, hb, hm]
    rw [if_neg (by omega)]
  · rw [hfield]
    exact wordS_decode (ov % 16) r2 r1 f3 pc (by omega) (by omega) h2a h2b h1a h1b h3a h3b

theorem encL (m : String) (f3 : Int) (rd ov r2 pc : Int)
    (hr : r_type_instructions (strLower m) = none)
    (hi : i_type_instructions (strLower m) = none)
    (hsh : shift_instructions (strLower m) = none)
    (hb : b_type_instructions (strLower m) = none)
    (hs : s_type_instructions (strLower m) = none)
    (hm : l_type_instructions (strLower m) = some f3)
    (h3a : 0 ≤ f3) (h3b : f3 ≤ 7)
    (hda : 0 ≤ rd) (hdb : rd ≤ 7) (h2a : 0 ≤ r2) (h2b : r2 ≤ 7)
    (hoa : -8 ≤ ov) (hob : ov ≤ 7) :
    ∃ w, encode_instruction m [.i rd, .i ov, .i r2] pc = .ok w ∧
      decode w pc = decodeL (ov % 16) f3 rd r2 := by
  have hfield : pyAnd ov 0xF = ov % 16 := by
    have := pyAnd_mask ov 4
    norm_num at this
    exact this
  refine ⟨pyOr (pyOr (pyOr (pyOr (pyShl (pyAnd ov 0xF) 12) (pyShl r2 9)) (pyShl rd 6))
    (pyShl f3 3)) L_TYPE, ?_, ?_⟩
  · simp only [encode_instruction, hr, hi, hsh, hb, hs, hm]
    rw [if_neg (by omega)]
  · rw [hfield]
    exact wordL_decode (ov % 16) r2 rd f3 pc (by omega) (by omega) h2a h2b hda hdb h3a h3b

theorem encJ (t pc : Int)
    (hoe : (t - (pc + 2)) % 2 = 0) (hoa : -512 ≤ t - (pc + 2)) (hob : t - (pc + 2) ≤ 510) :
    ∃ w, encode_instruction "j" [.i t] pc = .ok w ∧
      decode w pc = decodeJ 0 ((t - (pc + 2)) / 16 % 64) 0 ((t - (pc + 2)) / 2 % 8) pc := by
  have heq : encode_instruction "j" [.i t] pc =
      if t - (pc + 2) < -1024 ∨ t - (pc + 2) > 1020 ∨ (t - (pc + 2)) % 2 ≠ 0 then
        .error ("Jump offset out of range or not word-aligned: " ++ toString (t - (pc + 2)))
      else
        .ok (pyOr (pyOr (pyOr (pyOr (pyShl 0 15)
          (pyShl (pyAnd (pyShr (t - (pc + 2)) 4) 0x3F) 9)) (pyShl 0 6))
          (pyShl (pyAnd (pyShr (t - (pc + 2)) 1) 0x7) 3)) J_TYPE) := rfl
  have hhi : pyAnd (pyShr (t - (pc + 2)) 4) 0x3F = (t - (pc + 2)) / 16 % 64 := by
    have := pyAnd_mask (pyShr (t - (pc + 2)) 4) 6
    norm_num at this
    rw [this]
    simp only [pyShr]
    norm_num
  have hlo : pyAnd (pyShr (t - (pc + 2)) 1) 0x7 = (t - (pc + 2)) / 2 % 8 := by
    have := pyAnd_mask (pyShr (t - (pc + 2)) 1) 3
    norm_num at this
    rw [this]
    simp only [pyShr]
    norm_num
  refine ⟨_, by rw [heq, if_neg (by omega)], ?_⟩
  rw [hhi, hlo]
  exact wordJ_decode 0 ((t - (pc + 2)) / 16 % 64) 0 ((t - (pc + 2)) / 2 % 8) pc (by norm_num)
    (by norm_num) (by omega) (by omega) (by norm_num) (by norm_num) (by omega) (by omega)

theorem encJAL (rd t pc : Int) (hda : 0 ≤ rd) (hdb : rd ≤ 7)
    (hoe : (t - (pc + 2)) % 2 = 0) (hoa : -512 ≤ t - (pc + 2)) (hob : t - (pc + 2) ≤ 510) :
    ∃ w, encode_instruction "jal" [.i rd, .i t] pc = .ok w ∧
      decode w pc = decodeJ 1 ((t - (pc + 2)) / 16 % 64) rd ((t - (pc + 2)) / 2 % 8) pc := by
  have heq : encode_instruction "jal" [.i rd, .i t] pc =
      if t - (pc + 2) < -1024 ∨ t - (pc + 2) > 1020 ∨ (t - (pc + 2)) % 2 ≠ 0 then
        .error ("Jump offset out of range or not word-aligned: " ++ toString (t - (pc + 2)))
      else
        .ok (pyOr (pyOr (pyOr (pyOr (pyShl 1 15)
          (pyShl (pyAnd (pyShr (t - (pc + 2)) 4) 0x3F) 9)) (pyShl rd 6))
          (pyShl (pyAnd (pyShr (t - (pc + 2)) 1) 0x7) 3)) J_TYPE) := rfl
  have hhi : pyAnd (pyShr (t - (pc + 2)) 4) 0x3F = (t - (pc + 2)) / 16 % 64 := by
    have := pyAnd_mask (pyShr (t - (pc + 2)) 4) 6
    norm_num at this
    rw [this]
    simp only [pyShr]
    norm_num
  have hlo : pyAnd (pyShr (t - (pc + 2)) 1) 0x7 = (t - (pc + 2)) / 2 % 8 := by
    have := pyAnd_mask (pyShr (t - (pc + 2)) 1) 3
    norm_num at this
    rw [this]
    simp only [pyShr]
    norm_num
  refine ⟨_, by rw [heq, if_neg (by omega)], ?_⟩
  rw [hhi, hlo]
  exact wordJ_decode 1 ((t - (pc + 2)) / 16 % 64) rd ((t - (pc + 2)) / 2 % 8) pc (by norm_num)
    (by norm_num) (by omega) (by omega) hda hdb (by omega) (by omega)

theorem encLUI (rd iv pc : Int) (hda : 0 ≤ rd) (hdb : rd ≤ 7)
    (hia : 0 ≤ iv) (hib : iv ≤ 0x1FF) :
    ∃ w, encode_instruction "lui" [.i rd, .i iv] pc = .ok w ∧
      decode w pc = decodeU 0 (iv / 8 % 64) rd (iv % 8) := by
  have heq : encode_instruction "lui" [.i rd, .i iv] pc =
      if iv < 0 ∨ iv > 0x1FF then
        .error ("U-Type immediate out of range: " ++ toString iv)
      else
        .ok (pyOr (pyOr (pyOr (pyOr (pyShl 0 15) (pyShl (pyAnd (pyShr iv 3) 0x3F) 9))
          (pyShl rd 6)) (pyShl (pyAnd iv 0x7) 3)) U_TYPE) := rfl
  have hhi : pyAnd (pyShr iv 3) 0x3F = iv / 8 % 64 := by
    have := pyAnd_mask (pyShr iv 3) 6
    norm_num at this
    rw [this]
    simp only [pyShr]
    norm_num
  have hlo : pyAnd iv 0x7 = iv % 8 := by
    have := pyAnd_mask iv 3
    norm_num at this
    exact this
  refine ⟨_, by rw [heq, if_neg (by omega)], ?_⟩
  rw [hhi, hlo]
  exact wordU_decode 0 (iv / 8 % 64) rd (iv % 8) pc (by norm_num) (by norm_num) (by omega)
    (by omega) hda hdb (by omega) (by omega)

theorem encAUIPC (rd iv pc : Int) (hda : 0 ≤ rd) (hdb : rd ≤ 7)
    (hia : 0 ≤ iv) (hib : iv ≤ 0x1FF) :
    ∃ w, encode_instruction "auipc" [.i rd, .i iv] pc = .ok w ∧
      decode w pc = decodeU 1 (iv / 8 % 64) rd (iv % 8) := by
  have heq : encode_instruction "auipc" [.i rd, .i iv] pc =
      if iv < 0 ∨ iv > 0x1FF then
        .error ("U-Type immediate out of range: " ++ toString iv)
      else
        .ok (pyOr (pyOr (pyOr (pyOr (pyShl 1 15) (pyShl (pyAnd (pyShr iv 3) 0x3F) 9))
          (pyShl rd 6)) (pyShl (pyAnd iv 0x7) 3)) U_TYPE) := rfl
  have hhi : pyAnd (pyShr iv 3) 0x3F = iv / 8 % 64 := by
    have := pyAnd_mask (pyShr iv 3) 6
    norm_num at this
    rw [this]
    simp only [pyShr]
    norm_num
  have hlo : pyAnd iv 0x7 = iv % 8 := by
    have := pyAnd_mask iv 3
    norm_num at this
    exact this
  refine ⟨_, by rw [heq, if_neg (by omega)], ?_⟩
  rw [hhi, hlo]
  exact wordU_decode 1 (iv / 8 % 64) rd (iv % 8) pc (by norm_num) (by norm_num) (by omega)
    (by omega) hda hdb (by omega) (by omega)

theorem encECALL (sv pc : Int) (ha : 0 ≤ sv) (hb : sv ≤ 0x3FF) :
    ∃ w, encode_instruction "ecall" [.i sv] pc = .ok w ∧
      decode w pc = decodeSYS sv := by
  have heq : encode_instruction "ecall" [.i sv] pc =
      if sv < 0 ∨ sv > 0x3FF then
        .error ("System call number out of range (0-1023): " ++ toString sv)
      else .ok (pyOr (pyShl sv 6) SYS_TYPE) := rfl
  refine ⟨_, by rw [heq, if_neg (by omega)], ?_⟩
  exact wordSYS_decode sv pc ha (by omega)

/-! ### The round-trip theorem over the valid domain -/


set_option maxHeartbeats 2000000 in
theorem validEnc_roundtrip (m : String) (ops : List Int) (pc : Int)
    (h : validEnc m ops pc = true) :
    ∃ w, encode_instruction m (ops.map PyVal.i) pc = .ok w ∧ decode w pc = some (m, ops) := by
  unfold validEnc at h
  by_cases hjr : m = "jr"
  · rw [if_pos hjr] at h
    subst hjr
    match ops, h with
    | [rd], h =>
      simp only [regB, Bool.and_eq_true, decide_eq_true_eq] at h
      exact encJR rd pc h.1 h.2
  · rw [if_neg hjr] at h
    by_cases hR2 : isR2 m = true
    · rw [if_pos hR2] at h
      match ops, h with
      | [rd, rs2], h =>
        simp only [regB, Bool.and_eq_true, decide_eq_true_eq] at h
        obtain ⟨⟨hda, hdb⟩, h2a, h2b⟩ := h
        simp only [isR2, Bool.or_eq_true, decide_eq_true_eq] at hR2
        rcases hR2 with (((((((((((hm|hm)|hm)|hm)|hm)|hm)|hm)|hm)|hm)|hm)|hm)|hm)
        · subst hm
          obtain ⟨w, he, hd⟩ := encR2 "add" 0 0 rd rs2 pc rfl (by decide)
            (by decide) (by decide) (by decide) (by decide) hda hdb h2a h2b
          exact ⟨w, he, by rw [hd]; rfl⟩
        · subst hm
          obtain ⟨w, he, hd⟩ := encR2 "sub" 1 0 rd rs2 pc rfl (by decide)
            (by decide) (by decide) (by decide) (by decide) hda hdb h2a h2b
          exact ⟨w, he, by rw [hd]; rfl⟩
        · subst hm
          obtain ⟨w, he, hd⟩ := encR2 "slt" 2 1 rd rs2 pc rfl (by decide)
            (by decide) (by decide) (by decide) (by decide) hda hdb h2a h2b
          exact ⟨w, he, by rw [hd]; rfl⟩
        · subst hm
          obtain ⟨w, he, hd⟩ := encR2 "sltu" 3 2 rd rs2 pc rfl (by decide)
            (by decide) (by decide) (by decide) (by decide) hda hdb h2a h2b
          exact ⟨w, he, by rw [hd]; rfl⟩
        · subst hm
          obtain ⟨w, he, hd⟩ := encR2 "sll" 4 3 rd rs2 pc rfl (by decide)
            (by decide) (by decide) (by decide) (by decide) hda hdb h2a h2b
          exact ⟨w, he, by rw [hd]; rfl⟩
        · subst hm
          obtain ⟨w, he, hd⟩ := encR2 "srl" 5 3 rd rs2 pc rfl (by decide)
            (by decide) (by decide) (by decide) (by decide) hda hdb h2a h2b
          exact ⟨w, he, by rw [hd]; rfl⟩
        · subst hm
          obtain ⟨w, he, hd⟩ := encR2 "sra" 6 3 rd rs2 pc rfl (by decide)
            (by decide) (by decide) (by decide) (by decide) hda hdb h2a h2b
          exact ⟨w, he, by rw [hd]; rfl⟩
        · subst hm
          obtain ⟨w, he, hd⟩ := encR2 "or" 7 4 rd rs2 pc rfl (by decide)
            (by decide) (by decide) (by decide) (by decide) hda hdb h2a h2b
          exact ⟨w, he, by rw [hd]; rfl⟩
        · subst hm
          obtain ⟨w, he, hd⟩ := encR2 "and" 8 5 rd rs2 pc rfl (by decide)
            (by decide) (by decide) (by decide) (by decide) hda hdb h2a h2b
          exact ⟨w, he, by rw [hd]; rfl⟩
        · subst hm
          obtain ⟨w, he, hd⟩ := encR2 "xor" 9 6 rd rs2 pc rfl (by decide)
            (by decide) (by decide) (by decide) (by decide) hda hdb h2a h2b
          exact ⟨w, he, by rw [hd]; rfl⟩
        · subst hm
          obtain ⟨w, he, hd⟩ := encR2 "mv" 10 7 rd rs2 pc rfl (by decide)
            (by decide) (by decide) (by decide) (by decide) hda hdb h2a h2b
          exact ⟨w, he, by rw [hd]; rfl⟩
        · subst hm
          obtain ⟨w, he, hd⟩ := encR2 "jalr" 12 0 rd rs2 pc rfl (by decide)
            (by decide) (by decide) (by decide) (by decide) hda hdb h2a h2b
          exact ⟨w, he, by rw [hd]; rfl⟩
    · rw [if_neg hR2] at h
      by_cases hI : isI7 m = true
      · rw [if_pos hI] at h
        match ops, h with
        | [rd, imm], h =>
          simp only [regB, Bool.and_eq_true, decide_eq_true_eq] at h
          obtain ⟨⟨⟨hda, hdb⟩, hia⟩, hib⟩ := h
          simp only [isI7, Bool.or_eq_true, decide_eq_true_eq] at hI
          rcases hI with ((((((hm|hm)|hm)|hm)|hm)|hm)|hm)
          · subst hm
            obtain ⟨w, he, hd⟩ := encI7 "addi" 0 rd imm pc rfl rfl (by decide)
              (by decide) hda hdb hia hib
            refine ⟨w, he, ?_⟩
            rw [hd]
            simp only [decodeI, Option.some.injEq, Prod.mk.injEq, List.cons.injEq]
            norm_num
            omega
          · subst hm
            obtain ⟨w, he, hd⟩ := encI7 "slti" 1 rd imm pc rfl rfl (by decide)
              (by decide) hda hdb hia hib
            refine ⟨w, he, ?_⟩
            rw [hd]
            simp only [decodeI, Option.some.injEq, Prod.mk.injEq, List.cons.injEq]
            norm_num
            omega
          · subst hm
            obtain ⟨w, he, hd⟩ := encI7 "sltui" 2 rd imm pc rfl rfl (by decide)
              (by decide) hda hdb hia hib
            refine ⟨w, he, ?_⟩
            rw [hd]
            simp only [decodeI, Option.some.injEq, Prod.mk.injEq, List.cons.injEq]
            norm_num
            omega
          · subst hm
            obtain ⟨w, he, hd⟩ := encI7 "ori" 4 rd imm pc rfl rfl (by decide)
              (by decide) hda hdb hia hib
            refine ⟨w, he, ?_⟩
            rw [hd]
            simp only [decodeI, Option.some.injEq, Prod.mk.injEq, List.cons.injEq]
            norm_num
            omega
          · subst hm
            obtain ⟨w, he, hd⟩ := encI7 "andi" 5 rd imm pc rfl rfl (by decide)
              (by decide) hda hdb hia hib
            refine ⟨w, he, ?_⟩
            rw [hd]
            simp only [decodeI, Option.some.injEq, Prod.mk.injEq, List.cons.injEq]
            norm_num
            omega
          · subst hm
            obtain ⟨w, he, hd⟩ := encI7 "xori" 6 rd imm pc rfl rfl (by decide)
              (by decide) hda hdb hia hib
            refine ⟨w, he, ?_⟩
            rw [hd]
            simp only [decodeI, Option.some.injEq, Prod.mk.injEq, List.cons.injEq]
            norm_num
            omega
          · subst hm
            obtain ⟨w, he, hd⟩ := encI7 "li" 7 rd imm pc rfl rfl (by decide)
              (by decide) hda hdb hia hib
            refine ⟨w, he, ?_⟩
            rw [hd]
            simp only [decodeI, Option.some.injEq, Prod.mk.injEq, List.cons.injEq]
            norm_num
            omega
      · rw [if_neg hI] at h
        by_cases hSh : isShift m = true
        · rw [if_pos hSh] at h
          match ops, h with
          | [rd, a], h =>
            simp only [regB, Bool.and_eq_true, decide_eq_true_eq] at h
            obtain ⟨⟨⟨hda, hdb⟩, haa⟩, hab⟩ := h
            simp only [isShift, Bool.or_eq_true, decide_eq_true_eq] at hSh
            have e2 : a % 16 = a := by omega
            rcases hSh with ((hm|hm)|hm)
            · subst hm
              obtain ⟨w, he, hd⟩ := encShift "slli" 1 rd a pc rfl rfl rfl
                (by decide) (by decide) hda hdb haa hab
              refine ⟨w, he, ?_⟩
              rw [hd]
              have e1 : (16 + a) / 16 = 1 := by omega
              have e3 : (16 + a) % 16 = a := by omega
              simp only [decodeI, Option.some.injEq, Prod.mk.injEq, List.cons.injEq]
              norm_num [e1, e2, e3]
            · subst hm
              obtain ⟨w, he, hd⟩ := encShift "srli" 2 rd a pc rfl rfl rfl
                (by decide) (by decide) hda hdb haa hab
              refine ⟨w, he, ?_⟩
              rw [hd]
              have e1 : (32 + a) / 16 = 2 := by omega
              have e3 : (32 + a) % 16 = a := by omega
              simp only [decodeI, Option.some.injEq, Prod.mk.injEq, List.cons.injEq]
              norm_num [e1, e2, e3]
            · subst hm
              obtain ⟨w, he, hd⟩ := encShift "srai" 4 rd a pc rfl rfl rfl
                (by decide) (by decide) hda hdb haa hab
              refine ⟨w, he, ?_⟩
              rw [hd]
              have e1 : (64 + a) / 16 = 4 := by omega
              have e3 : (64 + a) % 16 = a := by omega
              simp only [decodeI, Option.some.injEq, Prod.mk.injEq, List.cons.injEq]
              norm_num [e1, e2, e3]
        · rw [if_neg hSh] at h
          by_cases hB3 : isB3 m = true
          · rw [if_pos hB3] at h
            match ops, h with
            | [r1, r2, t], h =>
              simp only [regB, Bool.and_eq_true, decide_eq_true_eq] at h
              obtain ⟨⟨⟨⟨⟨h1a, h1b⟩, h2a, h2b⟩, hoe⟩, hoa⟩, hob⟩ := h
              simp only [isB3, Bool.or_eq_true, decide_eq_true_eq] at hB3
              rcases hB3 with (((((hm|hm)|hm)|hm)|hm)|hm)
              · subst hm
                obtain ⟨w, he, hd⟩ := encB3 "beq" 0 r1 r2 t pc rfl rfl rfl rfl
                  (by decide) (by decide) (by decide) h1a h1b h2a h2b hoe hoa hob
                refine ⟨w, he, ?_⟩
                rw [hd]
                simp only [decodeB, Option.some.injEq, Prod.mk.injEq, List.cons.injEq]
                norm_num
                omega
              · subst hm
                obtain ⟨w, he, hd⟩ := encB3 "bne" 1 r1 r2 t pc rfl rfl rfl rfl
                  (by decide) (by decide) (by decide) h1a h1b h2a h2b hoe hoa hob
                refine ⟨w, he, ?_⟩
                rw [hd]
                simp only [decodeB, Option.some.injEq, Prod.mk.injEq, List.cons.injEq]
                norm_num
                omega
              · subst hm
                obtain ⟨w, he, hd⟩ := encB3 "blt" 4 r1 r2 t pc rfl rfl rfl rfl
                  (by decide) (by decide) (by decide) h1a h1b h2a h2b hoe hoa hob
                refine ⟨w, he, ?_⟩
                rw [hd]
                simp only [decodeB, Option.some.injEq, Prod.mk.injEq, List.cons.injEq]
                norm_num
                omega
              · subst hm
                obtain ⟨w, he, hd⟩ := encB3 "bge" 5 r1 r2 t pc rfl rfl rfl rfl
                  (by decide) (by decide) (by decide) h1a h1b h2a h2b hoe hoa hob
                refine ⟨w, he, ?_⟩
                rw [hd]
                simp only [decodeB, Option.some.injEq, Prod.mk.injEq, List.cons.injEq]
                norm_num
                omega
              · subst hm
                obtain ⟨w, he, hd⟩ := encB3 "bltu" 6 r1 r2 t pc rfl rfl rfl rfl
                  (by decide) (by decide) (by decide) h1a h1b h2a h2b hoe hoa hob
                refine ⟨w, he, ?_⟩
                rw [hd]
                simp only [decodeB, Option.some.injEq, Prod.mk.injEq, List.cons.injEq]
                norm_num
                omega
              · subst hm
                obtain ⟨w, he, hd⟩ := encB3 "bgeu" 7 r1 r2 t pc rfl rfl rfl rfl
                  (by decide) (by decide) (by decide) h1a h1b h2a h2b hoe hoa hob
                refine ⟨w, he, ?_⟩
                rw [hd]
                simp only [decodeB, Option.some.injEq, Prod.mk.injEq, List.cons.injEq]
                norm_num
                omega
          · rw [if_neg hB3] at h
            by_cases hBZ : (m = "bz" || m = "bnz") = true
            · rw [if_pos hBZ] at h
              match ops, h with
              | [r1, t], h =>
                simp only [regB, Bool.and_eq_true, decide_eq_true_eq] at h
                obtain ⟨⟨⟨⟨h1a, h1b⟩, hoe⟩, hoa⟩, hob⟩ := h
                simp only [Bool.or_eq_true, decide_eq_true_eq] at hBZ
                rcases hBZ with hm|hm
                · subst hm
                  obtain ⟨w, he, hd⟩ := encB2 "bz" 2 r1 t pc rfl rfl rfl rfl
                    (by decide) (by decide) (by decide) h1a h1b hoe hoa hob
                  refine ⟨w, he, ?_⟩
                  rw [hd]
                  simp only [decodeB, Option.some.injEq, Prod.mk.injEq, List.cons.injEq]
                  norm_num
                  omega
                · subst hm
                  obtain ⟨w, he, hd⟩ := encB2 "bnz" 3 r1 t pc rfl rfl rfl rfl
                    (by decide) (by decide) (by decide) h1a h1b hoe hoa hob
                  refine ⟨w, he, ?_⟩
                  rw [hd]
                  simp only [decodeB, Option.some.injEq, Prod.mk.injEq, List.cons.injEq]
                  norm_num
                  omega
            · rw [if_neg hBZ] at h
              by_cases hS : (m = "sb" || m = "sw") = true
              · rw [if_pos hS] at h
                match ops, h with
                | [r2, ov, r1], h =>
                  simp only [regB, Bool.and_eq_true, decide_eq_true_eq] at h
                  obtain ⟨⟨⟨⟨h2a, h2b⟩, h1a, h1b⟩, hoa⟩, hob⟩ := h
                  simp only [Bool.or_eq_true, decide_eq_true_eq] at hS
                  rcases hS with hm|hm
                  · subst hm
                    obtain ⟨w, he, hd⟩ := encS "sb" 0 r2 ov r1 pc rfl rfl rfl rfl
                      rfl (by decide) (by decide) h2a h2b h1a h1b hoa hob
                    refine ⟨w, he, ?_⟩
                    rw [hd]
                    simp only [decodeS, Option.some.injEq, Prod.mk.injEq, List.cons.injEq]
                    norm_num
                    omega
                  · subst hm
                    obtain ⟨w, he, hd⟩ := encS "sw" 1 r2 ov r1 pc rfl rfl rfl rfl
                      rfl (by decide) (by decide) h2a h2b h1a h1b hoa hob
                    refine ⟨w, he, ?_⟩
                    rw [hd]
                    simp only [decodeS, Option.some.injEq, Prod.mk.injEq, List.cons.injEq]
                    norm_num
                    omega
              · rw [if_neg hS] at h
                by_cases hL : (m = "lb" || m = "lw" || m = "lbu") = true
                · rw [if_pos hL] at h
                  match ops, h with
                  | [rd, ov, r2], h =>
                    simp only [regB, Bool.and_eq_true, decide_eq_true_eq] at h
                    obtain ⟨⟨⟨⟨hda, hdb⟩, h2a, h2b⟩, hoa⟩, hob⟩ := h
                    simp only [Bool.or_eq_true, decide_eq_true_eq] at hL
                    rcases hL with ((hm|hm)|hm)
                    · subst hm
                      obtain ⟨w, he, hd⟩ := encL "lb" 0 rd ov r2 pc rfl rfl rfl
                        rfl rfl rfl (by decide) (by decide) hda hdb h2a h2b hoa hob
                      refine ⟨w, he, ?_⟩
                      rw [hd]
                      simp only [decodeL, Option.some.injEq, Prod.mk.injEq,
                        List.cons.injEq]
                      norm_num
                      omega
                    · subst hm
                      obtain ⟨w, he, hd⟩ := encL "lw" 1 rd ov r2 pc rfl rfl rfl
                        rfl rfl rfl (by decide) (by decide) hda hdb h2a h2b hoa hob
                      refine ⟨w, he, ?_⟩
                      rw [hd]
                      simp only [decodeL, Option.some.injEq, Prod.mk.injEq,
                        List.cons.injEq]
                      norm_num
                      omega
                    · subst hm
                      obtain ⟨w, he, hd⟩ := encL "lbu" 4 rd ov r2 pc rfl rfl rfl
                        rfl rfl rfl (by decide) (by decide) hda hdb h2a h2b hoa hob
                      refine ⟨w, he, ?_⟩
                      rw [hd]
                      simp only [decodeL, Option.some.injEq, Prod.mk.injEq,
                        List.cons.injEq]
                      norm_num
                      omega
                · rw [if_neg hL] at h
                  by_cases hJ : m = "j"
                  · rw [if_pos hJ] at h
                    subst hJ
                    match ops, h with
                    | [t], h =>
                      simp only [Bool.and_eq_true, decide_eq_true_eq] at h
                      obtain ⟨⟨hoe, hoa⟩, hob⟩ := h
                      obtain ⟨w, he, hd⟩ := encJ t pc hoe hoa hob
                      refine ⟨w, he, ?_⟩
                      rw [hd]
                      simp only [decodeJ, Option.some.injEq, Prod.mk.injEq, List.cons.injEq]
                      norm_num
                      omega
                  · rw [if_neg hJ] at h
                    by_cases hJAL : m = "jal"
                    · rw [if_pos hJAL] at h
                      subst hJAL
                      match ops, h with
                      | [rd, t], h =>
                        simp only [regB, Bool.and_eq_true, decide_eq_true_eq] at h
                        obtain ⟨⟨⟨⟨hda, hdb⟩, hoe⟩, hoa⟩, hob⟩ := h
                        obtain ⟨w, he, hd⟩ := encJAL rd t pc hda hdb hoe hoa hob
                        refine ⟨w, he, ?_⟩
                        rw [hd]
                        simp only [decodeJ, Option.some.injEq, Prod.mk.injEq, List.cons.injEq]
                        norm_num
                        omega
                    · rw [if_neg hJAL] at h
                      by_cases hU : (m = "lui" || m = "auipc") = true
                      · rw [if_pos hU] at h
                        match ops, h with
                        | [rd, iv], h =>
                          simp only [regB, Bool.and_eq_true, decide_eq_true_eq] at h
                          obtain ⟨⟨⟨hda, hdb⟩, hia⟩, hib⟩ := h
                          simp only [Bool.or_eq_true, decide_eq_true_eq] at hU
                          rcases hU with hm|hm
                          · subst hm
                            obtain ⟨w, he, hd⟩ := encLUI rd iv pc hda hdb hia hib
                            refine ⟨w, he, ?_⟩
                            rw [hd]
                            simp only [decodeU, Option.some.injEq, Prod.mk.injEq,
                              List.cons.injEq]
                            norm_num
                            omega
                          · subst hm
                            obtain ⟨w, he, hd⟩ := encAUIPC rd iv pc hda hdb hia hib
                            refine ⟨w, he, ?_⟩
                            rw [hd]
                            simp only [decodeU, Option.some.injEq, Prod.mk.injEq,
                              List.cons.injEq]
                            norm_num
                            omega
                      · rw [if_neg hU] at h
                        by_cases hE : m = "ecall"
                        · rw [if_pos hE] at h
                          subst hE
                          match ops, h with
                          | [sv], h =>
                            simp only [Bool.and_eq_true, decide_eq_true_eq] at h
                            obtain ⟨ha, hb⟩ := h
                            obtain ⟨w, he, hd⟩ := encECALL sv pc ha hb
                            exact ⟨w, he, by rw [hd]; rfl⟩
                        · rw [if_neg hE] at h
                          simp at h
/-! ## Computable form of `assemble` -/

/-- `assemble` with every loop replaced by its fuel-indexed twin, for
concrete evaluation. -/
def assembleF (s : String) : AsmResult :=
  match tokGoF (s.toList.length + 1) s.toList 1 1 [] with
  | .hang => .hang
  | .err e => .ret false (add_error initAsm ("Internal assembler error: " ++ e) 0)
  | .ok tokens =>
    let st1 := pass1GoF (tokens.length + 1)
      {initAsm with current_address := section_addresses initAsm.current_section} tokens
    if st1.errors.isEmpty then
      let st2 := pass2GoF (tokens.length + 1)
        {st1 with current_address := section_addresses st1.current_section} tokens
      .ret st2.errors.isEmpty st2
    else .ret false st1

theorem assemble_eval (s : String) : assemble s = assembleF s := by
  unfold assemble assembleF
  rw [← tokenize_eval]
  cases tokenize s with
  | hang => rfl
  | err e => rfl
  | ok tokens => simp only [← pass1_eval, ← pass2_eval]

/-! ## Projection of an assemble result for concrete checks -/


structure ResView where
  ok : Bool
  text : List Nat
  data : List Nat
  bss : List Nat
  addr : Int
  nerrors : Nat
deriving DecidableEq, Repr

def resView : AsmResult → Option ResView
  | .hang => none
  | .ret ok st => some ⟨ok, st.text, st.data, st.bss, st.current_address, st.errors.length⟩


/-! ## Concrete program states and slice-assignment lemmas -/


def spaceToks : List Token :=
  [⟨.DIRECTIVE, ".space", 1, 1⟩, ⟨.IMMEDIATE, "65536", 1, 8⟩, ⟨.NEWLINE, "\n", 1, 13⟩,
   ⟨.EOF, "", 2, 1⟩]

def stBig : Asm :=
  { symbols := init_builtin_symbols, errors := [], warnings := [],
    current_address := 65568, current_section := ".text",
    text := List.replicate 65536 0, data := [], bss := [] }

theorem pass2Step_newline (st : Asm) (v : String) (l c : Nat) (rest : List Token) :
    pass2Step st (⟨.NEWLINE, v, l, c⟩ :: rest) = .cont st rest := by
  simp [pass2Step]

theorem pass2Step_eof (st : Asm) (v : String) (l c : Nat) (rest : List Token) :
    pass2Step st (⟨.EOF, v, l, c⟩ :: rest) = .done st := by
  simp [pass2Step]

theorem pass2Step_space (st : Asm) (hsec : st.current_section = ".text")
    (v nv : String) (l c l2 c2 l3 c3 : Nat) (rest : List Token) :
    pass2Step st (⟨.DIRECTIVE, ".space", l, c⟩ :: ⟨.IMMEDIATE, v, l2, c2⟩ ::
        ⟨.NEWLINE, nv, l3, c3⟩ :: rest)
      = .cont
        {st with
          text := st.text ++ List.replicate (pyInt v).toNat 0,
          current_address := st.current_address + pyInt v}
        (⟨.NEWLINE, nv, l3, c3⟩ :: rest) := by
  have hlow : strLower ".space" = ".space" := rfl
  simp [pass2Step, pass2Dir, space2Dir, appendCur, skipLine, hsec, hlow]

theorem pass2GoF_succ_cont (fuel : Nat) (st : Asm) (ts : List Token) (st2 : Asm)
    (rest : List Token) (h : pass2Step st ts = .cont st2 rest) :
    pass2GoF (fuel + 1) st ts = pass2GoF fuel st2 rest := by
  simp only [pass2GoF, h]

theorem pass2GoF_succ_done (fuel : Nat) (st : Asm) (ts : List Token) (st2 : Asm)
    (h : pass2Step st ts = .done st2) :
    pass2GoF (fuel + 1) st ts = st2 := by
  simp only [pass2GoF, h]

theorem assemble_space : assemble ".space 65536\n" = .ret true stBig := by
  have htok : tokGoF (".space 65536\n".toList.length + 1) ".space 65536\n".toList 1 1 []
      = .ok spaceToks := by decide
  have hst1 : pass1GoF (spaceToks.length + 1)
      {initAsm with current_address := section_addresses initAsm.current_section} spaceToks
      = {initAsm with current_address := 65568} := by decide
  rw [assemble_eval, assembleF, htok]
  simp only [hst1]
  rw [if_pos (by decide)]
  have hs : ({{initAsm with current_address := 65568} with
      current_address := section_addresses
        ({initAsm with current_address := 65568} : Asm).current_section} : Asm) = initAsm := rfl
  have hstep1 := pass2Step_space initAsm rfl "65536" "\n" 1 1 1 8 1 13 [⟨.EOF, "", 2, 1⟩]
  have hmid : ({initAsm with
      text := initAsm.text ++ List.replicate (pyInt "65536").toNat 0,
      current_address := initAsm.current_address + pyInt "65536"} : Asm) = stBig := by
    have h1 : pyInt "65536" = 65536 := by decide
    simp only [h1, initAsm, stBig, List.nil_append]
    norm_num
    omega
  rw [hmid] at hstep1
  have hstep1a : pass2Step initAsm spaceToks
      = .cont stBig [⟨.NEWLINE, "\n", 1, 13⟩, ⟨.EOF, "", 2, 1⟩] := hstep1
  rw [hs]
  rw [show spaceToks.length + 1 = 4 + 1 from rfl]
  rw [pass2GoF_succ_cont 4 initAsm spaceToks stBig _ hstep1a]
  rw [show (4 : Nat) = 3 + 1 from rfl]
  rw [pass2GoF_succ_cont 3 stBig _ stBig _ (pass2Step_newline stBig "\n" 1 13 _)]
  rw [show (3 : Nat) = 2 + 1 from rfl]
  rw [pass2GoF_succ_done 2 stBig _ stBig (pass2Step_eof stBig "" 2 1 [])]
  rfl

theorem sliceAssign_length (buf : List Nat) (s : Nat) (d : List Nat) :
    (sliceAssign buf s d).length
      = min s buf.length + d.length + (buf.length - (s + d.length)) := by
  simp [sliceAssign]
  omega

theorem sliceAssign_get_left (buf : List Nat) (s : Nat) (d : List Nat) (k : Nat)
    (hk : k < s) (hs : s ≤ buf.length) :
    (sliceAssign buf s d)[k]? = buf[k]? := by
  unfold sliceAssign
  rw [List.getElem?_append_left
    (by simp only [List.length_append, List.length_take, Nat.min_eq_left hs]; omega)]
  rw [List.getElem?_append_left (by simp only [List.length_take, Nat.min_eq_left hs]; omega)]
  exact List.getElem?_take_of_lt hk

theorem sliceAssign_get_mid (buf : List Nat) (s : Nat) (d : List Nat) (i : Nat)
    (hs : s ≤ buf.length) (hi : i < d.length) :
    (sliceAssign buf s d)[s + i]? = d[i]? := by
  unfold sliceAssign
  rw [List.getElem?_append_left
    (by simp only [List.length_append, List.length_take, Nat.min_eq_left hs]; omega)]
  rw [List.getElem?_append_right (by simp only [List.length_take, Nat.min_eq_left hs]; omega)]
  congr 1
  simp only [List.length_take, Nat.min_eq_left hs]
  omega

theorem sliceAssign_get_right (buf : List Nat) (s : Nat) (d : List Nat) (k : Nat)
    (hs : s ≤ buf.length) (hk : s + d.length ≤ k) :
    (sliceAssign buf s d)[k]? = buf[k]? := by
  unfold sliceAssign
  rw [List.getElem?_append_right
    (by simp only [List.length_append, List.length_take, Nat.min_eq_left hs]; omega)]
  rw [List.getElem?_drop]
  congr 1
  simp only [List.length_append, List.length_take, Nat.min_eq_left hs]
  omega

/-- C1: the claim states that for every statement the pass-1 size equals
the pass-2 emitted byte count, including on encoding errors.  The
program `slli t0, 16` refutes it: pass 1 sizes the instruction as 2
bytes (the final address is 0x22 = 0x20 + 2), while pass 2 records the
encoding error (shift amount 16 is out of range) and appends no bytes
at all — the text buffer stays empty while the address still advances
by 2. -/
theorem C1_pass1_size_vs_pass2_emit :
    resView (assemble "slli t0, 16\n") = some ⟨false, [], [], [], 0x22, 1⟩ ∧
    (pass1 initAsm [⟨.INSTRUCTION, "slli", 1, 1⟩, ⟨.REGISTER, "t0", 1, 6⟩,
      ⟨.COMMA, ",", 1, 8⟩, ⟨.IMMEDIATE, "16", 1, 10⟩, ⟨.NEWLINE, "\n", 1, 12⟩,
      ⟨.EOF, "", 2, 1⟩]).current_address = 0x22 := by
  constructor
  · rw [assemble_eval]
    decide
  · rw [pass1_eval]
    decide

/-- C3: the claim states that I-type immediates −64 and 63 encode while
−65 and 64 raise a range error.  In the code `sign_extend` masks and
wraps the value into `[-64, 63]` before the range check, so the check
can never fire: 64 silently encodes as −64 (same word 0x8001) and −65
silently encodes as 63 (same word 0x7E01 as 63). -/
theorem C3_immediate_wraparound :
    encode_instruction "addi" [.i 0, .i (-64)] 0 = .ok 0x8001 ∧
    encode_instruction "addi" [.i 0, .i 63] 0 = .ok 0x7E01 ∧
    encode_instruction "addi" [.i 0, .i 64] 0 = .ok 0x8001 ∧
    encode_instruction "addi" [.i 0, .i (-65)] 0 = .ok 0x7E01 := by
  refine ⟨by decide, by decide, by decide, by decide⟩

/-- C2 counterexample: within the encoder's documented branch range
`[-32, 28]`, two distinct targets (offset 0 and offset −32 from
PC = 0x100) produce the same word 0x0442, because the 4-bit field keeps
only `(offset >> 1) & 0xF`.  Hence no decoding can recover the operands
on the full documented range. -/
theorem C2_beq_collision :
    encode_instruction "beq" [.i 1, .i 2, .i 0x102] 0x100 = .ok 0x0442 ∧
    encode_instruction "beq" [.i 1, .i 2, .i 0xE2] 0x100 = .ok 0x0442 ∧
    (0x102 : Int) ≠ 0xE2 := by
  refine ⟨by decide, by decide, by decide⟩

/-- C2 (amended): on the restricted operand domain `validEnc` — the
documented field ranges with branch offsets limited to `[-16, 14]` and
jump offsets to `[-512, 510]`, where the truncated offset fields are
faithful — the §4.4 decoder recovers exactly the mnemonic and operands
from the encoder's word, and in particular distinct valid operand
tuples for the same mnemonic never encode to the same word. -/
theorem C2_roundtrip_amended :
    (∀ (m : String) (ops : List Int) (pc : Int), validEnc m ops pc = true →
      ∃ w, encode_instruction m (ops.map PyVal.i) pc = .ok w ∧
        decode w pc = some (m, ops)) ∧
    (∀ (m : String) (ops ops2 : List Int) (pc : Int), validEnc m ops pc = true →
      validEnc m ops2 pc = true →
      encode_instruction m (ops.map PyVal.i) pc
        = encode_instruction m (ops2.map PyVal.i) pc →
      ops = ops2) := by
  refine ⟨validEnc_roundtrip, ?_⟩
  intro m ops ops2 pc h1 h2 heq
  obtain ⟨w, he, hd⟩ := validEnc_roundtrip m ops pc h1
  obtain ⟨w2, he2, hd2⟩ := validEnc_roundtrip m ops2 pc h2
  rw [he, he2] at heq
  injection heq with hw
  rw [← hw] at hd2
  rw [hd] at hd2
  injection hd2 with hp
  exact congrArg Prod.snd hp

/-- C2 witness: the amended round-trip applied to `add a0, a1`. -/
theorem C2_roundtrip_witness :
    validEnc "add" [6, 7] 0 = true ∧
    (∃ w, encode_instruction "add" ([6, 7].map PyVal.i) 0 = .ok w ∧
      decode w 0 = some ("add", [6, 7])) :=
  ⟨by decide, C2_roundtrip_amended.1 "add" [6, 7] 0 (by decide)⟩

/-- C4 counterexample: assembling `li a0, 100` emits the bytes
`86 01 A1 C9`, not the claimed `86 01 99 C9`: the second word is
`(100 << 9) | (6 << 6) | (4 << 3) | 1 = 0xC9A1`, while the claim's
`0xC999` would have func3 = 3 instead of ORI's func3 = 4. -/
theorem C4_li_bytes_cex :
    resView (assemble "li a0, 100\n") = some ⟨true, [0x86, 0x01, 0xA1, 0xC9], [], [], 0x24, 0⟩ ∧
    ([0x86, 0x01, 0xA1, 0xC9] : List Nat) ≠ [0x86, 0x01, 0x99, 0xC9] := by
  constructor
  · rw [assemble_eval]
    decide
  · decide

/-- C4 (amended): assembling the single statement `li a0, 100` at the
default section bases emits exactly four bytes `86 01 A1 C9` into the
text buffer — the word 0x0186 (`lui a0, 0`) followed by the word
0xC9A1 (`ori a0, 100`) — with no errors, the final address 0x24, and
the other section buffers empty. -/
theorem C4_li_bytes_amended :
    resView (assemble "li a0, 100\n")
      = some ⟨true, [0x86, 0x01, 0xA1, 0xC9], [], [], 0x24, 0⟩ := by
  rw [assemble_eval]
  decide

/-- Claim-side model of the documented `la` expansion: split
`off = A − P` into `auipc` upper and `addi` lower parts, wrapping
negative offsets modulo 2^16 first and sign-correcting the lower part
by −128 when it exceeds 63. -/
def spec_la (rd A P : Int) : List (String × List PyVal) :=
  if 0 ≤ A - P then
    [("auipc", [.i rd, .i (pyAnd (pyShr (A - P) 7) 0x1FF)]),
     ("addi", [.i rd, .i (pyAnd (A - P) 0x7F)])]
  else
    [("auipc", [.i rd, .i (pyAnd (pyShr (pyAnd (A - P) 0xFFFF) 7) 0x1FF)]),
     ("addi", [.i rd, .i (if pyAnd (pyAnd (A - P) 0xFFFF) 0x7F > 63 then
         pyAnd (pyAnd (A - P) 0xFFFF) 0x7F - 128
       else pyAnd (pyAnd (A - P) 0xFFFF) 0x7F)])]

/-- C5: for every `la rd, label` whose label resolves to address `A` at
current PC `P`, the expansion is exactly the documented
`auipc`/`addi` pair with the negative-offset wrap and lower-part sign
correction. -/
theorem C5_la_expansion (rd : Int) (lbl : String) (P : Int) (res : String → Int) :
    expand_pseudo_instruction "la" [.i rd, .s lbl] P (some res)
      = .ok (spec_la rd (res lbl) P) := by
  simp only [expand_pseudo_instruction, spec_la]
  norm_num
  split_ifs <;> simp_all

/-- C8 counterexample: `get_binary_output` does not always return
65,536 bytes.  A `.space 65536` in the text section makes the text
buffer 65,536 bytes long; the Python slice assignment
`memory[0x20:0x20+len] = text` then extends the bytearray instead of
truncating, so the image has 65,568 bytes. -/
theorem C8_binary_output_cex :
    ∃ st, assemble ".space 65536\n" = .ret true st ∧
      (get_binary_output st).length = 65568 ∧ (get_binary_output st).length ≠ 65536 := by
  have hlen : (get_binary_output stBig).length = 65568 := by
    have htext : stBig.text.length = 65536 := by
      rw [show stBig.text = List.replicate 65536 0 from rfl, List.length_replicate]
    have hdata : stBig.data.length = 0 := rfl
    rw [get_binary_output, sliceAssign_length, sliceAssign_length, htext, hdata,
      List.length_replicate]
    omega
  exact ⟨stBig, assemble_space, hlen, by omega⟩

/-- C8 (amended): whenever the text buffer fits below 0x8000 and the
data buffer fits below 0x10000 — which bounds the slice assignments to
in-place overwrites — `get_binary_output` returns exactly 65,536
bytes, with the text buffer copied at 0x20, the data buffer at 0x8000,
and every byte outside those two copies zero. -/
theorem C8_binary_output_amended (st : Asm)
    (h1 : 0x20 + st.text.length ≤ 0x8000) (h2 : 0x8000 + st.data.length ≤ 65536) :
    (get_binary_output st).length = 65536 ∧
    (∀ i, i < st.text.length → (get_binary_output st)[0x20 + i]? = st.text[i]?) ∧
    (∀ j, j < st.data.length → (get_binary_output st)[0x8000 + j]? = st.data[j]?) ∧
    (∀ k, k < 65536 →
      (k < 0x20 ∨ (0x20 + st.text.length ≤ k ∧ k < 0x8000) ∨ 0x8000 + st.data.length ≤ k) →
      (get_binary_output st)[k]? = some 0) := by
  have hB0 : (List.replicate 65536 (0 : Nat)).length = 65536 := List.length_replicate 65536 0
  have hB1len : (sliceAssign (List.replicate 65536 0) 0x20 st.text).length = 65536 := by
    rw [sliceAssign_length, hB0]
    omega
  refine ⟨?_, ?_, ?_, ?_⟩
  · rw [get_binary_output, sliceAssign_length, hB1len]
    omega
  · intro i hi
    rw [get_binary_output]
    rw [sliceAssign_get_left _ _ _ _ (by omega) (by rw [hB1len]; omega)]
    exact sliceAssign_get_mid _ _ _ _ (by rw [hB0]; omega) hi
  · intro j hj
    rw [get_binary_output]
    rw [sliceAssign_get_mid _ _ _ _ (by rw [hB1len]; omega) hj]
  · intro k hk hzone
    rw [get_binary_output]
    rcases hzone with hz | ⟨hz1, hz2⟩ | hz
    · rw [sliceAssign_get_left _ _ _ _ (by omega) (by rw [hB1len]; omega)]
      rw [sliceAssign_get_left _ _ _ _ (by omega) (by rw [hB0]; omega)]
      rw [List.getElem?_replicate, if_pos hk]
    · rw [sliceAssign_get_left _ _ _ _ (by omega) (by rw [hB1len]; omega)]
      rw [sliceAssign_get_right _ _ _ _ (by rw [hB0]; omega) (by omega)]
      rw [List.getElem?_replicate, if_pos hk]
    · rw [sliceAssign_get_right _ _ _ _ (by rw [hB1len]; omega) (by omega)]
      rw [sliceAssign_get_right _ _ _ _ (by rw [hB0]; omega) (by omega)]
      rw [List.getElem?_replicate, if_pos hk]

/-- C8 witness: the amended theorem applied to the fresh assembler
state, whose sections are empty. -/
theorem C8_binary_output_witness :
    (0x20 + initAsm.text.length ≤ 0x8000 ∧ 0x8000 + initAsm.data.length ≤ 65536) ∧
    (get_binary_output initAsm).length = 65536 :=
  ⟨⟨by decide, by decide⟩,
    (C8_binary_output_amended initAsm (by decide) (by decide)).1⟩


/-- C7: an attempt to redefine a symbol that is already present and
defined records exactly one `already defined` error and leaves the
symbol table — in particular the existing entry and its value —
unchanged; assembly continues with the error recorded. -/
theorem C7_redefinition_error (st : Asm) (name : String) (v : Int) (line : Nat) (g : Bool) (sym : AsmSymbol)
    (hl : lookupSym st.symbols name = some sym) (hd : sym.defined = true) :
    define_symbol st name v line g
      = add_error st ("Symbol " ++ sQuote ++ name ++ sQuote ++ " already defined") line ∧
    (define_symbol st name v line g).symbols = st.symbols ∧
    (define_symbol st name v line g).errors = st.errors ++
      [⟨"Symbol " ++ sQuote ++ name ++ sQuote ++ " already defined", line, 0, "Error"⟩] ∧
    lookupSym (define_symbol st name v line g).symbols name = some sym := by
  unfold define_symbol
  simp only [hl]
  rw [if_pos hd]
  refine ⟨rfl, rfl, ?_, ?_⟩
  · simp [add_error, add_error_full]
  · simp [add_error, add_error_full, hl]

/-- C7 witness: redefining the built-in `T0` in the fresh state. -/
theorem C7_redefinition_witness :
    (lookupSym initAsm.symbols "T0" = some ⟨"T0", 0, true, true, 0⟩ ∧
      (⟨"T0", 0, true, true, 0⟩ : AsmSymbol).defined = true) ∧
    (define_symbol initAsm "T0" 5 3 false
      = add_error initAsm ("Symbol " ++ sQuote ++ "T0" ++ sQuote ++ " already defined") 3 ∧
    (define_symbol initAsm "T0" 5 3 false).symbols = initAsm.symbols ∧
    (define_symbol initAsm "T0" 5 3 false).errors = initAsm.errors ++
      [⟨"Symbol " ++ sQuote ++ "T0" ++ sQuote ++ " already defined", 3, 0, "Error"⟩] ∧
    lookupSym (define_symbol initAsm "T0" 5 3 false).symbols "T0"
      = some ⟨"T0", 0, true, true, 0⟩) :=
  ⟨⟨by decide, by decide⟩, C7_redefinition_error initAsm "T0" 5 3 false ⟨"T0", 0, true, true, 0⟩
    (by decide) (by decide)⟩

/-- C10: the `.org` directive handlers of both passes change only
`current_address` (pass 1 may also append an error), never a section
buffer, the symbol table or the section name; `get_binary_output`
depends only on the text and data buffers, so it is unaffected by
`.org`; and a text byte appears in the image at the fixed base 0x20
plus its buffer offset, regardless of any `.org` address. -/
theorem C10_org_frame_effect :
    (∀ (st : Asm) (ts : List Token),
      (org2Dir st ts).1 = {st with current_address := (org2Dir st ts).1.current_address}) ∧
    (∀ (st : Asm) (line : Nat) (ts : List Token),
      (orgDir st line ts).1 = {st with
        current_address := (orgDir st line ts).1.current_address,
        errors := (orgDir st line ts).1.errors}) ∧
    (∀ st st' : Asm, st.text = st'.text → st.data = st'.data →
      get_binary_output st = get_binary_output st') ∧
    (∀ (st : Asm) (i : Nat), 0x20 + st.text.length ≤ 0x8000 → i < st.text.length →
      (get_binary_output st)[0x20 + i]? = st.text[i]?) := by
  refine ⟨?_, ?_, ?_, ?_⟩
  · intro st ts
    cases ts with
    | nil => rfl
    | cons u ts2 =>
      rw [org2Dir]
      split_ifs <;> rfl
  · intro st line ts
    cases ts with
    | nil => rfl
    | cons u ts2 =>
      rw [orgDir]
      split_ifs <;> rfl
  · intro st st' ht hd
    rw [get_binary_output, get_binary_output, ht, hd]
  · intro st i h1 hi
    have hB0 : (List.replicate 65536 (0 : Nat)).length = 65536 := List.length_replicate 65536 0
    have hB1len : (sliceAssign (List.replicate 65536 0) 0x20 st.text).length = 65536 := by
      rw [sliceAssign_length, hB0]
      omega
    rw [get_binary_output]
    rw [sliceAssign_get_left _ _ _ _ (by omega) (by rw [hB1len]; omega)]
    exact sliceAssign_get_mid _ _ _ _ (by rw [hB0]; omega) hi

/-- C10 witness: the placement component applied to a one-byte text
buffer. -/
theorem C10_org_witness :
    (0x20 + ({initAsm with text := [0xAB]} : Asm).text.length ≤ 0x8000 ∧
      0 < ({initAsm with text := [0xAB]} : Asm).text.length) ∧
    (get_binary_output {initAsm with text := [0xAB]})[0x20 + 0]?
      = ({initAsm with text := [0xAB]} : Asm).text[0]? :=
  ⟨⟨by decide, by decide⟩,
    C10_org_frame_effect.2.2.2 {initAsm with text := [0xAB]} 0 (by decide) (by decide)⟩

/-! ## State invariants: error severity and symbol definedness -/


/-- The state invariant behind C6 and C9: every recorded error has
severity `Error`, and every symbol-table record is defined. -/
def invOK (st : Asm) : Prop :=
  (∀ e ∈ st.errors, e.severity = "Error") ∧ (∀ p ∈ st.symbols, (p.2 : AsmSymbol).defined = true)

theorem invOK_init : invOK initAsm := by
  constructor
  · intro e he
    simp [initAsm] at he
  · decide

theorem invOK_add_error (st : Asm) (m : String) (l : Nat) (h : invOK st) :
    invOK (add_error st m l) := by
  obtain ⟨h1, h2⟩ := h
  unfold add_error add_error_full
  rw [if_pos rfl]
  refine ⟨?_, h2⟩
  intro e he
  rw [List.mem_append] at he
  rcases he with he | he
  · exact h1 e he
  · simp only [List.mem_singleton] at he
    rw [he]

theorem invOK_resolve (st : Asm) (n : String) (l : Nat) (h : invOK st) :
    invOK (resolve_symbol st n l).1 := by
  rw [resolve_symbol]
  cases hl : lookupSym st.symbols n with
  | none => exact invOK_add_error st _ l h
  | some sym =>
    simp only []
    split_ifs
    · exact invOK_add_error st _ l h
    · exact h

theorem setSym_defined (t : List (String × AsmSymbol)) (n : String) (sym : AsmSymbol)
    (ht : ∀ p ∈ t, (p.2 : AsmSymbol).defined = true) (hs : sym.defined = true) :
    ∀ p ∈ setSym t n sym, (p.2 : AsmSymbol).defined = true := by
  induction t with
  | nil =>
    intro p hp
    simp only [setSym, List.mem_singleton] at hp
    rw [hp]
    exact hs
  | cons q t ih =>
    intro p hp
    rw [setSym] at hp
    split_ifs at hp
    · rcases List.mem_cons.mp hp with h | h
      · rw [h]; exact hs
      · exact ht p (List.mem_cons_of_mem q h)
    · rcases List.mem_cons.mp hp with h | h
      · rw [h]; exact ht q (List.mem_cons_self q t)
      · exact ih (fun r hr => ht r (List.mem_cons_of_mem q hr)) p h

theorem mapSym_defined (t : List (String × AsmSymbol)) (n : String)
    (f : AsmSymbol → AsmSymbol) (hf : ∀ s, s.defined = true → (f s).defined = true)
    (ht : ∀ p ∈ t, (p.2 : AsmSymbol).defined = true) :
    ∀ p ∈ mapSym t n f, (p.2 : AsmSymbol).defined = true := by
  induction t with
  | nil =>
    intro p hp
    simp [mapSym] at hp
  | cons q t ih =>
    intro p hp
    rw [mapSym] at hp
    split_ifs at hp
    · rcases List.mem_cons.mp hp with h | h
      · rw [h]; exact hf q.2 (ht q (List.mem_cons_self q t))
      · exact ht p (List.mem_cons_of_mem q h)
    · rcases List.mem_cons.mp hp with h | h
      · rw [h]; exact ht q (List.mem_cons_self q t)
      · exact ih (fun r hr => ht r (List.mem_cons_of_mem q hr)) p h

theorem invOK_define (st : Asm) (n : String) (v : Int) (l : Nat) (g : Bool) (h : invOK st) :
    invOK (define_symbol st n v l g) := by
  rw [define_symbol]
  cases hl : lookupSym st.symbols n with
  | none =>
    exact ⟨h.1, setSym_defined st.symbols n _ h.2 rfl⟩
  | some sym =>
    simp only []
    split_ifs
    · exact invOK_add_error st _ l h
    · exact ⟨h.1, setSym_defined st.symbols n _ h.2 rfl⟩

theorem lookupSym_mem (t : List (String × AsmSymbol)) (n : String) (sym : AsmSymbol)
    (h : lookupSym t n = some sym) : ∃ k, (k, sym) ∈ t := by
  induction t with
  | nil => simp [lookupSym] at h
  | cons q t ih =>
    rw [lookupSym] at h
    split_ifs at h
    · exact ⟨q.1, by simp only [Option.some.injEq] at h; rw [← h]; exact List.mem_cons_self q t⟩
    · obtain ⟨k, hk⟩ := ih h
      exact ⟨k, List.mem_cons_of_mem q hk⟩

theorem invOK_equValue (st : Asm) (n : String) (l : Nat) (ts : List Token) (h : invOK st) :
    invOK (equValue st n l ts).1 := by
  cases ts with
  | nil => exact invOK_add_error st _ l h
  | cons v ts4 =>
    rw [equValue]
    split_ifs
    · exact invOK_define st n _ l false h
    · cases lookupSym st.symbols v.value with
      | some sym => exact invOK_define st n _ l false h
      | none => exact invOK_add_error st _ l h
    · exact invOK_add_error st _ l h

theorem invOK_equDir (st : Asm) (d : String) (l : Nat) (ts : List Token) (h : invOK st) :
    invOK (equDir st d l ts).1 := by
  cases ts with
  | nil => exact invOK_add_error st _ l h
  | cons u ts2 =>
    rw [equDir]
    split_ifs
    · exact invOK_equValue st u.value l (commaSkip ts2) h
    · exact invOK_add_error st _ l h

theorem invOK_orgDir (st : Asm) (l : Nat) (ts : List Token) (h : invOK st) :
    invOK (orgDir st l ts).1 := by
  cases ts with
  | nil => exact invOK_add_error st _ l h
  | cons u ts2 =>
    rw [orgDir]
    split_ifs
    · exact h
    · exact invOK_add_error st _ l h

theorem invOK_globalDir (st : Asm) (l : Nat) (ts : List Token) (h : invOK st) :
    invOK (globalDir st l ts).1 := by
  cases ts with
  | nil => exact invOK_add_error st _ l h
  | cons u ts2 =>
    rw [globalDir]
    split_ifs
    · exact ⟨h.1, mapSym_defined st.symbols u.value _ (fun s hs => hs) h.2⟩
    · exact h
    · exact invOK_add_error st _ l h

theorem invOK_strDir (st : Asm) (d : String) (l : Nat) (ts : List Token) (h : invOK st) :
    invOK (strDir st d l ts).1 := by
  cases ts with
  | nil => exact invOK_add_error st _ l h
  | cons u ts2 =>
    rw [strDir]
    split_ifs <;> first | exact h | exact invOK_add_error st _ l h

theorem invOK_spaceDir (st : Asm) (l : Nat) (ts : List Token) (h : invOK st) :
    invOK (spaceDir st l ts).1 := by
  cases ts with
  | nil => exact invOK_add_error st _ l h
  | cons u ts2 =>
    rw [spaceDir]
    split_ifs
    · exact h
    · exact invOK_add_error st _ l h

set_option maxHeartbeats 1000000 in
theorem invOK_pass1Dir (st : Asm) (d : String) (l : Nat) (ts : List Token) (h : invOK st) :
    invOK (pass1Dir st d l ts).1 := by
  rw [pass1Dir.eq_def]
  split_ifs <;>
    first
      | exact invOK_orgDir st l ts h
      | exact invOK_equDir st d l ts h
      | exact invOK_globalDir st l ts h
      | exact invOK_strDir st d l ts h
      | exact invOK_spaceDir st l ts h
      | exact h

theorem invOK_define_label (st : Asm) (n : String) (v : Int) (l : Nat) (h : invOK st) :
    invOK (define_symbol st n v l false) := invOK_define st n v l false h

theorem invOK_pass1Step (st st2 : Asm) (ts rest : List Token) (h : invOK st) :
    (pass1Step st ts = .cont st2 rest → invOK st2) ∧
    (pass1Step st ts = .done st2 → invOK st2) := by
  cases ts with
  | nil =>
    constructor
    · intro hc
      simp [pass1Step] at hc
    · intro hc
      simp only [pass1Step, PassOut.done.injEq] at hc
      rw [← hc]
      exact h
  | cons t ts =>
    rw [pass1Step]
    split_ifs
    · constructor
      · intro hc; simp at hc
      · intro hc
        simp only [PassOut.done.injEq] at hc
        rw [← hc]; exact h
    · constructor
      · intro hc
        simp only [PassOut.cont.injEq] at hc
        rw [← hc.1]; exact h
      · intro hc; simp at hc
    · constructor
      · intro hc
        simp only [PassOut.cont.injEq] at hc
        rw [← hc.1]
        exact invOK_define st t.value st.current_address t.line false h
      · intro hc; simp at hc
    · constructor
      · intro hc
        simp only [PassOut.cont.injEq] at hc
        rw [← hc.1]
        exact invOK_pass1Dir st (strLower t.value) t.line ts h
      · intro hc; simp at hc
    · constructor
      · intro hc
        simp only [PassOut.cont.injEq] at hc
        rw [← hc.1]; exact h
      · intro hc; simp at hc
    · constructor
      · intro hc
        simp only [PassOut.cont.injEq] at hc
        rw [← hc.1]; exact h
      · intro hc; simp at hc

theorem invOK_pass1GoF (fuel : Nat) : ∀ (st : Asm) (ts : List Token), invOK st →
    invOK (pass1GoF fuel st ts) := by
  induction fuel with
  | zero => intro st ts h; exact h
  | succ fuel ih =>
    intro st ts h
    rw [pass1GoF]
    cases hstep : pass1Step st ts with
    | done st2 => exact (invOK_pass1Step st st2 ts [] h).2 hstep
    | cont st2 rest => exact ih st2 rest ((invOK_pass1Step st st2 ts rest h).1 hstep)

theorem invOK_pass1 (st : Asm) (tokens : List Token) (h : invOK st) :
    invOK (pass1 st tokens) := by
  rw [pass1_eval]
  exact invOK_pass1GoF _ _ tokens h

theorem invOK_appendCur (st : Asm) (bs : List Nat) (h : invOK st) : invOK (appendCur st bs) := by
  rw [appendCur]
  split_ifs <;> exact h

theorem invOK_emitWord (st : Asm) (enc : Int) (h : invOK st) : invOK (emitWord st enc) := by
  rw [emitWord, appendCur]
  split_ifs <;> exact h

theorem invOK_parseOpsF : ∀ (st : Asm) (line fuel : Nat) (ts : List Token), invOK st →
    invOK (parseOpsF st line fuel ts).1 := by
  intro st line fuel ts
  induction st, line, fuel, ts using parseOpsF.induct
  all_goals intro h
  all_goals rw [parseOpsF.eq_def]
  all_goals try simp_all
  all_goals solve_by_elim [invOK_resolve]

theorem invOK_encodeSeq : ∀ (l : List (String × List PyVal)) (st : Asm), invOK st →
    (∀ st2, encodeSeq st l = .ok st2 → invOK st2) ∧
    (∀ st2 msg, encodeSeq st l = .error (st2, msg) → invOK st2) := by
  intro l
  induction l with
  | nil =>
    intro st h
    constructor
    · intro st2 he
      simp only [encodeSeq, Except.ok.injEq] at he
      rw [← he]
      exact h
    · intro st2 msg he
      simp [encodeSeq] at he
  | cons p rest ih =>
    intro st h
    constructor
    · intro st2 he
      rw [encodeSeq] at he
      cases henc : encode_instruction p.1 p.2 st.current_address with
      | ok e =>
        rw [henc] at he
        exact (ih (emitWord st e) (invOK_emitWord st e h)).1 st2 he
      | error msg =>
        rw [henc] at he
        simp at he
    · intro st2 msg he
      rw [encodeSeq] at he
      cases henc : encode_instruction p.1 p.2 st.current_address with
      | ok e =>
        rw [henc] at he
        exact (ih (emitWord st e) (invOK_emitWord st e h)).2 st2 msg he
      | error m2 =>
        rw [henc] at he
        simp only [Except.error.injEq, Prod.mk.injEq] at he
        rw [← he.1]
        exact h

theorem invOK_encodeWrap_seq (st : Asm) (m : String) (l : Nat)
    (exps : List (String × List PyVal)) (h : invOK st) :
    invOK (encodeWrap m l (encodeSeq st exps)) := by
  cases hs : encodeSeq st exps with
  | ok st2 => exact (invOK_encodeSeq exps st h).1 st2 hs
  | error p =>
    obtain ⟨st2, msg⟩ := p
    exact invOK_add_error st2 _ l ((invOK_encodeSeq exps st h).2 st2 msg hs)

theorem invOK_encodeWrap_err (st : Asm) (m : String) (l : Nat) (msg : String) (h : invOK st) :
    invOK (encodeWrap m l (.error (st, msg))) :=
  invOK_add_error st _ l h

theorem invOK_execInstr (st : Asm) (m : String) (ops : List Int) (l : Nat) (h : invOK st) :
    invOK (execInstr st m ops l) := by
  rcases ops with - | ⟨rd, - | ⟨imm, rest2⟩⟩ <;> rw [execInstr] <;> (try split_ifs) <;>
    try split
  all_goals
    first
      | exact invOK_encodeWrap_err st m l _ h
      | exact invOK_encodeWrap_seq st m l _ h
      | simp

theorem invOK_org2Dir (st : Asm) (ts : List Token) (h : invOK st) :
    invOK (org2Dir st ts).1 := by
  cases ts with
  | nil => exact h
  | cons u ts2 =>
    rw [org2Dir]
    split_ifs <;> exact h

theorem invOK_str2Dir (st : Asm) (d : String) (ts : List Token) (h : invOK st) :
    invOK (str2Dir st d ts).1 := by
  cases ts with
  | nil => exact h
  | cons u ts2 =>
    rw [str2Dir]
    split_ifs <;> first
      | exact h
      | exact invOK_appendCur _ [0] (invOK_appendCur st _ h)
      | exact invOK_appendCur st _ h

theorem invOK_space2Dir (st : Asm) (ts : List Token) (h : invOK st) :
    invOK (space2Dir st ts).1 := by
  cases ts with
  | nil => exact h
  | cons u ts2 =>
    rw [space2Dir]
    split_ifs <;> first
      | exact h
      | exact invOK_appendCur st _ h

set_option maxHeartbeats 1000000 in
theorem invOK_pass2Dir (st : Asm) (d : String) (ts : List Token) (h : invOK st) :
    invOK (pass2Dir st d ts).1 := by
  rw [pass2Dir.eq_def]
  split_ifs <;> first
    | exact invOK_org2Dir st ts h
    | exact invOK_str2Dir st d ts h
    | exact invOK_space2Dir st ts h
    | exact invOK_appendCur st _ h
    | exact h

theorem invOK_pass2Step (st st2 : Asm) (ts rest : List Token) (h : invOK st) :
    (pass2Step st ts = .cont st2 rest → invOK st2) ∧
    (pass2Step st ts = .done st2 → invOK st2) := by
  cases ts with
  | nil =>
    constructor
    · intro hc
      simp [pass2Step] at hc
    · intro hc
      simp only [pass2Step, PassOut.done.injEq] at hc
      rw [← hc]
      exact h
  | cons t ts =>
    rw [pass2Step]
    split_ifs
    · constructor
      · intro hc; simp at hc
      · intro hc
        simp only [PassOut.done.injEq] at hc
        rw [← hc]; exact h
    · constructor
      · intro hc
        simp only [PassOut.cont.injEq] at hc
        rw [← hc.1]; exact h
      · intro hc; simp at hc
    · constructor
      · intro hc
        simp only [PassOut.cont.injEq] at hc
        rw [← hc.1]; exact h
      · intro hc; simp at hc
    · constructor
      · intro hc
        simp only [PassOut.cont.injEq] at hc
        rw [← hc.1]
        exact invOK_pass2Dir st (strLower t.value) ts h
      · intro hc; simp at hc
    · constructor
      · intro hc
        simp only [PassOut.cont.injEq] at hc
        rw [← hc.1]
        exact invOK_execInstr _ (strLower t.value) _ t.line
          (invOK_parseOpsF st t.line (ts.length + 1) ts h)
      · intro hc; simp at hc
    · constructor
      · intro hc
        simp only [PassOut.cont.injEq] at hc
        rw [← hc.1]; exact h
      · intro hc; simp at hc

theorem invOK_pass2GoF (fuel : Nat) : ∀ (st : Asm) (ts : List Token), invOK st →
    invOK (pass2GoF fuel st ts) := by
  induction fuel with
  | zero => intro st ts h; exact h
  | succ fuel ih =>
    intro st ts h
    rw [pass2GoF]
    cases hstep : pass2Step st ts with
    | done st2 => exact (invOK_pass2Step st st2 ts [] h).2 hstep
    | cont st2 rest => exact ih st2 rest ((invOK_pass2Step st st2 ts rest h).1 hstep)

theorem invOK_pass2 (st : Asm) (tokens : List Token) (h : invOK st) :
    invOK (pass2 st tokens) := by
  rw [pass2_eval]
  exact invOK_pass2GoF _ _ tokens h

theorem invOK_assemble (s : String) :
    match assemble s with
    | .hang => True
    | .ret _ st => invOK st := by
  rw [assemble]
  cases tokenize s with
  | hang => trivial
  | err e => exact invOK_add_error initAsm _ 0 invOK_init
  | ok tokens =>
    simp only []
    split_ifs
    · exact invOK_pass2 (pass1 initAsm tokens) tokens (invOK_pass1 initAsm tokens invOK_init)
    · exact invOK_pass1 initAsm tokens invOK_init

/-- C6: `assemble` returns false exactly when at least one diagnostic
of severity `Error` was recorded: the success flag is false iff the
error list is nonempty, and every recorded entry in the error list has
severity `Error` (warnings are kept in the separate warning list). -/
theorem C6_assemble_false_iff_error :
    ∀ s : String,
      match assemble s with
      | .hang => True
      | .ret ok st => ((ok = false) ↔ st.errors ≠ []) ∧ ∀ e ∈ st.errors, e.severity = "Error" := by
  intro s
  have hinv := invOK_assemble s
  rw [assemble] at hinv ⊢
  revert hinv
  cases tokenize s with
  | hang => intro _; trivial
  | err e =>
    intro hinv
    refine ⟨?_, hinv.1⟩
    constructor
    · intro _
      simp [add_error, add_error_full, initAsm]
    · intro _
      rfl
  | ok tokens =>
    intro hinv
    simp only [] at hinv ⊢
    split_ifs at hinv ⊢ with hemp
    · refine ⟨?_, hinv.1⟩
      rcases hl : (pass2 (pass1 initAsm tokens) tokens).errors with - | ⟨e, es⟩
      · simp [hl]
      · simp [hl]
    · refine ⟨?_, hinv.1⟩
      constructor
      · intro _ hnil
        rw [hnil] at hemp
        exact hemp rfl
      · intro _
        rfl

/-- C9: every symbol record ever stored is defined — the built-ins are
seeded defined and every state reachable through `assemble` keeps the
table all-defined — so `resolve_symbol`'s `Undefined symbol` branch is
unreachable: on an all-defined table it records an error only when the
name is absent (returning 0), and returns the stored value without any
error when the name is present. -/
theorem C9_symbols_always_defined :
    (∀ p ∈ initAsm.symbols, (p.2 : AsmSymbol).defined = true) ∧
    (∀ s : String,
      match assemble s with
      | .hang => True
      | .ret _ st => ∀ p ∈ st.symbols, (p.2 : AsmSymbol).defined = true) ∧
    (∀ (st : Asm) (name : String) (line : Nat),
      (∀ p ∈ st.symbols, (p.2 : AsmSymbol).defined = true) →
      match lookupSym st.symbols name with
      | some sym => resolve_symbol st name line = (st, sym.value)
      | none => resolve_symbol st name line
          = (add_error st ("Unknown symbol " ++ sQuote ++ name ++ sQuote) line, 0)) := by
  refine ⟨invOK_init.2, ?_, ?_⟩
  · intro s
    have hinv := invOK_assemble s
    revert hinv
    cases assemble s with
    | hang => intro _; trivial
    | ret ok st => intro hinv; exact hinv.2
  · intro st name line hdef
    cases hl : lookupSym st.symbols name with
    | some sym =>
      obtain ⟨k, hk⟩ := lookupSym_mem st.symbols name sym hl
      have hdefsym : sym.defined = true := hdef (k, sym) hk
      simp only []
      rw [resolve_symbol]
      simp only [hl]
      rw [if_neg (by rw [hdefsym]; simp)]
    | none =>
      simp only []
      rw [resolve_symbol]
      simp only [hl]

/-- C9 witness: the resolve dichotomy applied to the fresh state and
the built-in `T0`, which is present and defined, so its value 0 is
returned without recording an error. -/
theorem C9_resolve_witness :
    (∀ p ∈ initAsm.symbols, (p.2 : AsmSymbol).defined = true) ∧
    resolve_symbol initAsm "T0" 1 = (initAsm, 0) := by
  refine ⟨by decide, ?_⟩
  have h := C9_symbols_always_defined.2.2 initAsm "T0" 1 (by decide)
  have hl : lookupSym initAsm.symbols "T0" = some ⟨"T0", 0, true, true, 0⟩ := by decide
  simp only [hl] at h
  exact h

/-- C6 witness: the theorem instantiated at a concrete program. -/
theorem C6_assemble_witness :
    match assemble "li a0, 100\n" with
    | .hang => True
    | .ret ok st => ((ok = false) ↔ st.errors ≠ []) ∧ ∀ e ∈ st.errors, e.severity = "Error" :=
  C6_assemble_false_iff_error "li a0, 100\n"
